import Mathlib

/-!
SELAFIN loader (`telemac-loader.c`): embedding and verification.

The C functions of `telemac-loader.c` are embedded as pure Lean functions over an
explicit model of the `FILE` stream (contents, cursor, end-of-file flag); `main` of
`telemac-info.c` is embedded from the point where its options are parsed, with its
standard output as a list of `info_line` values.

Conventions of the embedding
* a byte is a `Fin 256`; a file is a list of bytes;
* `uint32_t` values are natural numbers, reduced modulo `2^32` where the C
  arithmetic wraps; the host is little-endian, so a `uint32_t` whose memory image
  is `[b0,b1,b2,b3]` has the value `b0 + 2^8 b1 + 2^16 b2 + 2^24 b3`;
* a `float` is represented by its IEEE-754 binary32 bit pattern, and the C
  comparisons on floats are the IEEE comparisons on these patterns;
* byte counts passed to `fread` and stream positions are unbounded naturals; the
  `size_t` expression stored in `datasize` wraps modulo `2^64` and is converted to
  the signed `off_t`;
* `calloc` always succeeds and returns zeroed memory;
* a result `none` stands for undefined behaviour of the C program: overflow of an
  `int` loop index running up to a count above `INT_MAX`, division by a zero
  `datasize`, overflow of `off_t` arithmetic, an access to `timestamp[timestep]`
  outside the array;
* output on `stdout`/`stderr` is not modelled, so the `verbose` argument has no
  effect.
-/

set_option linter.unusedVariables false
set_option maxRecDepth 100000

namespace Telemac

/-- One octet of a file or of memory. -/
abbrev Byte := Fin 256

/-- State of a C `FILE*` opened for reading: the file contents, the file position
indicator and the end-of-file indicator. -/
structure FILE where
  data : List Byte
  pos : Nat
  eof : Bool
deriving DecidableEq, Repr

/-- Value of a little-endian (host order) memory image as an unsigned number. -/
def le_val : List Byte → Nat
  | [] => 0
  | b :: bs => b.val + 256 * le_val bs

/-- Value of a big-endian (file order) byte sequence as an unsigned number. -/
def be_val (bs : List Byte) : Nat :=
  le_val bs.reverse

/-- Host memory image (little-endian, `n` bytes) of an unsigned value. -/
def le_bytes : Nat → Nat → List Byte
  | 0, _ => []
  | n + 1, x => Fin.ofNat (x % 256) :: le_bytes n (x / 256)

/-- Conversion `size_t → int` as done by `int counter = fread(...)`: reduction
modulo `2^32` into the signed 32-bit range. -/
def to_int (n : Nat) : Int :=
  if n % 4294967296 < 2147483648 then ((n % 4294967296 : Nat) : Int)
  else ((n % 4294967296 : Nat) : Int) - 4294967296

/-- Conversion `int → unsigned int`, applied by C when an `int` is compared with a
`uint32_t`. -/
def to_u32 (i : Int) : Nat :=
  (i % 4294967296).toNat

/-- Library `fseeko(stream, off, SEEK_SET)`: fails on a negative offset, otherwise
sets the position (possibly beyond the end) and clears the end-of-file flag. -/
def fseeko (f : FILE) (off : Int) : Int × FILE :=
  if off < 0 then (-1, f) else (0, { f with pos := off.toNat, eof := false })

/-- Library `ftello`. -/
def ftello (f : FILE) : Int :=
  (f.pos : Int)

/-- Library `fread(ptr, size, nmemb, stream)`. `buf` is the destination memory
before the call (`size * nmemb` bytes). Returns the number of complete items read,
the destination memory after the call (bytes that were available overwrite the
front of the buffer, the rest is untouched) and the new stream state. -/
def fread (buf : List Byte) (size nmemb : Nat) (f : FILE) : Nat × List Byte × FILE :=
  let got := (f.data.drop f.pos).take (size * nmemb)
  (got.length / size, got ++ buf.drop got.length,
    { f with pos := f.pos + got.length, eof := f.eof || decide (got.length < size * nmemb) })

/-- Embedding of `int_swap` (telemac-loader.c:33): reverse the four bytes of the
memory image of a `uint32_t`. -/
def int_swap (input : Nat) : Nat :=
  le_val (le_bytes 4 input).reverse

/-- Embedding of `float_swap` (telemac-loader.c:53) on binary32 bit patterns:
reverse the four bytes of the memory image. -/
def float_swap (value : Nat) : Nat :=
  le_val (le_bytes 4 value).reverse

/-- Embedding of `fortran_read` (telemac-loader.c:73). `cstruct` is the
destination memory before the call. Returns the `int` result, the destination
memory afterwards and the stream afterwards. -/
def fortran_read (cstruct : List Byte) (csize num : Nat) (fromfile : FILE) :
    Int × List Byte × FILE :=
  let r1 := fread (le_bytes 4 0) 4 1 fromfile
  let start_rec := le_val r1.2.1
  let r2 := fread cstruct csize num r1.2.2
  let counter := to_int r2.1
  let r3 := fread (le_bytes 4 0) 4 1 r2.2.2
  let end_rec := le_val r3.2.1
  if start_rec ≠ end_rec then (-1, r2.2.1, r3.2.2)
  else (counter, r2.2.1, r3.2.2)

/-- Split `n` consecutive 4-byte memory images into their `uint32_t` values
(how C sees a buffer of bytes through a `uint32_t*` or `float*`). -/
def le_words : Nat → List Byte → List Nat
  | 0, _ => []
  | n + 1, bs => le_val (bs.take 4) :: le_words n (bs.drop 4)

/-- Memory image of an array of `uint32_t` values. -/
def words_bytes (ws : List Nat) : List Byte :=
  ws.flatMap (le_bytes 4)

/-- The C string stored at the start of a memory region: the bytes before the
first NUL. -/
def cstr (mem : List Byte) : List Byte :=
  mem.takeWhile (fun b => b != 0)

/-- Result string of `snprintf(dst, n, "%s", src)`: the C string at `src`,
truncated to `n - 1` characters (the terminating NUL takes the last place). -/
def snprintf_s (n : Nat) (src : List Byte) : List Byte :=
  (cstr src).take (n - 1)

/-- Result sign of `strcmp(a, b)` on two C strings: zero iff they are equal. -/
def strcmp (a b : List Byte) : Int :=
  if a = b then 0 else 1

/-- The literal `"SERAFIN"`. -/
def SERAFIN : List Byte := [83, 69, 82, 65, 70, 73, 78]

/-- Largest value of a C `int`. -/
def INT_MAX : Nat := 2147483647

/-- Type `R5` / `datetime_t` (telemac-loader.h:56). -/
structure datetime_t where
  year : Nat
  month : Nat
  day : Nat
  hour : Nat
  minute : Nat
  second : Nat
deriving DecidableEq, Repr

/-- Type `telemac_data_t` (telemac-loader.h:84). `title` and `format` hold the C
string stored in the respective character array; each entry of `var_names` is the
32-byte buffer allocated for that name; `X`, `Y`, `XYrange` and `timestamp` hold
binary32 bit patterns. -/
structure telemac_data_t where
  title : List Byte
  format : List Byte
  nbv_1 : Nat
  nbv_2 : Nat
  date : datetime_t
  var_names : List (List Byte)
  iparam : List Nat
  nelem : Nat
  npoin : Nat
  ndp : Nat
  ikle : List Nat
  ipobo : List Nat
  X : List Nat
  Y : List Nat
  XYrange : List Nat
  nt : Nat
  timestamp : List Nat
  state : Int
deriving DecidableEq, Repr

/-- Type `resfile_t` (telemac-loader.h:121). -/
structure resfile_t where
  file : FILE
  meshstart : Int
  datastart : Int
  datasize : Int
  tmdat : telemac_data_t
deriving DecidableEq, Repr

/-- The loop of `get_telemac_header` (telemac-loader.c:214-225) over the variable
names: each iteration allocates 32 zero bytes, reads one record into them
(ignoring the result of `fortran_read`) and stores NUL in the last byte. -/
def read_var_names : Nat → FILE → List (List Byte) × FILE
  | 0, f => ([], f)
  | n + 1, f =>
    let r := fortran_read (List.replicate 32 0) 32 1 f
    let name := r.2.1.set 31 0
    let rest := read_var_names n r.2.2
    (name :: rest.1, rest.2)

/-- Last part of `get_telemac_header` (telemac-loader.c:260-281): record 6
(`nelem`, `npoin`, `ndp`, sentinel), the state change and the mesh offset. The
sentinel is only printed when it differs from one. -/
def header_r6 (rfile : resfile_t) (results : telemac_data_t) (f : FILE) :
    Option (Int × resfile_t) :=
  let r6 := fortran_read (List.replicate 16 0) 16 1 f
  if r6.1 ≠ 1 then some (-6, { rfile with file := r6.2.2, tmdat := results }) else
  let results := { results with
    nelem := int_swap (le_val (r6.2.1.take 4)),
    npoin := int_swap (le_val ((r6.2.1.drop 4).take 4)),
    ndp := int_swap (le_val ((r6.2.1.drop 8).take 4)),
    state := 1 }
  some (0, { rfile with file := r6.2.2, meshstart := ftello r6.2.2, tmdat := results })

/-- Part of `get_telemac_header` (telemac-loader.c:227-258): the `iparam` record,
read straight into `results->iparam` and byte-swapped after a complete read, then
the date record when `iparam[9] == 1`. -/
def header_r4 (rfile : resfile_t) (results : telemac_data_t) (f : FILE) :
    Option (Int × resfile_t) :=
  let r4 := fortran_read (words_bytes results.iparam) 40 1 f
  let results := { results with iparam := le_words 10 r4.2.1 }
  if r4.1 ≠ 1 then some (-4, { rfile with file := r4.2.2, tmdat := results }) else
  let results := { results with iparam := results.iparam.map int_swap }
  if results.iparam.getD 9 0 = 1 then
    let r5 := fortran_read (List.replicate 24 0) 24 1 r4.2.2
    if r5.1 ≠ 1 then some (-5, { rfile with file := r5.2.2, tmdat := results }) else
    let results := { results with date :=
      { year := int_swap (le_val (r5.2.1.take 4)),
        month := int_swap (le_val ((r5.2.1.drop 4).take 4)),
        day := int_swap (le_val ((r5.2.1.drop 8).take 4)),
        hour := int_swap (le_val ((r5.2.1.drop 12).take 4)),
        minute := int_swap (le_val ((r5.2.1.drop 16).take 4)),
        second := int_swap (le_val ((r5.2.1.drop 20).take 4)) } }
    header_r6 rfile results r5.2.2
  else
    header_r6 rfile results r4.2.2

/-- Part of `get_telemac_header` (telemac-loader.c:190-225): record 2 with the two
variable counts, then the loop over the `nbv_1` variable names. The loop index is
an `int` compared with the `uint32_t` count, so the loop is undefined for
`nbv_1 > INT_MAX`. -/
def header_r2 (rfile : resfile_t) (results : telemac_data_t) (f : FILE) :
    Option (Int × resfile_t) :=
  let r2 := fortran_read (List.replicate 8 0) 8 1 f
  if r2.1 ≠ 1 then some (-2, { rfile with file := r2.2.2, tmdat := results }) else
  let results := { results with
    nbv_1 := int_swap (le_val (r2.2.1.take 4)),
    nbv_2 := int_swap (le_val ((r2.2.1.drop 4).take 4)) }
  if INT_MAX < results.nbv_1 then none else
  let vn := read_var_names results.nbv_1 r2.2.2
  let results := { results with var_names := vn.1 }
  header_r4 rfile results vn.2

/-- Embedding of `get_telemac_header` (telemac-loader.c:147); the parts after the
format check are `header_r2`, `header_r4` and `header_r6`. Stack records (`R1`,
`R2`, `R5`, `R6`) are only inspected after a complete read, so their initial
contents are taken as zero. The source of each `snprintf` is the memory from the
start of the field to the end of the record. -/
def get_telemac_header (rfile : resfile_t) (verbose : Int) : Option (Int × resfile_t) :=
  let results := rfile.tmdat
  let sk := fseeko rfile.file 0
  if sk.1 ≠ 0 then some (-1, rfile) else
  let r1 := fortran_read (List.replicate 80 0) 80 1 sk.2
  if r1.1 ≠ 1 then some (-1, { rfile with file := r1.2.2 }) else
  let results := { results with
    title := snprintf_s 72 r1.2.1, format := snprintf_s 8 (r1.2.1.drop 72) }
  if strcmp results.format SERAFIN ≠ 0 then
    some (-1, { rfile with file := r1.2.2, tmdat := results }) else
  header_r2 rfile results r1.2.2

/-- IEEE-754 binary32: the bit pattern is a NaN (exponent all ones, non-zero
fraction). -/
def f32_isnan (b : Nat) : Bool :=
  decide (2139095040 < b % 2147483648)

/-- IEEE-754 binary32: a signed integer that orders the non-NaN bit patterns as
their values are ordered (sign-magnitude reading; both zeros map to 0). -/
def f32_key (b : Nat) : Int :=
  if b / 2147483648 % 2 = 1 then -((b % 2147483648 : Nat) : Int)
  else ((b % 2147483648 : Nat) : Int)

/-- The C comparison `a < b` on two `float` values given by their bit patterns
(false as soon as one operand is a NaN). -/
def f32_lt (a b : Nat) : Bool :=
  !f32_isnan a && !f32_isnan b && decide (f32_key a < f32_key b)

/-- Bit pattern of `INFINITY`. -/
def F32_INF : Nat := 2139095040

/-- Bit pattern of `-INFINITY`. -/
def F32_NEG_INF : Nat := 4286578688

/-- One iteration of a coordinate loop of `get_telemac_mesh`
(telemac-loader.c:364-371 with `lo = 0`, `hi = 1`; 392-399 with `lo = 2`,
`hi = 3`) on the already swapped value `v`: lower `XYrange[lo]`, raise
`XYrange[hi]`. -/
def range_step (lo hi : Nat) (range : List Nat) (v : Nat) : List Nat :=
  let range := if f32_lt v (range.getD lo 0) then range.set lo v else range
  if f32_lt (range.getD hi 0) v then range.set hi v else range

/-- Conversion of a `size_t` value to `off_t` (two-complement, 64 bit). -/
def to_off (n : Nat) : Int :=
  if n % 18446744073709551616 < 9223372036854775808
  then ((n % 18446744073709551616 : Nat) : Int)
  else ((n % 18446744073709551616 : Nat) : Int) - 18446744073709551616

/-- The expression assigned to `rfile->datasize` (telemac-loader.c:429):
`nbv_1 + nbv_2` is a `uint32_t` sum, the rest is `size_t` arithmetic, the result
is stored in an `off_t`. -/
def datasize_expr (nbv_1 nbv_2 npoin : Nat) : Int :=
  to_off (8 + 4 + ((nbv_1 + nbv_2) % 4294967296) * (4 * npoin + 8))

/-- End of `get_telemac_mesh` (telemac-loader.c:415-443): file size from
`fstat`, per-timestep size, number of timesteps, timestamp array, state 2 and
data offset. A zero `datasize` makes the division undefined. -/
def mesh_nt (rfile : resfile_t) (results : telemac_data_t) (f : FILE) :
    Option (Int × resfile_t) :=
  let size : Int := (f.data.length : Int)
  let datasize := datasize_expr results.nbv_1 results.nbv_2 results.npoin
  if datasize = 0 then none else
  let results := { results with nt := to_u32 (Int.tdiv (size - ftello f) datasize) }
  let results := { results with timestamp := List.replicate results.nt 0, state := 2 }
  some (0, { rfile with
    file := f, datasize := datasize, datastart := ftello f, tmdat := results })

/-- Y part of `get_telemac_mesh` (telemac-loader.c:384-408). -/
def mesh_Y (rfile : resfile_t) (results : telemac_data_t) (f : FILE) :
    Option (Int × resfile_t) :=
  let r := fortran_read (List.replicate (4 * results.npoin) 0) 4 results.npoin f
  let results := { results with Y := le_words results.npoin r.2.1 }
  if to_u32 r.1 ≠ results.npoin then
    some (-4, { rfile with file := r.2.2, tmdat := results }) else
  if INT_MAX < results.npoin then none else
  let results := { results with
    Y := results.Y.map float_swap,
    XYrange := (results.Y.map float_swap).foldl (range_step 2 3) results.XYrange }
  mesh_nt rfile results r.2.2

/-- X part of `get_telemac_mesh` (telemac-loader.c:350-382). -/
def mesh_X (rfile : resfile_t) (results : telemac_data_t) (f : FILE) :
    Option (Int × resfile_t) :=
  let results := { results with XYrange := [F32_INF, F32_NEG_INF, F32_INF, F32_NEG_INF] }
  let r := fortran_read (List.replicate (4 * results.npoin) 0) 4 results.npoin f
  let results := { results with X := le_words results.npoin r.2.1 }
  if to_u32 r.1 ≠ results.npoin then
    some (-3, { rfile with file := r.2.2, tmdat := results }) else
  if INT_MAX < results.npoin then none else
  let results := { results with
    X := results.X.map float_swap,
    XYrange := (results.X.map float_swap).foldl (range_step 0 1) results.XYrange }
  mesh_Y rfile results r.2.2

/-- IPOBO part of `get_telemac_mesh` (telemac-loader.c:331-348). -/
def mesh_ipobo (rfile : resfile_t) (results : telemac_data_t) (f : FILE) :
    Option (Int × resfile_t) :=
  let r := fortran_read (List.replicate (4 * results.npoin) 0) 4 results.npoin f
  let results := { results with ipobo := le_words results.npoin r.2.1 }
  if to_u32 r.1 ≠ results.npoin then
    some (-2, { rfile with file := r.2.2, tmdat := results }) else
  if INT_MAX < results.npoin then none else
  let results := { results with ipobo := results.ipobo.map int_swap }
  mesh_X rfile results r.2.2

/-- Embedding of `get_telemac_mesh` (telemac-loader.c:284); the parts after the
connectivity table are `mesh_ipobo`, `mesh_X`, `mesh_Y` and `mesh_nt`. Where a
read was taken as complete, the `for (int i = 0; i < count; i++)` loop that follows
is undefined for `count > INT_MAX`. -/
def get_telemac_mesh (rfile : resfile_t) (verbose : Int) : Option (Int × resfile_t) :=
  let results := rfile.tmdat
  if results.state ≠ 1 then some (-1, rfile) else
  let sk := fseeko rfile.file rfile.meshstart
  if sk.1 ≠ 0 then some (-1, rfile) else
  let n := (results.nelem * results.ndp) % 4294967296
  let r := fortran_read (List.replicate (4 * n) 0) 4 n sk.2
  let results := { results with ikle := le_words n r.2.1 }
  if to_u32 r.1 ≠ n then some (-1, { rfile with file := r.2.2, tmdat := results }) else
  if INT_MAX < n then none else
  let results := { results with ikle := results.ikle.map int_swap }
  mesh_ipobo rfile results r.2.2

/-- Last part of `open_telemac` (telemac-loader.c:128-144): seek to the end of the
last computed timestep and try to read one more byte. The offset passed to `fseeko`
is `off_t` arithmetic; overflow of it is undefined. -/
def open_check (rfile : resfile_t) : Option (Int × resfile_t) :=
  let results := rfile.tmdat
  let prod := rfile.datasize * results.nt
  let off := rfile.datastart + prod
  if prod < -9223372036854775808 ∨ 9223372036854775808 ≤ prod
      ∨ off < -9223372036854775808 ∨ 9223372036854775808 ≤ off then none else
  let sk := fseeko rfile.file off
  if sk.1 ≠ 0 then some (-1, { rfile with file := sk.2 }) else
  let fr := fread [0] 1 1 sk.2
  if fr.1 ≠ 0 ∧ fr.2.2.eof = false then some (3, { rfile with file := fr.2.2 }) else
  some (0, { rfile with file := fr.2.2 })

/-- Embedding of `open_telemac` (telemac-loader.c:104); its last part is
`open_check`. -/
def open_telemac (rfile : resfile_t) (verbose : Int) : Option (Int × resfile_t) :=
  match get_telemac_header rfile verbose with
  | none => none
  | some (rh, rfile) =>
  if rh < 0 then some (-1, rfile) else
  match get_telemac_mesh rfile verbose with
  | none => none
  | some (rm, rfile) =>
  if rm < 0 then some (-2, rfile) else
  open_check rfile

/-- Big-endian (file order) image of a 32-bit value. -/
def be_bytes (x : Nat) : List Byte :=
  (le_bytes 4 x).reverse

/-- File image of a sequence of 32-bit values, each big-endian. -/
def be_words (ws : List Nat) : List Byte :=
  ws.flatMap be_bytes

/-- Record framing of the file format (spec section 6):
`[uint32 BE length][payload][uint32 BE length]`. -/
def record (payload : List Byte) : List Byte :=
  be_bytes payload.length ++ payload ++ be_bytes payload.length

/-- Parameters from which a SELAFIN file is laid out (spec section 6): the
72-byte title, the eighth byte of the format tag, the 32-byte variable names
(`nbv_1` is their number), `nbv_2`, the ten `iparam` values, the start date
(written iff `iparam[9] = 1`), the mesh sizes and arrays, and for each timestep
its timestamp and its variable arrays. -/
structure selafin_params where
  title : List Byte
  tag_pad : Byte
  names : List (List Byte)
  nbv_2 : Nat
  iparam : List Nat
  date : datetime_t
  nelem : Nat
  npoin : Nat
  ndp : Nat
  ikle : List Nat
  ipobo : List Nat
  X : List Nat
  Y : List Nat
  steps : List (Nat × List (List Nat))

/-- Header section of the record table of spec section 6. -/
def layout_header (p : selafin_params) : List Byte :=
  record (p.title ++ (SERAFIN ++ [p.tag_pad]))
  ++ record (be_bytes p.names.length ++ be_bytes p.nbv_2)
  ++ p.names.flatMap record
  ++ record (be_words p.iparam)
  ++ (if p.iparam.getD 9 0 = 1 then
        record (be_words [p.date.year, p.date.month, p.date.day,
          p.date.hour, p.date.minute, p.date.second])
      else [])
  ++ record (be_words [p.nelem, p.npoin, p.ndp, 1])

/-- Mesh section of the record table of spec section 6. -/
def layout_mesh (p : selafin_params) : List Byte :=
  record (be_words p.ikle) ++ record (be_words p.ipobo)
  ++ record (be_words p.X) ++ record (be_words p.Y)

/-- One timestep of the record table of spec section 6: the timestamp record
followed by one record per variable. -/
def layout_step (st : Nat × List (List Nat)) : List Byte :=
  record (be_bytes st.1) ++ st.2.flatMap (fun arr => record (be_words arr))

/-- File laid out as the record table of spec section 6 prescribes. -/
def layout (p : selafin_params) : List Byte :=
  layout_header p ++ layout_mesh p ++ p.steps.flatMap layout_step

/-- A zero-initialised `telemac_data_t`. -/
def zero_data : telemac_data_t :=
  { title := [], format := [], nbv_1 := 0, nbv_2 := 0,
    date := { year := 0, month := 0, day := 0, hour := 0, minute := 0, second := 0 },
    var_names := [], iparam := List.replicate 10 0,
    nelem := 0, npoin := 0, ndp := 0,
    ikle := [], ipobo := [], X := [], Y := [], XYrange := [0, 0, 0, 0],
    nt := 0, timestamp := [], state := 0 }

/-- Handle as set up by the callers before `open_telemac`
(`resfile_t rfs = {resfile, 0, 0, 0}`): a freshly opened stream, everything else
zero. -/
def fresh_handle (data : List Byte) : resfile_t :=
  { file := { data := data, pos := 0, eof := false },
    meshstart := 0, datastart := 0, datasize := 0, tmdat := zero_data }

/-- The end-to-end example of spec section 8: one variable `H`, three points,
one triangle, two timesteps, no date record. -/
def minimal_params : selafin_params :=
  { title := [84, 69, 83, 84] ++ List.replicate 68 32,
    tag_pad := 32,
    names := [[72] ++ List.replicate 31 32],
    nbv_2 := 0,
    iparam := [1, 0, 0, 0, 0, 0, 0, 0, 0, 0],
    date := { year := 0, month := 0, day := 0, hour := 0, minute := 0, second := 0 },
    nelem := 1, npoin := 3, ndp := 3,
    ikle := [1, 2, 3], ipobo := [1, 2, 3],
    X := [3212836864, 1075838976, 0], Y := [0, 1065353216, 1073741824],
    steps := [(0, [[1065353216, 1073741824, 1077936128]]),
              (1065353216, [[1082130432, 1084227584, 1086324736]])] }

/-- Spec-side reading of "trimmed": the field with its trailing NUL and space
bytes removed. -/
def spec_trim (field : List Byte) : List Byte :=
  (field.reverse.dropWhile (fun b => b == 0 || b == 32)).reverse

/-- The handle left by a loader call, `dflt` when the call has no defined result. -/
def handle_after (r : Option (Int × resfile_t)) (dflt : resfile_t) : resfile_t :=
  match r with
  | some (_, h) => h
  | none => dflt

/-- The header example of spec section 8: three variables `H`, `U`, `V`, each name
padded with spaces to 32 bytes as SELAFIN writers do; no timestep. -/
def huv_params : selafin_params :=
  { title := [84, 69, 83, 84] ++ List.replicate 68 32,
    tag_pad := 32,
    names := [[72] ++ List.replicate 31 32, [85] ++ List.replicate 31 32,
              [86] ++ List.replicate 31 32],
    nbv_2 := 0,
    iparam := [1, 0, 0, 0, 0, 0, 0, 0, 0, 0],
    date := { year := 0, month := 0, day := 0, hour := 0, minute := 0, second := 0 },
    nelem := 1, npoin := 3, ndp := 3,
    ikle := [1, 2, 3], ipobo := [1, 2, 3],
    X := [3212836864, 1075838976, 0], Y := [0, 1065353216, 1073741824],
    steps := [] }

/-- The same header with the three names padded with NUL bytes instead. -/
def huv_nul_params : selafin_params :=
  { huv_params with
    names := [[72] ++ List.replicate 31 0, [85] ++ List.replicate 31 0,
              [86] ++ List.replicate 31 0] }

/-- The minimal file with the 8-byte format tag `SERAFIN2`. -/
def serafin2_params : selafin_params :=
  { minimal_params with tag_pad := 50 }

/-- The minimal file with a title field `T`, one space, then 70 NUL bytes. -/
def short_title_params : selafin_params :=
  { minimal_params with title := [84, 32] ++ List.replicate 70 0 }

/-- Header section of the minimal file in which the variable-name record is framed
by a leading marker 32 and a trailing marker 33. -/
def bad_name_header : List Byte :=
  record (minimal_params.title ++ (SERAFIN ++ [32]))
  ++ record (be_bytes 1 ++ be_bytes 0)
  ++ (be_bytes 32 ++ ([72] ++ List.replicate 31 32) ++ be_bytes 33)
  ++ record (be_words minimal_params.iparam)
  ++ record (be_words [1, 3, 3, 1])

/-- The C comparison `a <= b` on two `float` values given by their bit patterns. -/
def f32_le (a b : Nat) : Bool :=
  !f32_isnan a && !f32_isnan b && decide (f32_key a ≤ f32_key b)

/-- The bounding-box example of spec section 8: two points with
`X = [-1.0, 2.5]` (bit patterns `0xBF800000`, `0x40200000`), one two-node element,
no variable and no timestep. -/
def bbox_params : selafin_params :=
  { title := List.replicate 72 32,
    tag_pad := 32,
    names := [],
    nbv_2 := 0,
    iparam := [1, 0, 0, 0, 0, 0, 0, 0, 0, 0],
    date := { year := 0, month := 0, day := 0, hour := 0, minute := 0, second := 0 },
    nelem := 1, npoin := 2, ndp := 2,
    ikle := [1, 2], ipobo := [1, 0],
    X := [3212836864, 1075838976], Y := [1084227584, 3221225472],
    steps := [] }

/-- Handle of the minimal file after `get_telemac_header`. -/
def minimal_header_handle : resfile_t :=
  handle_after (get_telemac_header (fresh_handle (layout minimal_params)) 0) (fresh_handle [])

/-- Handle of the minimal file after `get_telemac_header` and `get_telemac_mesh`. -/
def minimal_mesh_handle : resfile_t :=
  handle_after (get_telemac_mesh minimal_header_handle 0) (fresh_handle [])

/-- Handle of the bounding-box example after `get_telemac_header`. -/
def bbox_header_handle : resfile_t :=
  handle_after (get_telemac_header (fresh_handle (layout bbox_params)) 0) (fresh_handle [])

/-- Handle of the bounding-box example after `get_telemac_header` and
`get_telemac_mesh`. -/
def bbox_mesh_handle : resfile_t :=
  handle_after (get_telemac_mesh bbox_header_handle 0) (fresh_handle [])

/-- Handle of the NUL-padded `H`, `U`, `V` header after `get_telemac_header`. -/
def huv_nul_handle : resfile_t :=
  handle_after (get_telemac_header (fresh_handle (layout huv_nul_params)) 0) (fresh_handle [])

/-- Handle of the short-title file after `get_telemac_header`. -/
def short_title_handle : resfile_t :=
  handle_after (get_telemac_header (fresh_handle (layout short_title_params)) 0)
    (fresh_handle [])

/-- The update of a running minimum in the coordinate loops: `if (v < lo) lo = v`. -/
def min_step (lo v : Nat) : Nat :=
  if f32_lt v lo then v else lo

/-- The update of a running maximum in the coordinate loops: `if (v > hi) hi = v`. -/
def max_step (hi v : Nat) : Nat :=
  if f32_lt hi v then v else hi

/-- The header parameters fit the fields of the record table: a 72-byte title,
32-byte names, 32-bit counts and values, and a name count for which the `int` loop
index of the decoder is defined. -/
def header_ok (p : selafin_params) : Prop :=
  p.title.length = 72 ∧ (∀ nm ∈ p.names, nm.length = 32) ∧ p.names.length ≤ INT_MAX
  ∧ p.nbv_2 < 4294967296 ∧ p.iparam.length = 10 ∧ (∀ x ∈ p.iparam, x < 4294967296)
  ∧ (p.date.year < 4294967296 ∧ p.date.month < 4294967296 ∧ p.date.day < 4294967296
    ∧ p.date.hour < 4294967296 ∧ p.date.minute < 4294967296 ∧ p.date.second < 4294967296)
  ∧ p.nelem < 4294967296 ∧ p.npoin < 4294967296 ∧ p.ndp < 4294967296

instance (p : selafin_params) : Decidable (header_ok p) := by
  unfold header_ok
  infer_instance

/-- The mesh arrays have the lengths the record table prescribes (`nelem * ndp`
for the connectivity, `npoin` for the others), within the range of the `int` loop
indices of the decoder. -/
def mesh_ok (p : selafin_params) : Prop :=
  p.ikle.length = p.nelem * p.ndp ∧ p.ikle.length ≤ INT_MAX
  ∧ p.ipobo.length = p.npoin ∧ p.X.length = p.npoin ∧ p.Y.length = p.npoin
  ∧ p.npoin ≤ INT_MAX

instance (p : selafin_params) : Decidable (mesh_ok p) := by
  unfold mesh_ok
  infer_instance

/-- Every timestep holds one array of `npoin` values per variable. -/
def steps_ok (p : selafin_params) : Prop :=
  ∀ st ∈ p.steps, st.2.length = p.names.length + p.nbv_2 ∧ ∀ arr ∈ st.2, arr.length = p.npoin

instance (p : selafin_params) : Decidable (steps_ok p) := by
  unfold steps_ok
  infer_instance

/-- Per-timestep size of spec section 3:
`8 + 4 + (nbv_1 + nbv_2) * (4 * npoin + 8)`. -/
def spec_stride (nbv_1 nbv_2 npoin : Nat) : Nat :=
  8 + 4 + (nbv_1 + nbv_2) * (4 * npoin + 8)

/-- The sizes fit the C types that hold them: the total variable count and the
timestep count in 32 bits, the per-timestep size and the file size in `off_t`. -/
def sizes_ok (p : selafin_params) : Prop :=
  p.names.length + p.nbv_2 < 4294967296 ∧ p.steps.length < 4294967296
  ∧ spec_stride p.names.length p.nbv_2 p.npoin < 9223372036854775808
  ∧ (layout p).length < 9223372036854775808

instance (p : selafin_params) : Decidable (sizes_ok p) := by
  unfold sizes_ok
  infer_instance

/-- Two `telemac_data_t` values agree on the fields set by the header decoder. -/
def same_header (a b : telemac_data_t) : Prop :=
  a.nbv_1 = b.nbv_1 ∧ a.nbv_2 = b.nbv_2 ∧ a.iparam = b.iparam ∧ a.date = b.date
  ∧ a.nelem = b.nelem ∧ a.npoin = b.npoin ∧ a.ndp = b.ndp

/-- A file with one 32-byte variable name, `nbv_2 = n - 1` further variables, an
empty mesh (`npoin = 0`) and a single timestep holding `n` empty arrays; for
`n = 2^32` the sum `nbv_1 + nbv_2` no longer fits in 32 bits. -/
def overflow_params (n : Nat) : selafin_params :=
  { title := List.replicate 72 32,
    tag_pad := 32,
    names := [List.replicate 32 32],
    nbv_2 := n - 1,
    iparam := [1, 0, 0, 0, 0, 0, 0, 0, 0, 0],
    date := { year := 0, month := 0, day := 0, hour := 0, minute := 0, second := 0 },
    nelem := 0, npoin := 0, ndp := 3,
    ikle := [], ipobo := [], X := [], Y := [],
    steps := [(0, List.replicate n [])] }

/-- IEEE-754 binary32: magnitude of the value of a pattern with the sign bit
cleared, in units of `2^-149` (subnormals for exponent 0, else the fraction with
its hidden bit scaled by the exponent). The infinity pattern gets `2^277`, above
every finite magnitude. -/
def f32_mag_value (m : Nat) : Nat :=
  if m / 8388608 = 0 then m % 8388608
  else (8388608 + m % 8388608) * 2 ^ (m / 8388608 - 1)

/-- IEEE-754 binary32: the rational value of a finite bit pattern. -/
def f32_value (b : Nat) : ℚ :=
  if b / 2147483648 % 2 = 1 then -((f32_mag_value (b % 2147483648) : ℚ) / 2 ^ 149)
  else (f32_mag_value (b % 2147483648) : ℚ) / 2 ^ 149

/-- The loop over the variables in `get_telemac_data` (telemac-loader.c:490-502),
`k` iterations from stream `f`: each allocates a zeroed array of `npoin` floats,
calls `fortran_read` on it without looking at the result, and byte-swaps every
entry. Returns the arrays in order and the stream afterwards. -/
def read_fields (npoin : Nat) : Nat → FILE → List (List Nat) × FILE
  | 0, f => ([], f)
  | k + 1, f =>
    let r := fortran_read (List.replicate (4 * npoin) 0) 4 npoin f
    let rest := read_fields npoin k r.2.2
    ((le_words npoin r.2.1).map float_swap :: rest.1, rest.2)

/-- Embedding of `get_telemac_data` (telemac-loader.c:446). The first component of
the result is the returned `float **`: `none` for `NULL`, otherwise the arrays.
The seek offset `datastart + timestep * datasize` is `off_t` arithmetic (overflow
undefined); the timestamp record is read straight into `timestamp[timestep]`,
which lies outside the array unless `0 <= timestep < ` its length; the result of
neither `fortran_read` is looked at; the loops have an `int` index compared with
a `uint32_t` count. -/
def get_telemac_data (rfile : resfile_t) (timestep : Int) (verbose : Int) :
    Option (Option (List (List Nat)) × resfile_t) :=
  let results := rfile.tmdat
  if results.state ≠ 2 then some (none, rfile) else
  let prod := timestep * rfile.datasize
  let off := rfile.datastart + prod
  if prod < -9223372036854775808 ∨ 9223372036854775808 ≤ prod
      ∨ off < -9223372036854775808 ∨ 9223372036854775808 ≤ off then none else
  let sk := fseeko rfile.file off
  if sk.1 ≠ 0 then some (none, rfile) else
  if timestep < 0 ∨ (results.timestamp.length : Int) ≤ timestep then none else
  let r := fortran_read (le_bytes 4 (results.timestamp.getD timestep.toNat 0)) 4 1 sk.2
  let results := { results with
    timestamp := results.timestamp.set timestep.toNat (float_swap (le_val r.2.1)) }
  let count := (results.nbv_1 + results.nbv_2) % 4294967296
  if INT_MAX < count then none else
  if 0 < count ∧ INT_MAX < results.npoin then none else
  let fields := read_fields results.npoin count r.2.2
  some (some fields.1, { rfile with file := fields.2, tmdat := results })

/-- The bytes `[off, off + 4)` of the file read as a big-endian 32-bit pattern. -/
def be_at (data : List Byte) (off : Nat) : Nat :=
  be_val ((data.drop off).take 4)

/-- The minimal file in which the field record of timestep 0 has the leading
length marker 12 and the trailing length marker 13. -/
def bad_field_file : List Byte :=
  layout_header minimal_params ++ layout_mesh minimal_params
  ++ (record (be_bytes 0)
      ++ (be_bytes 12 ++ be_words [1065353216, 1073741824, 1077936128] ++ be_bytes 13))
  ++ layout_step (1065353216, [[1082130432, 1084227584, 1086324736]])

/-- Handle of `bad_field_file` after `get_telemac_header` and `get_telemac_mesh`. -/
def bad_field_handle : resfile_t :=
  handle_after (get_telemac_mesh
    (handle_after (get_telemac_header (fresh_handle bad_field_file) 0) (fresh_handle [])) 0)
    (fresh_handle [])

/-- The minimal file of spec section 8 with `nbv_2 = 0xFFFFFFFF` in place of 0
(so `nbv_1 = 1`, `npoin = 3`) and without timesteps. -/
def wrapped_sum_params : selafin_params :=
  { minimal_params with nbv_2 := 4294967295, steps := [] }

/-- Header and mesh sections laid out from `wrapped_sum_params`. -/
def wrapped_sum_file : List Byte :=
  layout_header wrapped_sum_params ++ layout_mesh wrapped_sum_params

/-- Handle of `wrapped_sum_file` after `get_telemac_header`. -/
def wrapped_sum_handle : resfile_t :=
  handle_after (get_telemac_header (fresh_handle wrapped_sum_file) 0) (fresh_handle [])

/-- Header section alone of a file with one variable and an empty mesh
(`nelem = 0`, `npoin = 0`): the file ends where the mesh records should start. -/
def no_mesh_file : List Byte :=
  layout_header (overflow_params 1)

/-- Handle of `no_mesh_file` after `get_telemac_header`. -/
def no_mesh_handle : resfile_t :=
  handle_after (get_telemac_header (fresh_handle no_mesh_file) 0) (fresh_handle [])

/-- The minimal file of spec section 8 cut after the payload of the Y record, the
leading length marker of that record being 0: header, connectivity, boundary-point
and X records in full, then four zero bytes and the three Y values. -/
def cut_marker_file : List Byte :=
  layout_header minimal_params
  ++ record (be_words [1, 2, 3]) ++ record (be_words [1, 2, 3])
  ++ record (be_words [3212836864, 1075838976, 0])
  ++ (be_bytes 0 ++ be_words [0, 1065353216, 1073741824])

/-- Handle of `cut_marker_file` after `get_telemac_header`. -/
def cut_marker_handle : resfile_t :=
  handle_after (get_telemac_header (fresh_handle cut_marker_file) 0) (fresh_handle [])

/-- Mesh section for the stride example of spec section 8 (100 points, no
element): an empty connectivity record and three records of 100 zero values. -/
def stride_example_mesh : List Byte :=
  record (be_words []) ++ (record (be_words (List.replicate 100 0))
    ++ (record (be_words (List.replicate 100 0))
    ++ (record (be_words (List.replicate 100 0)) ++ [])))

/-- Handle in state 1 for the stride example of spec section 8: `nbv_1 = 2`,
`nbv_2 = 0`, `npoin = 100`, the mesh section starting at offset 0. -/
def stride_example_handle : resfile_t :=
  { fresh_handle stride_example_mesh with
    tmdat := { zero_data with nbv_1 := 2, npoin := 100, state := 1 } }

/-- Header parameters declaring `npoin = 0xFFFFFFFF` points, no element and no
variable. -/
def max_points_params : selafin_params :=
  { title := List.replicate 72 32,
    tag_pad := 32,
    names := [],
    nbv_2 := 0,
    iparam := [1, 0, 0, 0, 0, 0, 0, 0, 0, 0],
    date := { year := 0, month := 0, day := 0, hour := 0, minute := 0, second := 0 },
    nelem := 0, npoin := 4294967295, ndp := 3,
    ikle := [], ipobo := [], X := [], Y := [],
    steps := [] }

/-- A file with the header of `max_points_params`, an empty connectivity record,
and a boundary-point record of `k` zero payload bytes framed by the leading
length marker 1 and the trailing length marker 2. -/
def mismatch_file (k : Nat) : List Byte :=
  layout_header max_points_params
  ++ (record [] ++ (be_bytes 1 ++ (List.replicate k 0 ++ (be_bytes 2 ++ []))))

/-- The handle left by a call of `get_telemac_data`, `dflt` when the call has no
defined result. -/
def data_handle_after (r : Option (Option (List (List Nat)) × resfile_t))
    (dflt : resfile_t) : resfile_t :=
  match r with
  | some (_, h) => h
  | none => dflt

/-- Handle of the minimal file after header and mesh decoding and a
`get_telemac_data` call for timestep 1. -/
def minimal_step1_handle : resfile_t :=
  data_handle_after (get_telemac_data minimal_mesh_handle 1 0) (fresh_handle [])

/-- Spec-side hypothesis of the timestep reads ("a handle in state 2 over a
well-framed file", `t` in range): the handle is in state 2 with non-negative
`datastart` and `datasize`, its timestamp array has `nt` entries, `t < nt`, the
counts (`nbv_1 + nbv_2` as the `uint32_t` sum the code computes, and `npoin`) are
within the range of the `int` loop indices, and the file fits `off_t` and holds the
records of timestep `t` in full, from offset `datastart + t * datasize` on. -/
def step_in_file (rf : resfile_t) (t : Nat) : Prop :=
  rf.tmdat.state = 2 ∧ 0 ≤ rf.datastart ∧ 0 ≤ rf.datasize
  ∧ rf.tmdat.timestamp.length = rf.tmdat.nt ∧ t < rf.tmdat.nt
  ∧ (rf.tmdat.nbv_1 + rf.tmdat.nbv_2) % 4294967296 ≤ INT_MAX ∧ rf.tmdat.npoin ≤ INT_MAX
  ∧ rf.datastart.toNat + t * rf.datasize.toNat
      + (12 + (rf.tmdat.nbv_1 + rf.tmdat.nbv_2) % 4294967296 * (4 * rf.tmdat.npoin + 8))
      ≤ rf.file.data.length
  ∧ rf.file.data.length < 9223372036854775808

instance (rf : resfile_t) (t : Nat) : Decidable (step_in_file rf t) := by
  unfold step_in_file
  infer_instance

/-- One piece of the standard output of `telemac-info`, in the order of the
`printf` calls of `main` (telemac-info.c:79-149); floats are given by their bit
patterns, strings by their bytes. -/
inductive info_line where
  | opening
  | returned (rval : Int)
  | errors_continue
  | errors_abort
  | title (title format : List Byte)
  | date (d : datetime_t)
  | iparam_table (iparam : List Nat)
  | variables (names : List (List Byte))
  | range (xyrange : List Nat)
  | sizes (npoin nelem ndp : Nat)
  | times
  | step (t : Nat) (stamp : Nat)
  | steps (nt : Nat) (first last : Nat)
  | done
deriving DecidableEq, Repr

/-- A run of `telemac-info`: the value returned by `main`, the standard output, and
the timestep arguments of the `get_telemac_data` calls made, in order. -/
structure info_run where
  code : Int
  out : List info_line
  reads : List Int
deriving DecidableEq, Repr

/-- The loop `for (int t = 0; t < results.nt; t++)` of `main`
(telemac-info.c:118-127) with `k` iterations left at index `t`, followed by the end
of `main` (telemac-info.c:148-151). -/
def info_step_loop : Nat → Nat → resfile_t → List info_line → List Int → Option info_run
  | 0, _, _, out, reads =>
    some { code := 0, out := out ++ [info_line.done], reads := reads }
  | k + 1, t, rfs, out, reads =>
    match get_telemac_data rfs (t : Int) 1 with
    | none => none
    | some (none, _) => some { code := 1, out := out, reads := reads ++ [(t : Int)] }
    | some (some _, rfs) =>
      info_step_loop k (t + 1) rfs
        (out ++ [info_line.step t (rfs.tmdat.timestamp.getD t 0)]) (reads ++ [(t : Int)])

/-- The part of `main` after "Simulation Times:" (telemac-info.c:117-151). With
`verbose == 1` every timestep is read and listed (the `int` index is compared with
the `uint32_t` count `nt`); otherwise timestep 0 and timestep `nt - 1` are read,
`results.nt - 1` being a `uint32_t` difference converted to `int`. `nt` is the
copy of the count taken after `open_telemac`; `results.timestamp` points to the
array of the handle. -/
def info_times (rfs : resfile_t) (nt : Nat) (verbose : Nat) (out : List info_line) :
    Option info_run :=
  if verbose = 1 then
    if INT_MAX < nt then none else info_step_loop nt 0 rfs out []
  else
    match get_telemac_data rfs 0 (verbose : Int) with
    | none => none
    | some (none, _) => some { code := 1, out := out, reads := [0] }
    | some (some _, rfs) =>
    let last := to_int ((nt + 4294967295) % 4294967296)
    match get_telemac_data rfs last (verbose : Int) with
    | none => none
    | some (none, _) => some { code := 1, out := out, reads := [0, last] }
    | some (some _, rfs) =>
    some { code := 0,
           out := out ++ [info_line.steps nt (rfs.tmdat.timestamp.getD 0 0)
                    (rfs.tmdat.timestamp.getD ((nt + 4294967295) % 4294967296) 0),
                  info_line.done],
           reads := [0, last] }

/-- The summary part of `main` (telemac-info.c:97-116): title and format, the date
when `iparam[9] == 1`, the `iparam` table when verbose, the first `nbv_1` variable
names (an `int` index compared with the `uint32_t` count; `var_names` must hold
that many names), the coordinate range and the mesh sizes. -/
def info_summary (rfs : resfile_t) (verbose : Nat) (out : List info_line) :
    Option info_run :=
  let results := rfs.tmdat
  let out := out ++ [info_line.title results.title results.format]
  let out := if results.iparam.getD 9 0 = 1 then out ++ [info_line.date results.date] else out
  let out := if verbose ≠ 0 then out ++ [info_line.iparam_table results.iparam] else out
  if INT_MAX < results.nbv_1 ∨ results.var_names.length < results.nbv_1 then none else
  let out := out ++ [info_line.variables ((results.var_names.take results.nbv_1).map cstr),
    info_line.range results.XYrange,
    info_line.sizes results.npoin results.nelem results.ndp,
    info_line.times]
  info_times rfs results.nt verbose out

/-- Embedding of `main` of `telemac-info` (telemac-info.c:36) from the point where
the options are parsed and the file is open: `verbose` is the number of `-v`
options, `force` tells whether `-f` was given, `data` is the content of the file.
`open_telemac` gets a non-zero verbose argument only for `verbose > 1`. -/
def info_main (data : List Byte) (verbose : Nat) (force : Bool) : Option info_run :=
  let out := [info_line.opening]
  match open_telemac (fresh_handle data) (if 1 < verbose then 1 else 0) with
  | none => none
  | some (rval, rfs) =>
  let out := if verbose ≠ 0 then out ++ [info_line.returned rval] else out
  if rval < 0 ∧ force = false then
    some { code := rval, out := out ++ [info_line.errors_abort], reads := [] }
  else
  let out := if rval < 0 then out ++ [info_line.errors_continue] else out
  info_summary rfs verbose out

/-- What a call of a loader function leaves, apart from the bytes of the file: the
return code, the decoded data (with its state), `meshstart`, `datastart`,
`datasize` and the stream cursor with its end-of-file flag. -/
def call_view (r : Option (Int × resfile_t)) :
    Option (Int × telemac_data_t × Int × Int × Int × Nat × Bool) :=
  r.map (fun x => (x.1, x.2.tmdat, x.2.meshstart, x.2.datastart, x.2.datasize,
    x.2.file.pos, x.2.file.eof))

/-- Offset of the fourth field of the `nelem`/`npoin`/`ndp` record by the record
table of spec section 6: the title record (88 bytes), the record of the two counts
(16 bytes, `nbv_1` at offset 92), `nbv_1` name records of 40 bytes, the `iparam`
record (48 bytes, `iparam[9]` at its offset 40), the date record (32 bytes) when
`iparam[9] = 1`, then the leading marker and three fields (16 bytes). -/
def sentinel_offset (data : List Byte) : Nat :=
  104 + 40 * be_at data 92 + 48
    + (if be_at data (104 + 40 * be_at data 92 + 40) = 1 then 32 else 0) + 16

/-- The minimal file of spec section 8 with the value `s` in the fourth field of
its `nelem`/`npoin`/`ndp` record (bytes 208 to 211); `s = 1` gives the minimal file
itself. -/
def sentinel_file (s : Nat) : List Byte :=
  (layout minimal_params).take 208 ++ (be_bytes s ++ (layout minimal_params).drop 212)

/-- The minimal file of spec section 8 with `nelem = 1431655766` in place of 1
(`ndp = 3`, so `nelem * ndp = 2^32 + 2`), a connectivity record of two values, and
no timestep. -/
def wrapped_product_params : selafin_params :=
  { minimal_params with nelem := 1431655766, ikle := [1, 2], steps := [] }

/-- Handle of the file laid out from `wrapped_product_params` after
`get_telemac_header`. -/
def wrapped_product_handle : resfile_t :=
  handle_after (get_telemac_header (fresh_handle (layout wrapped_product_params)) 0)
    (fresh_handle [])

/-- The minimal file of spec section 8 with `nbv_2 = 0xFFFFFFFF` in place of 0
(`nbv_1 = 1`, `npoin = 3`) and one timestep that consists of its timestamp record
alone. -/
def wrapped_count_params : selafin_params :=
  { minimal_params with nbv_2 := 4294967295, steps := [(0, [])] }

/-- Handle of the file laid out from `wrapped_count_params` after `open_telemac`. -/
def wrapped_count_handle : resfile_t :=
  handle_after (open_telemac (fresh_handle (layout wrapped_count_params)) 0)
    (fresh_handle [])

/-- A file with the mesh of the minimal file of spec section 8, no variable
(`nbv_1 = 0`, `nbv_2 = 0`, so a timestep is its 12-byte timestamp record) and `n`
timesteps with timestamp 0. -/
def stamps_params (n : Nat) : selafin_params :=
  { minimal_params with names := [], steps := List.replicate n (0, []) }

/-- Parameters with one element, `n` points with all coordinates zero, no variable
name and `nbv_2 = 4294967292` variables; for `n = 1073741823` the size expression
`12 + (nbv_1 + nbv_2) * (4 * npoin + 8)` is `2^64 - 4`, which is stored in
`datasize` as -4. -/
def neg_stride_params (n : Nat) : selafin_params :=
  { minimal_params with
    names := [], nbv_2 := 4294967292, npoin := n,
    ipobo := List.replicate n 0, X := List.replicate n 0, Y := List.replicate n 0,
    steps := [] }

/-- Header and mesh sections laid out from `neg_stride_params n`, followed by four
zero bytes. -/
def neg_stride_file (n : Nat) : List Byte :=
  layout_header (neg_stride_params n) ++ (layout_mesh (neg_stride_params n) ++ [0, 0, 0, 0])

/-! ## Lemmas and theorems -/

theorem le_val_inj : ∀ (a b : List Byte), a.length = b.length → le_val a = le_val b → a = b
  | [], [], _, _ => rfl
  | [], _ :: _, h, _ => by simp at h
  | _ :: _, [], h, _ => by simp at h
  | x :: xs, y :: ys, h, hv => by
    simp only [le_val] at hv
    have hx := x.isLt
    have hy := y.isLt
    have h1 : x.val = y.val := by omega
    have h2 : le_val xs = le_val ys := by omega
    have h3 : xs.length = ys.length := by simpa using h
    rw [Fin.ext h1, le_val_inj xs ys h3 h2]

theorem fread_full (f : FILE) (buf p rest : List Byte) (size nmemb : Nat)
    (hp : p.length = size * nmemb) (hd : f.data.drop f.pos = p ++ rest) :
    fread buf size nmemb f
      = (p.length / size, p ++ buf.drop p.length, { f with pos := f.pos + p.length }) := by
  have hgot : (f.data.drop f.pos).take (size * nmemb) = p := by
    rw [hd, ← hp, List.take_left]
  simp only [fread, hgot, hp, lt_irrefl, decide_False, Bool.or_false]

theorem drop_after (f : FILE) (p rest : List Byte) (hd : f.data.drop f.pos = p ++ rest) :
    f.data.drop (f.pos + p.length) = rest := by
  rw [← List.drop_drop, hd, List.drop_left]

theorem fortran_read_framed (f : FILE) (buf L1 P L2 rest : List Byte) (csize num : Nat)
    (h1 : L1.length = 4) (h2 : L2.length = 4) (hP : P.length = csize * num)
    (hd : f.data.drop f.pos = L1 ++ (P ++ (L2 ++ rest))) :
    fortran_read buf csize num f
      = (if le_val L1 ≠ le_val L2 then -1 else to_int (P.length / csize),
         P ++ buf.drop P.length, { f with pos := f.pos + (P.length + 8) }) := by
  have e1 := fread_full f (le_bytes 4 0) L1 (P ++ (L2 ++ rest)) 4 1 (by simpa using h1) hd
  have d1 := drop_after f L1 _ hd
  have e2 := fread_full { f with pos := f.pos + L1.length } buf P (L2 ++ rest) csize num hP d1
  have d2 := drop_after { f with pos := f.pos + L1.length } P _ d1
  have e3 := fread_full { f with pos := f.pos + L1.length + P.length } (le_bytes 4 0) L2 rest 4 1
    (by simpa using h2) d2
  have z : List.drop 4 (le_bytes 4 0) = [] := rfl
  simp only [h1, h2, z, List.append_nil] at e1 e2 e3
  simp only [fortran_read, e1, e2, e3]
  have hpos : f.pos + 4 + P.length + 4 = f.pos + (P.length + 8) := by omega
  rw [hpos]
  by_cases hne : le_val L1 = le_val L2
  · simp [hne]
  · simp [hne]

theorem to_int_of_le (n : Nat) (h : n ≤ INT_MAX) : to_int n = (n : Int) := by
  unfold INT_MAX at h
  unfold to_int
  have h1 : n % 4294967296 = n := Nat.mod_eq_of_lt (by omega)
  rw [h1, if_pos (by omega)]

theorem to_int_ne_of_lt (c n : Nat) (h : c < n) : to_int c ≠ (n : Int) := by
  unfold to_int
  have h1 : c % 4294967296 ≤ c := Nat.mod_le _ _
  have h2 : c % 4294967296 < 4294967296 := Nat.mod_lt _ (by decide)
  split <;> omega

theorem le_val_append_zeros (l : List Byte) (k : Nat) :
    le_val (l ++ List.replicate k 0) = le_val l := by
  induction l with
  | nil =>
    induction k with
    | zero => rfl
    | succ k ih => simp [List.replicate_succ, le_val] at *; exact ih
  | cons b bs ih => simp [le_val, ih]

theorem drop_zero_word (n : Nat) : List.drop n (le_bytes 4 0) = List.replicate (4 - n) 0 := by
  rcases n with _ | _ | _ | _ | _ | n
  · rfl
  · rfl
  · rfl
  · rfl
  · rfl
  · simp [le_bytes]

/-- C1: on a stream holding a 4-byte leading marker `L1`, `csize * num` payload
bytes and a 4-byte trailing marker `L2` with `L1 ≠ L2` at the cursor,
`fortran_read` returns `-1`, which is never the item count `num`. -/
theorem fortran_read_mismatch (pre L1 P L2 post buf : List Byte) (csize num : Nat) (eof : Bool)
    (h1 : L1.length = 4) (h2 : L2.length = 4) (hP : P.length = csize * num) (hne : L1 ≠ L2) :
    (fortran_read buf csize num
        { data := pre ++ (L1 ++ (P ++ (L2 ++ post))), pos := pre.length, eof := eof }).1 = -1
    ∧ (fortran_read buf csize num
        { data := pre ++ (L1 ++ (P ++ (L2 ++ post))), pos := pre.length, eof := eof }).1
      ≠ (num : Int) := by
  have hv : le_val L1 ≠ le_val L2 := fun h => hne (le_val_inj L1 L2 (by rw [h1, h2]) h)
  have e := fortran_read_framed
    { data := pre ++ (L1 ++ (P ++ (L2 ++ post))), pos := pre.length, eof := eof }
    buf L1 P L2 post csize num h1 h2 hP (by simp)
  rw [e]
  simp only [hv, ne_eq, not_false_eq_true, if_true, true_and]
  omega

theorem fortran_read_mismatch_witness :
    (fortran_read [0, 0] 2 1
        { data := [9] ++ ([0, 0, 0, 2] ++ ([7, 8] ++ ([0, 0, 0, 3] ++ [5]))),
          pos := [(9 : Byte)].length, eof := false }).1 = -1
    ∧ (fortran_read [0, 0] 2 1
        { data := [9] ++ ([0, 0, 0, 2] ++ ([7, 8] ++ ([0, 0, 0, 3] ++ [5]))),
          pos := [(9 : Byte)].length, eof := false }).1 ≠ ((1 : Nat) : Int) :=
  fortran_read_mismatch [9] [0, 0, 0, 2] [7, 8] [0, 0, 0, 3] [5] [0, 0] 2 1 false
    (by decide) (by decide) (by decide) (by decide)

theorem fortran_read_bytes_count (n : Nat) :
    (fortran_read (List.replicate n 0) 1 n
        { data := [0, 0, 0, 8] ++ (List.replicate n 7 ++ ([0, 0, 0, 8] ++ [])),
          pos := 0, eof := false }).1 = to_int n := by
  rw [fortran_read_framed
      { data := [0, 0, 0, 8] ++ (List.replicate n 7 ++ ([0, 0, 0, 8] ++ [])), pos := 0, eof := false }
      _ [0, 0, 0, 8] (List.replicate n 7) [0, 0, 0, 8] [] 1 n rfl rfl (by simp) rfl]
  simp

/-- C2 as stated fails: with `csize = 0` the record `L ++ [] ++ L` is well framed
but `fortran_read` returns 0, not `num = 1`; and with `num = 2^31` items of one
byte the `int` result is `-2^31`, not `num`. -/
theorem fortran_read_count_not_num :
    (fortran_read [] 0 1 { data := [0, 0, 0, 8] ++ ([] ++ [0, 0, 0, 8]), pos := 0, eof := false }).1
      = 0
    ∧ (fortran_read (List.replicate 2147483648 0) 1 2147483648
        { data := [0, 0, 0, 8] ++ (List.replicate 2147483648 7 ++ ([0, 0, 0, 8] ++ [])),
          pos := 0, eof := false }).1 = -2147483648 := by
  constructor
  · decide
  · rw [fortran_read_bytes_count]
    decide

/-- C2 (amended): for every 4-byte marker `L`, every `csize ≥ 1`, every
`num ≤ INT_MAX` and every payload `P` of `csize * num` bytes, `fortran_read` on a
stream positioned at `L ++ P ++ L` returns `num`, leaves the destination buffer
equal to `P` and advances the cursor by `csize * num + 8`; `L` is not compared
with the payload length. -/
theorem fortran_read_roundtrip (pre L P post buf : List Byte) (csize num : Nat) (eof : Bool)
    (hL : L.length = 4) (hP : P.length = csize * num) (hbuf : buf.length = csize * num)
    (hc : 1 ≤ csize) (hn : num ≤ INT_MAX) :
    fortran_read buf csize num
        { data := pre ++ (L ++ (P ++ (L ++ post))), pos := pre.length, eof := eof }
      = ((num : Int), P,
          { data := pre ++ (L ++ (P ++ (L ++ post))), pos := pre.length + (csize * num + 8),
            eof := eof }) := by
  have e := fortran_read_framed
    { data := pre ++ (L ++ (P ++ (L ++ post))), pos := pre.length, eof := eof }
    buf L P L post csize num hL hL hP (by simp)
  rw [e]
  have hd : List.drop P.length buf = [] := List.drop_eq_nil_of_le (by omega)
  have hq : P.length / csize = num := by
    rw [hP]; exact Nat.mul_div_cancel_left num (by omega)
  simp only [ne_eq, not_true_eq_false, if_false, hd, List.append_nil, hq, to_int_of_le num hn]
  rw [hP]

theorem fortran_read_roundtrip_witness :
    fortran_read [0, 0] 2 1
        { data := [9] ++ ([1, 2, 3, 4] ++ ([7, 8] ++ ([1, 2, 3, 4] ++ [5]))),
          pos := [(9 : Byte)].length, eof := false }
      = (((1 : Nat) : Int), [7, 8],
          { data := [9] ++ ([1, 2, 3, 4] ++ ([7, 8] ++ ([1, 2, 3, 4] ++ [5]))),
            pos := [(9 : Byte)].length + (2 * 1 + 8), eof := false }) :=
  fortran_read_roundtrip [9] [1, 2, 3, 4] [7, 8] [5] [0, 0] 2 1 false
    (by decide) (by decide) (by decide) (by decide) (by decide)

theorem fread_rest (f : FILE) (buf t : List Byte) (size nmemb : Nat)
    (ht : t.length ≤ size * nmemb) (hd : f.data.drop f.pos = t) :
    fread buf size nmemb f
      = (t.length / size, t ++ buf.drop t.length,
          { f with pos := f.pos + t.length, eof := f.eof || decide (t.length < size * nmemb) }) := by
  have hgot : (f.data.drop f.pos).take (size * nmemb) = t := by
    rw [hd]; exact List.take_of_length_le ht
  simp only [fread, hgot]

/-- C3 as stated fails: the stream `[0,0,0,0,65]` ends right after the payload of a
one-byte record (its 4-byte trailing marker is missing), yet `fortran_read` returns
the requested count 1. -/
theorem fortran_read_cut_after_payload :
    ([0, 0, 0, 0, 65] : List Byte).length < 4 + 1 * 1 + 4
    ∧ (fortran_read [0] 1 1 { data := [0, 0, 0, 0, 65], pos := 0, eof := false }).1
        = ((1 : Nat) : Int) := by
  decide

/-- C3 (amended): let fewer than `csize * num + 8` bytes follow the cursor, with
`csize ≥ 1` and `num ≥ 1`. If the stream ends before the payload is complete, or if
the leading marker differs from the bytes left for the trailing marker (missing
bytes counting as zero), then `fortran_read` does not return `num`. -/
theorem fortran_read_short (f : FILE) (buf : List Byte) (csize num : Nat)
    (hc : 1 ≤ csize) (hn : 1 ≤ num)
    (hshort : (f.data.drop f.pos).length < csize * num + 8)
    (hcase : (f.data.drop f.pos).length < csize * num + 4
      ∨ le_val ((f.data.drop f.pos).take 4)
          ≠ le_val ((f.data.drop f.pos).drop (4 + csize * num))) :
    (fortran_read buf csize num f).1 ≠ (num : Int) := by
  by_cases hlen : (f.data.drop f.pos).length < csize * num + 4
  · have hpos : 1 ≤ csize * num := Nat.mul_pos hc hn
    unfold fortran_read
    simp only []
    split
    · show (-1 : Int) ≠ (num : Int)
      omega
    · show to_int _ ≠ (num : Int)
      apply to_int_ne_of_lt
      simp only [fread, List.length_take, List.length_drop] at hlen ⊢
      apply Nat.div_lt_of_lt_mul
      omega
  · have hv := hcase.resolve_left hlen
    have hsplit : f.data.drop f.pos
        = (f.data.drop f.pos).take 4
          ++ (((f.data.drop f.pos).drop 4).take (csize * num)
            ++ ((f.data.drop f.pos).drop (4 + csize * num))) := by
      rw [← List.drop_drop, List.take_append_drop, List.take_append_drop]
    have hl1 : ((f.data.drop f.pos).take 4).length = 4 := by
      rw [List.length_take]; omega
    have hlp : (((f.data.drop f.pos).drop 4).take (csize * num)).length = csize * num := by
      rw [List.length_take, List.length_drop]; omega
    have hlt : ((f.data.drop f.pos).drop (4 + csize * num)).length < 4 := by
      rw [List.length_drop]; omega
    generalize (f.data.drop f.pos).take 4 = L1 at hsplit hl1 hv
    generalize ((f.data.drop f.pos).drop 4).take (csize * num) = P at hsplit hlp
    generalize (f.data.drop f.pos).drop (4 + csize * num) = T at hsplit hlt hv
    have e1 := fread_full f (le_bytes 4 0) L1 (P ++ T) 4 1 (by simpa using hl1) hsplit
    have d1 := drop_after f L1 _ hsplit
    have e2 := fread_full { f with pos := f.pos + L1.length } buf P T csize num hlp d1
    have d2 := drop_after { f with pos := f.pos + L1.length } P _ d1
    have e3 := fread_rest { f with pos := f.pos + L1.length + P.length } (le_bytes 4 0) T 4 1
      (by omega) d2
    simp only [hl1, drop_zero_word, le_val_append_zeros] at e1 e2 e3
    unfold fortran_read
    simp only [e1, e2, e3, drop_zero_word, le_val_append_zeros, hv, ne_eq, not_false_eq_true, if_true]
    omega

theorem fortran_read_short_witness :
    (fortran_read [0] 1 1 { data := [0, 0, 0, 1, 65], pos := 0, eof := false }).1
      ≠ ((1 : Nat) : Int) :=
  fortran_read_short { data := [0, 0, 0, 1, 65], pos := 0, eof := false } [0] 1 1
    (by decide) (by decide) (by decide) (Or.inr (by decide))

theorem fortran_read_spec (buf : List Byte) (csize num : Nat) (f : FILE) :
    (fortran_read buf csize num f).2.2.data = f.data
    ∧ (fortran_read buf csize num f).2.2.pos
        = f.pos + min (f.data.length - f.pos) (csize * num + 8)
    ∧ (fortran_read buf csize num f).2.1
        = (f.data.drop (f.pos + 4)).take (csize * num)
          ++ buf.drop ((f.data.drop (f.pos + 4)).take (csize * num)).length
    ∧ ((fortran_read buf csize num f).1 = -1
        ∨ (fortran_read buf csize num f).1
            = to_int (((f.data.drop (f.pos + 4)).take (csize * num)).length / csize)) := by
  have hgot : (f.data.drop (f.pos + ((f.data.drop f.pos).take (4 * 1)).length)).take (csize * num)
      = (f.data.drop (f.pos + 4)).take (csize * num) := by
    by_cases h : 4 ≤ f.data.length - f.pos
    · have : ((f.data.drop f.pos).take (4 * 1)).length = 4 := by
        rw [List.length_take, List.length_drop]; omega
      rw [this]
    · have e1 : f.data.drop (f.pos + ((f.data.drop f.pos).take (4 * 1)).length) = [] := by
        apply List.drop_eq_nil_of_le
        rw [List.length_take, List.length_drop]; omega
      have e2 : f.data.drop (f.pos + 4) = [] := by
        apply List.drop_eq_nil_of_le; omega
      rw [e1, e2]
  unfold fortran_read
  simp only [fread, hgot]
  refine ⟨?_, ?_, ?_, ?_⟩
  · split <;> rfl
  · split
    all_goals
      simp only [List.length_take, List.length_drop]
      omega
  · split <;> rfl
  · split
    · left; rfl
    · right; rfl

theorem cstr_append_nul (x y : List Byte) : cstr (x ++ 0 :: y) = cstr x := by
  induction x with
  | nil => simp [cstr]
  | cons b bs ih =>
    simp only [cstr, List.cons_append, List.takeWhile_cons] at ih ⊢
    split
    · rw [ih]
    · rfl

theorem cstr_take (n : Nat) (l : List Byte) : (cstr l).take n = cstr (l.take n) := by
  unfold cstr
  exact List.take_takeWhile _ n

theorem name_buffer_cstr (got : List Byte) (h : got.length ≤ 32) :
    cstr ((got ++ List.drop got.length (List.replicate 32 0)).set 31 0) = cstr (got.take 31) := by
  rw [List.set_eq_take_append_cons_drop, if_pos (by simp; omega)]
  rw [List.take_append_eq_append_take, List.drop_replicate, List.take_replicate]
  rcases Nat.eq_zero_or_pos ((31 - got.length) ⊓ (32 - got.length)) with h0 | h0
  · rw [h0, List.replicate_zero, List.append_nil, cstr_append_nul]
  · obtain ⟨k, hk⟩ := Nat.exists_eq_succ_of_ne_zero (Nat.pos_iff_ne_zero.mp h0)
    rw [hk, List.replicate_succ, List.append_assoc, List.cons_append, cstr_append_nul]

theorem var_name_cstr (f : FILE) :
    cstr ((fortran_read (List.replicate 32 0) 32 1 f).2.1.set 31 0)
      = cstr ((f.data.drop (f.pos + 4)).take 31) := by
  rw [(fortran_read_spec (List.replicate 32 0) 32 1 f).2.2.1]
  rw [name_buffer_cstr _ (by rw [List.length_take]; omega), List.take_take]
  rfl

theorem read_var_names_stream : ∀ (n : Nat) (f : FILE),
    (read_var_names n f).2.data = f.data
    ∧ (read_var_names n f).2.pos = f.pos + min (f.data.length - f.pos) (40 * n)
  | 0, f => by simp [read_var_names]
  | n + 1, f => by
    obtain ⟨hd, hp, -, -⟩ := fortran_read_spec (List.replicate 32 0) 32 1 f
    obtain ⟨ihd, ihp⟩ := read_var_names_stream n (fortran_read (List.replicate 32 0) 32 1 f).2.2
    simp only [read_var_names]
    rw [ihd, ihp, hd, hp]
    refine ⟨rfl, ?_⟩
    omega

theorem read_var_names_cstr : ∀ (n : Nat) (f : FILE),
    (read_var_names n f).1.map cstr
      = (List.range n).map (fun i => cstr ((f.data.drop (f.pos + 40 * i + 4)).take 31))
  | 0, f => by simp [read_var_names]
  | n + 1, f => by
    obtain ⟨hd, hp, -, -⟩ := fortran_read_spec (List.replicate 32 0) 32 1 f
    have ih := read_var_names_cstr n (fortran_read (List.replicate 32 0) 32 1 f).2.2
    simp only [read_var_names, List.map_cons, List.range_succ_eq_map, List.map_map]
    rw [ih, var_name_cstr, hd, hp]
    congr 1
    apply List.map_congr_left
    intro i _
    simp only [Function.comp_apply, Nat.succ_eq_add_one]
    by_cases hfull : 40 ≤ f.data.length - f.pos
    · have : f.pos + min (f.data.length - f.pos) (32 * 1 + 8) + 40 * i + 4
          = f.pos + 40 * (i + 1) + 4 := by omega
      rw [this]
    · have e1 : f.data.drop (f.pos + min (f.data.length - f.pos) (32 * 1 + 8) + 40 * i + 4) = [] := by
        apply List.drop_eq_nil_of_le; omega
      have e2 : f.data.drop (f.pos + 40 * (i + 1) + 4) = [] := by
        apply List.drop_eq_nil_of_le; omega
      rw [e1, e2]

theorem read_var_names_length : ∀ (n : Nat) (f : FILE), (read_var_names n f).1.length = n
  | 0, _ => rfl
  | n + 1, f => by simp [read_var_names, read_var_names_length n]

theorem to_int_small (k : Nat) (h : to_int k = 1) (hk : k ≤ 1) : k = 1 := by
  rcases Nat.le_one_iff_eq_zero_or_eq_one.mp hk with h0 | h1
  · subst h0; revert h; decide
  · exact h1

theorem fortran_read_one_ok (buf : List Byte) (csize : Nat) (f : FILE) (hc : 1 ≤ csize)
    (h : (fortran_read buf csize 1 f).1 = 1) :
    f.pos + 4 + csize ≤ f.data.length
    ∧ (fortran_read buf csize 1 f).2.1
        = (f.data.drop (f.pos + 4)).take csize ++ buf.drop csize := by
  obtain ⟨-, -, hb, hr⟩ := fortran_read_spec buf csize 1 f
  rw [Nat.mul_one] at hb hr
  have hlen : ((f.data.drop (f.pos + 4)).take csize).length = csize := by
    rcases hr with hr | hr
    · rw [hr] at h; exact absurd h (by decide)
    · rw [hr] at h
      have hle : ((f.data.drop (f.pos + 4)).take csize).length ≤ csize := by
        rw [List.length_take]; omega
      have hq := to_int_small _ h (by
        calc ((f.data.drop (f.pos + 4)).take csize).length / csize ≤ csize / csize :=
              Nat.div_le_div_right hle
          _ = 1 := Nat.div_self hc)
      have := Nat.div_mul_le_self ((f.data.drop (f.pos + 4)).take csize).length csize
      rw [hq] at this
      omega
  constructor
  · rw [List.length_take, List.length_drop] at hlen; omega
  · rw [hb, hlen]

theorem slice_of_buffer (d t : List Byte) (p n k m : Nat) (hk : k + m ≤ n)
    (hn : p + n ≤ d.length) :
    (((d.drop p).take n ++ t).drop k).take m = (d.drop (p + k)).take m := by
  have hlen : ((d.drop p).take n).length = n := by
    rw [List.length_take, List.length_drop]; omega
  rw [List.drop_append_of_le_length (by omega), List.take_append_of_le_length
    (by rw [List.length_drop, hlen]; omega)]
  rw [List.drop_take, List.take_take, List.drop_drop, Nat.min_eq_left (by omega)]

theorem slice_of_buffer_zero (d t : List Byte) (p n m : Nat) (hk : m ≤ n)
    (hn : p + n ≤ d.length) :
    ((d.drop p).take n ++ t).take m = (d.drop p).take m := by
  have := slice_of_buffer d t p n 0 m (by omega) hn
  simpa using this

theorem header_r6_accept (rfile : resfile_t) (results : telemac_data_t) (f : FILE) (h : resfile_t)
    (hacc : header_r6 rfile results f = some (0, h)) :
    f.pos + 20 ≤ f.data.length
    ∧ h.file.data = f.data
    ∧ h.file.pos = f.pos + min (f.data.length - f.pos) 24
    ∧ h.meshstart = (h.file.pos : Int)
    ∧ h.datastart = rfile.datastart ∧ h.datasize = rfile.datasize
    ∧ h.tmdat = { results with
          nelem := int_swap (le_val ((f.data.drop (f.pos + 4)).take 4)),
          npoin := int_swap (le_val ((f.data.drop (f.pos + 8)).take 4)),
          ndp := int_swap (le_val ((f.data.drop (f.pos + 12)).take 4)),
          state := 1 } := by
  unfold header_r6 at hacc
  simp only [] at hacc
  split at hacc
  · simp at hacc
  · rename_i h1
    simp only [ne_eq, Decidable.not_not] at h1
    obtain ⟨hlen, hbuf⟩ := fortran_read_one_ok _ 16 f (by decide) h1
    obtain ⟨hd, hp, -, -⟩ := fortran_read_spec (List.replicate 16 0) 16 1 f
    simp only [Option.some.injEq, Prod.mk.injEq, true_and] at hacc
    subst hacc
    simp only [hd, hp, ftello, hbuf, true_and]
    refine ⟨by omega, ?_⟩
    rw [slice_of_buffer_zero _ _ _ 16 4 (by omega) (by omega),
      slice_of_buffer _ _ _ 16 4 4 (by omega) (by omega),
      slice_of_buffer _ _ _ 16 8 4 (by omega) (by omega)]

theorem le_words_append : ∀ (n : Nat) (a t : List Byte), 4 * n ≤ a.length →
    le_words n (a ++ t) = le_words n a
  | 0, _, _, _ => rfl
  | n + 1, a, t, h => by
    simp only [le_words]
    rw [List.take_append_of_le_length (by omega), List.drop_append_of_le_length (by omega),
      le_words_append n _ t (by rw [List.length_drop]; omega)]

theorem header_r4_accept (rfile : resfile_t) (results : telemac_data_t) (f : FILE) (h : resfile_t)
    (hacc : header_r4 rfile results f = some (0, h)) :
    f.pos + 44 ≤ f.data.length ∧ ∃ f6 : FILE, f6.data = f.data
      ∧ f6.pos = f.pos + 48
          + (if ((le_words 10 ((f.data.drop (f.pos + 4)).take 40)).map int_swap).getD 9 0 = 1
              then 32 else 0)
      ∧ header_r6 rfile
          { results with
            iparam := (le_words 10 ((f.data.drop (f.pos + 4)).take 40)).map int_swap,
            date :=
              if ((le_words 10 ((f.data.drop (f.pos + 4)).take 40)).map int_swap).getD 9 0 = 1 then
                { year := int_swap (le_val ((f.data.drop (f.pos + 52)).take 4)),
                  month := int_swap (le_val ((f.data.drop (f.pos + 56)).take 4)),
                  day := int_swap (le_val ((f.data.drop (f.pos + 60)).take 4)),
                  hour := int_swap (le_val ((f.data.drop (f.pos + 64)).take 4)),
                  minute := int_swap (le_val ((f.data.drop (f.pos + 68)).take 4)),
                  second := int_swap (le_val ((f.data.drop (f.pos + 72)).take 4)) }
              else results.date } f6 = some (0, h) := by
  unfold header_r4 at hacc
  simp only [] at hacc
  split at hacc
  · simp at hacc
  rename_i h4
  simp only [ne_eq, Decidable.not_not] at h4
  obtain ⟨hlen4, hbuf4⟩ := fortran_read_one_ok _ 40 f (by decide) h4
  obtain ⟨hd4, hp4, -, -⟩ := fortran_read_spec (words_bytes results.iparam) 40 1 f
  have hip : le_words 10 (fortran_read (words_bytes results.iparam) 40 1 f).2.1
      = le_words 10 ((f.data.drop (f.pos + 4)).take 40) := by
    rw [hbuf4, le_words_append]
    rw [List.length_take, List.length_drop]; omega
  rw [hip] at hacc
  split at hacc
  · rename_i h9
    simp only [h9, ↓reduceIte]
    split at hacc
    · simp at hacc
    rename_i h5
    simp only [ne_eq, Decidable.not_not] at h5
    obtain ⟨hlen5, hbuf5⟩ := fortran_read_one_ok _ 24 _ (by decide) h5
    obtain ⟨hd5, hp5, -, -⟩ := fortran_read_spec (List.replicate 24 0) 24 1
      (fortran_read (words_bytes results.iparam) 40 1 f).2.2
    obtain ⟨hlen6, -⟩ := header_r6_accept _ _ _ _ hacc
    rw [hd5, hp5, hd4, hp4] at hlen6
    rw [hd4, hp4] at hlen5 hbuf5
    have hp4' : (fortran_read (words_bytes results.iparam) 40 1 f).2.2.pos = f.pos + 48 := by
      rw [hp4]; omega
    rw [← hp4] at hbuf5 hlen5
    rw [hp4'] at hbuf5 hlen5
    refine ⟨by omega, (fortran_read (List.replicate 24 0) 24 1
      (fortran_read (words_bytes results.iparam) 40 1 f).2.2).2.2, ?_, ?_, ?_⟩
    rotate_left 2
    · rw [hbuf5] at hacc
      rw [slice_of_buffer_zero _ _ _ 24 4 (by omega) (by omega),
        slice_of_buffer _ _ _ 24 4 4 (by omega) (by omega),
        slice_of_buffer _ _ _ 24 8 4 (by omega) (by omega),
        slice_of_buffer _ _ _ 24 12 4 (by omega) (by omega),
        slice_of_buffer _ _ _ 24 16 4 (by omega) (by omega),
        slice_of_buffer _ _ _ 24 20 4 (by omega) (by omega)] at hacc
      exact hacc
    · rw [hd5, hd4]
    · rw [hp5, hd4, hp4]; omega
  · rename_i h9
    simp only [h9, ↓reduceIte]
    obtain ⟨hlen6, -⟩ := header_r6_accept _ _ _ _ hacc
    rw [hd4, hp4] at hlen6
    refine ⟨by omega, (fortran_read (words_bytes results.iparam) 40 1 f).2.2, ?_, ?_, hacc⟩
    · rw [hd4]
    · rw [hp4]; omega

theorem header_r2_accept (rfile : resfile_t) (results : telemac_data_t) (f : FILE) (h : resfile_t)
    (hacc : header_r2 rfile results f = some (0, h)) :
    f.pos + 12 ≤ f.data.length
    ∧ int_swap (le_val ((f.data.drop (f.pos + 4)).take 4)) ≤ INT_MAX
    ∧ ∃ f2 f4 : FILE, f2.data = f.data ∧ f2.pos = f.pos + 16
      ∧ f4.data = f.data
      ∧ f4.pos = f.pos + 16 + 40 * int_swap (le_val ((f.data.drop (f.pos + 4)).take 4))
      ∧ header_r4 rfile
          { results with
            nbv_1 := int_swap (le_val ((f.data.drop (f.pos + 4)).take 4)),
            nbv_2 := int_swap (le_val ((f.data.drop (f.pos + 8)).take 4)),
            var_names :=
              (read_var_names (int_swap (le_val ((f.data.drop (f.pos + 4)).take 4))) f2).1 }
          f4 = some (0, h) := by
  unfold header_r2 at hacc
  simp only [] at hacc
  split at hacc
  · simp at hacc
  rename_i h2
  simp only [ne_eq, Decidable.not_not] at h2
  obtain ⟨hlen2, hbuf2⟩ := fortran_read_one_ok _ 8 f (by decide) h2
  obtain ⟨hd2, hp2, -, -⟩ := fortran_read_spec (List.replicate 8 0) 8 1 f
  rw [hbuf2, slice_of_buffer_zero _ _ _ 8 4 (by omega) (by omega),
    slice_of_buffer _ _ _ 8 4 4 (by omega) (by omega)] at hacc
  split at hacc
  · simp at hacc
  rename_i hmax
  obtain ⟨hvd, hvp⟩ := read_var_names_stream
    (int_swap (le_val ((f.data.drop (f.pos + 4)).take 4)))
    (fortran_read (List.replicate 8 0) 8 1 f).2.2
  obtain ⟨hlen4, -⟩ := header_r4_accept _ _ _ _ hacc
  rw [hvd, hvp, hd2, hp2] at hlen4
  rw [hd2, hp2] at hvp
  rw [hd2] at hvd
  refine ⟨by omega, by omega, (fortran_read (List.replicate 8 0) 8 1 f).2.2, _, hd2, ?_, hvd, ?_, ?_⟩
  rotate_left 2
  · rw [Nat.add_assoc] at hacc
    exact hacc
  · rw [hp2]; omega
  · rw [hvp]; omega

theorem strcmp_eq_zero (a b : List Byte) (h : ¬ strcmp a b ≠ 0) : a = b := by
  unfold strcmp at h
  by_contra hne
  rw [if_neg hne] at h
  exact h (by decide)

theorem header_r1_accept (rfile : resfile_t) (v : Int) (h : resfile_t)
    (hacc : get_telemac_header rfile v = some (0, h)) :
    snprintf_s 8 ((rfile.file.data.drop 76).take 8) = SERAFIN
    ∧ ∃ f1 : FILE, f1.data = rfile.file.data ∧ f1.pos = 88
      ∧ header_r2 rfile
          { rfile.tmdat with
            title := snprintf_s 72 ((rfile.file.data.drop 4).take 80),
            format := snprintf_s 8 ((rfile.file.data.drop 76).take 8) }
          f1 = some (0, h) := by
  unfold get_telemac_header at hacc
  have hsk : fseeko rfile.file 0 = (0, { data := rfile.file.data, pos := 0, eof := false }) := by
    simp [fseeko]
  simp only [hsk, ne_eq, not_true_eq_false, if_false] at hacc
  split at hacc
  · simp at hacc
  rename_i h1
  simp only [Decidable.not_not] at h1
  obtain ⟨hlen1, hbuf1⟩ := fortran_read_one_ok _ 80 _ (by decide) h1
  obtain ⟨hd1, hp1, -, -⟩ := fortran_read_spec (List.replicate 80 0) 80 1
    { data := rfile.file.data, pos := 0, eof := false }
  have hz : List.drop 80 (List.replicate 80 (0 : Byte)) = [] := by
    rw [List.drop_replicate]; rfl
  simp only [Nat.zero_add, hz, List.append_nil] at hlen1 hbuf1 hd1 hp1
  have hfmt : List.drop 72 (List.take 80 (List.drop 4 rfile.file.data))
      = List.take 8 (List.drop 76 rfile.file.data) := by
    rw [List.drop_take, List.drop_drop]
  rw [hbuf1, hfmt] at hacc
  split at hacc
  · simp at hacc
  rename_i hcmp
  have hS := strcmp_eq_zero _ _ hcmp
  obtain ⟨hlen2, -⟩ := header_r2_accept _ _ _ _ hacc
  rw [hd1, hp1] at hlen2
  refine ⟨hS, _, hd1, ?_, hacc⟩
  rw [hp1]
  omega

theorem le_bytes_le_val : ∀ (x : List Byte), le_bytes x.length (le_val x) = x
  | [] => rfl
  | b :: bs => by
    have hb := b.isLt
    simp only [List.length_cons, le_bytes, le_val]
    have h1 : (b.val + 256 * le_val bs) / 256 = le_val bs := by omega
    have h2 : (Fin.ofNat ((b.val + 256 * le_val bs) % 256) : Byte) = b := by
      apply Fin.ext
      show (b.val + 256 * le_val bs) % 256 % 256 = b.val
      omega
    rw [h1, h2, le_bytes_le_val bs]

theorem int_swap_le_val (x : List Byte) (h : x.length = 4) : int_swap (le_val x) = be_val x := by
  unfold int_swap be_val
  rw [← h, le_bytes_le_val]

theorem float_swap_le_val (x : List Byte) (h : x.length = 4) :
    float_swap (le_val x) = be_val x := by
  unfold float_swap be_val
  rw [← h, le_bytes_le_val]

theorem header_accept_fields (rfile : resfile_t) (v : Int) (h : resfile_t)
    (hacc : get_telemac_header rfile v = some (0, h)) :
    h.tmdat.title = snprintf_s 72 ((rfile.file.data.drop 4).take 80)
    ∧ h.tmdat.format = SERAFIN
    ∧ snprintf_s 8 ((rfile.file.data.drop 76).take 8) = SERAFIN
    ∧ h.tmdat.nbv_1 = int_swap (le_val ((rfile.file.data.drop 92).take 4))
    ∧ h.tmdat.nbv_2 = int_swap (le_val ((rfile.file.data.drop 96).take 4))
    ∧ h.tmdat.nbv_1 ≤ INT_MAX
    ∧ (∃ f2 : FILE, f2.data = rfile.file.data ∧ f2.pos = 104
        ∧ h.tmdat.var_names = (read_var_names h.tmdat.nbv_1 f2).1)
    ∧ h.tmdat.iparam
        = (le_words 10 ((rfile.file.data.drop (104 + 40 * h.tmdat.nbv_1 + 4)).take 40)).map int_swap
    ∧ h.tmdat.state = 1
    ∧ h.file.data = rfile.file.data
    ∧ 104 + 40 * h.tmdat.nbv_1 + 48 + 20 ≤ rfile.file.data.length := by
  obtain ⟨hS, f1, hd1, hp1, hacc2⟩ := header_r1_accept rfile v h hacc
  obtain ⟨-, hmax, f2, f4, hd2, hp2, hd4, hp4, hacc4⟩ := header_r2_accept _ _ _ _ hacc2
  obtain ⟨hlen4, f6, hd6, hp6, hacc6⟩ := header_r4_accept _ _ _ _ hacc4
  obtain ⟨hlen6, hfd, -, -, -, -, htm⟩ := header_r6_accept _ _ _ _ hacc6
  simp only [hd1, hp1] at hd2 hp2 hd4 hp4 hmax
  simp only [hd4, hp4] at hd6 hp6 hlen4
  simp only [hd6, hp6] at hlen6 hfd
  rw [htm]
  simp only [hd1, hp1, hd4, hp4]
  refine ⟨trivial, hS, hS, trivial, trivial, hmax, ⟨f2, hd2, hp2, rfl⟩, trivial, trivial, hfd, ?_⟩
  split at hlen6 <;> omega

/-- C4 (evaluation at the failing input): the minimal file whose 8-byte format tag
is `SERAFIN2` is accepted by `get_telemac_header`: it returns 0, sets state 1 and
stores the 7-character format `SERAFIN`. -/
theorem header_accepts_serafin2 :
    ((layout serafin2_params).drop 76).take 8 = SERAFIN ++ [50]
    ∧ (get_telemac_header (fresh_handle (layout serafin2_params)) 0).map
        (fun r => (r.1, r.2.tmdat.state, r.2.tmdat.format)) = some (0, 1, SERAFIN) := by
  decide

/-- C5 as stated fails: for the header with names `H`, `U`, `V` padded with spaces
to 32 bytes, the decoded names are `H`, `U`, `V` each followed by 30 spaces, not the
payloads with their padding removed. -/
theorem header_names_keep_spaces :
    (get_telemac_header (fresh_handle (layout huv_params)) 0).map
        (fun r => (r.1, r.2.tmdat.var_names.map cstr))
      = some (0, [[72] ++ List.replicate 30 32, [85] ++ List.replicate 30 32,
                  [86] ++ List.replicate 30 32])
    ∧ huv_params.names.map spec_trim = [[72], [85], [86]] := by
  decide

/-- C5 (amended): for every file accepted by `get_telemac_header`, `var_names` has
exactly `nbv_1` entries (`nbv_1` being the big-endian value of bytes 92..95), in
file order, and entry `i`, read as a C string, is the first 31 bytes of the payload
of the `i`-th variable-name record (file offset `104 + 40 i + 4`) cut at the first
NUL byte; spaces are kept. -/
theorem header_var_names (rfile : resfile_t) (v : Int) (h : resfile_t)
    (hacc : get_telemac_header rfile v = some (0, h)) :
    h.tmdat.var_names.length = h.tmdat.nbv_1
    ∧ h.tmdat.nbv_1 = be_val ((rfile.file.data.drop 92).take 4)
    ∧ h.tmdat.var_names.map cstr
        = (List.range h.tmdat.nbv_1).map
            (fun i => cstr ((rfile.file.data.drop (104 + 40 * i + 4)).take 31)) := by
  obtain ⟨-, -, -, hn1, -, -, ⟨f2, hd2, hp2, hvn⟩, -, -, -, hlen⟩ :=
    header_accept_fields rfile v h hacc
  refine ⟨?_, ?_, ?_⟩
  · rw [hvn, read_var_names_length]
  · rw [hn1, int_swap_le_val]
    rw [List.length_take, List.length_drop]; omega
  · rw [hvn, read_var_names_cstr, hd2, hp2]

theorem header_var_names_witness :
    get_telemac_header (fresh_handle (layout huv_nul_params)) 0 = some (0, huv_nul_handle)
    ∧ huv_nul_handle.tmdat.var_names.map cstr = [[72], [85], [86]]
    ∧ huv_nul_handle.tmdat.var_names.length = huv_nul_handle.tmdat.nbv_1
    ∧ huv_nul_handle.tmdat.nbv_1
        = be_val (((fresh_handle (layout huv_nul_params)).file.data.drop 92).take 4)
    ∧ huv_nul_handle.tmdat.var_names.map cstr
        = (List.range huv_nul_handle.tmdat.nbv_1).map
            (fun i => cstr (((fresh_handle (layout huv_nul_params)).file.data.drop
              (104 + 40 * i + 4)).take 31)) :=
  ⟨by decide, by decide,
    header_var_names (fresh_handle (layout huv_nul_params)) 0 huv_nul_handle (by decide)⟩

/-- C6 as stated fails: a title field `T`, space, NUL padding is decoded with the
space kept (`T` and a space, not `T`), and the space-padded 72-byte title of the
minimal file is decoded to 71 bytes, `TEST` followed by 67 spaces. -/
theorem header_title_keeps_spaces :
    (get_telemac_header (fresh_handle (layout short_title_params)) 0).map
        (fun r => (r.1, r.2.tmdat.title)) = some (0, [84, 32])
    ∧ spec_trim short_title_params.title = [84]
    ∧ (get_telemac_header (fresh_handle (layout minimal_params)) 0).map
        (fun r => (r.1, r.2.tmdat.title)) = some (0, [84, 69, 83, 84] ++ List.replicate 67 32)
    ∧ spec_trim minimal_params.title = [84, 69, 83, 84] := by
  decide

/-- C6 (amended): for every file accepted by `get_telemac_header` whose 72-byte
title field (file offset 4) holds a NUL byte among its first 72 bytes, so that its
C string is at most 71 bytes long, the decoded title is the title field up to the
first NUL byte; spaces are kept. -/
theorem header_title (rfile : resfile_t) (v : Int) (h : resfile_t)
    (hacc : get_telemac_header rfile v = some (0, h))
    (hnul : (cstr ((rfile.file.data.drop 4).take 72)).length ≤ 71) :
    h.tmdat.title = cstr ((rfile.file.data.drop 4).take 72) := by
  obtain ⟨ht, -⟩ := header_accept_fields rfile v h hacc
  rw [ht]
  unfold snprintf_s
  rw [cstr_take, List.take_take]
  have h2 : cstr ((rfile.file.data.drop 4).take 72)
      = (cstr ((rfile.file.data.drop 4).take 72)).take 71 := (List.take_of_length_le hnul).symm
  rw [h2, cstr_take, List.take_take]
  rfl

theorem header_title_witness :
    get_telemac_header (fresh_handle (layout short_title_params)) 0
      = some (0, short_title_handle)
    ∧ (cstr (((fresh_handle (layout short_title_params)).file.data.drop 4).take 72)).length ≤ 71
    ∧ short_title_handle.tmdat.title
        = cstr (((fresh_handle (layout short_title_params)).file.data.drop 4).take 72) :=
  ⟨by decide, by decide,
    header_title (fresh_handle (layout short_title_params)) 0 short_title_handle
      (by decide) (by decide)⟩

/-- C7 (evaluation at the failing input): in `bad_name_header` the variable-name
record has leading marker 32 and trailing marker 33, yet `get_telemac_header`
returns 0 and sets state 1. -/
theorem header_ignores_name_framing :
    (bad_name_header.drop 104).take 4 = be_bytes 32
    ∧ (bad_name_header.drop 140).take 4 = be_bytes 33
    ∧ (get_telemac_header (fresh_handle bad_name_header) 0).map
        (fun r => (r.1, r.2.tmdat.state)) = some (0, 1) := by
  decide

theorem to_u32_natCast (n : Nat) (h : n < 4294967296) : to_u32 (n : Int) = n := by
  unfold to_u32
  omega

theorem fortran_read_array_ok (n : Nat) (f : FILE) (hn : n ≤ INT_MAX)
    (h : ¬ to_u32 (fortran_read (List.replicate (4 * n) 0) 4 n f).1 ≠ n) :
    4 * n ≤ f.data.length - (f.pos + 4)
    ∧ (fortran_read (List.replicate (4 * n) 0) 4 n f).2.1
        = (f.data.drop (f.pos + 4)).take (4 * n) := by
  unfold INT_MAX at hn
  simp only [ne_eq, Decidable.not_not] at h
  obtain ⟨-, -, hb, hr⟩ := fortran_read_spec (List.replicate (4 * n) 0) 4 n f
  have hle : ((f.data.drop (f.pos + 4)).take (4 * n)).length ≤ 4 * n := by
    rw [List.length_take]; omega
  have hlen : ((f.data.drop (f.pos + 4)).take (4 * n)).length = 4 * n := by
    rcases hr with hr | hr
    · rw [hr] at h
      have : to_u32 (-1) = 4294967295 := by decide
      omega
    · rw [hr] at h
      have hk : ((f.data.drop (f.pos + 4)).take (4 * n)).length / 4 ≤ INT_MAX := by
        unfold INT_MAX; omega
      have hk2 : ((f.data.drop (f.pos + 4)).take (4 * n)).length / 4 < 4294967296 := by omega
      rw [to_int_of_le _ hk, to_u32_natCast _ hk2] at h
      omega
  constructor
  · rw [List.length_take, List.length_drop] at hlen; omega
  · rw [hb, hlen, List.drop_replicate, Nat.sub_self]
    exact List.append_nil _

theorem le_words_slices : ∀ (n p : Nat) (d : List Byte), 4 * n ≤ d.length - p →
    le_words n ((d.drop p).take (4 * n))
      = (List.range n).map (fun i => le_val ((d.drop (p + 4 * i)).take 4))
  | 0, _, _, _ => rfl
  | n + 1, p, d, h => by
    have e1 : ((d.drop p).take (4 * (n + 1))).take 4 = (d.drop p).take 4 := by
      rw [List.take_take, Nat.min_eq_left (by omega)]
    have e2 : ((d.drop p).take (4 * (n + 1))).drop 4 = (d.drop (p + 4)).take (4 * n) := by
      rw [List.drop_take, List.drop_drop]
      congr 1
    simp only [le_words, List.range_succ_eq_map, List.map_cons, List.map_map]
    rw [e1, e2, le_words_slices n (p + 4) d (by omega)]
    congr 1
    apply List.map_congr_left
    intro i _
    simp only [Function.comp_apply, Nat.succ_eq_add_one]
    congr 3
    omega

theorem words_be_slices (n p : Nat) (d : List Byte) (h : 4 * n ≤ d.length - p) :
    (le_words n ((d.drop p).take (4 * n))).map int_swap
      = (List.range n).map (fun i => be_val ((d.drop (p + 4 * i)).take 4)) := by
  rw [le_words_slices n p d h, List.map_map]
  apply List.map_congr_left
  intro i hi
  have hi' := List.mem_range.mp hi
  simp only [Function.comp_apply]
  rw [int_swap_le_val]
  rw [List.length_take, List.length_drop]; omega

theorem floats_be_slices (n p : Nat) (d : List Byte) (h : 4 * n ≤ d.length - p) :
    (le_words n ((d.drop p).take (4 * n))).map float_swap
      = (List.range n).map (fun i => be_val ((d.drop (p + 4 * i)).take 4)) :=
  words_be_slices n p d h

theorem mesh_nt_accept (rfile : resfile_t) (results : telemac_data_t) (f : FILE) (r : Int)
    (h : resfile_t) (hacc : mesh_nt rfile results f = some (r, h)) :
    r = 0
    ∧ datasize_expr results.nbv_1 results.nbv_2 results.npoin ≠ 0
    ∧ h.file = f ∧ h.meshstart = rfile.meshstart
    ∧ h.datastart = (f.pos : Int)
    ∧ h.datasize = datasize_expr results.nbv_1 results.nbv_2 results.npoin
    ∧ h.tmdat = { results with
        nt := to_u32 (Int.tdiv ((f.data.length : Int) - (f.pos : Int))
          (datasize_expr results.nbv_1 results.nbv_2 results.npoin)),
        timestamp := List.replicate (to_u32 (Int.tdiv ((f.data.length : Int) - (f.pos : Int))
          (datasize_expr results.nbv_1 results.nbv_2 results.npoin))) 0,
        state := 2 } := by
  unfold mesh_nt at hacc
  simp only [ftello] at hacc
  split at hacc
  · simp at hacc
  · rename_i hds
    simp only [Option.some.injEq, Prod.mk.injEq] at hacc
    obtain ⟨hr, hh⟩ := hacc
    subst hh
    exact ⟨hr.symm, hds, rfl, rfl, rfl, rfl, rfl⟩

theorem mesh_Y_accept (rfile : resfile_t) (results : telemac_data_t) (f : FILE)
    (h : resfile_t) (hacc : mesh_Y rfile results f = some (0, h)) :
    results.npoin ≤ INT_MAX
    ∧ 4 * results.npoin ≤ f.data.length - (f.pos + 4)
    ∧ ∃ f2 : FILE, f2.data = f.data
      ∧ f2.pos = f.pos + min (f.data.length - f.pos) (4 * results.npoin + 8)
      ∧ mesh_nt rfile
          { results with
            Y := (List.range results.npoin).map
              (fun i => be_val ((f.data.drop (f.pos + 4 + 4 * i)).take 4)),
            XYrange := ((List.range results.npoin).map
              (fun i => be_val ((f.data.drop (f.pos + 4 + 4 * i)).take 4))).foldl
                (range_step 2 3) results.XYrange }
          f2 = some (0, h) := by
  unfold mesh_Y at hacc
  simp only [] at hacc
  split at hacc
  · simp at hacc
  rename_i hok
  split at hacc
  · simp at hacc
  rename_i hmax
  have hmax' : results.npoin ≤ INT_MAX := Nat.le_of_not_lt hmax
  obtain ⟨hlen, hbuf⟩ := fortran_read_array_ok results.npoin f hmax' hok
  obtain ⟨hd, hp, -, -⟩ := fortran_read_spec (List.replicate (4 * results.npoin) 0) 4 results.npoin f
  rw [hbuf, floats_be_slices _ _ _ hlen] at hacc
  refine ⟨hmax', hlen, _, hd, ?_, hacc⟩
  rw [hp, Nat.mul_comm]

theorem mesh_X_accept (rfile : resfile_t) (results : telemac_data_t) (f : FILE)
    (h : resfile_t) (hacc : mesh_X rfile results f = some (0, h)) :
    results.npoin ≤ INT_MAX
    ∧ 4 * results.npoin ≤ f.data.length - (f.pos + 4)
    ∧ ∃ f2 : FILE, f2.data = f.data
      ∧ f2.pos = f.pos + min (f.data.length - f.pos) (4 * results.npoin + 8)
      ∧ mesh_Y rfile
          { results with
            X := (List.range results.npoin).map
              (fun i => be_val ((f.data.drop (f.pos + 4 + 4 * i)).take 4)),
            XYrange := ((List.range results.npoin).map
              (fun i => be_val ((f.data.drop (f.pos + 4 + 4 * i)).take 4))).foldl
                (range_step 0 1) [F32_INF, F32_NEG_INF, F32_INF, F32_NEG_INF] }
          f2 = some (0, h) := by
  unfold mesh_X at hacc
  simp only [] at hacc
  split at hacc
  · simp at hacc
  rename_i hok
  split at hacc
  · simp at hacc
  rename_i hmax
  have hmax' : results.npoin ≤ INT_MAX := Nat.le_of_not_lt hmax
  obtain ⟨hlen, hbuf⟩ := fortran_read_array_ok results.npoin f hmax' hok
  obtain ⟨hd, hp, -, -⟩ := fortran_read_spec (List.replicate (4 * results.npoin) 0) 4 results.npoin f
  rw [hbuf, floats_be_slices _ _ _ hlen] at hacc
  refine ⟨hmax', hlen, _, hd, ?_, hacc⟩
  rw [hp, Nat.mul_comm]

theorem mesh_ipobo_accept (rfile : resfile_t) (results : telemac_data_t) (f : FILE)
    (h : resfile_t) (hacc : mesh_ipobo rfile results f = some (0, h)) :
    results.npoin ≤ INT_MAX
    ∧ 4 * results.npoin ≤ f.data.length - (f.pos + 4)
    ∧ ∃ f2 : FILE, f2.data = f.data
      ∧ f2.pos = f.pos + min (f.data.length - f.pos) (4 * results.npoin + 8)
      ∧ mesh_X rfile
          { results with
            ipobo := (List.range results.npoin).map
              (fun i => be_val ((f.data.drop (f.pos + 4 + 4 * i)).take 4)) }
          f2 = some (0, h) := by
  unfold mesh_ipobo at hacc
  simp only [] at hacc
  split at hacc
  · simp at hacc
  rename_i hok
  split at hacc
  · simp at hacc
  rename_i hmax
  have hmax' : results.npoin ≤ INT_MAX := Nat.le_of_not_lt hmax
  obtain ⟨hlen, hbuf⟩ := fortran_read_array_ok results.npoin f hmax' hok
  obtain ⟨hd, hp, -, -⟩ := fortran_read_spec (List.replicate (4 * results.npoin) 0) 4 results.npoin f
  rw [hbuf, words_be_slices _ _ _ hlen] at hacc
  refine ⟨hmax', hlen, _, hd, ?_, hacc⟩
  rw [hp, Nat.mul_comm]

theorem mesh_ikle_accept (rfile : resfile_t) (v : Int) (h : resfile_t)
    (hacc : get_telemac_mesh rfile v = some (0, h)) :
    rfile.tmdat.state = 1 ∧ 0 ≤ rfile.meshstart
    ∧ rfile.tmdat.nelem * rfile.tmdat.ndp % 4294967296 ≤ INT_MAX
    ∧ 4 * (rfile.tmdat.nelem * rfile.tmdat.ndp % 4294967296)
        ≤ rfile.file.data.length - (rfile.meshstart.toNat + 4)
    ∧ ∃ f2 : FILE, f2.data = rfile.file.data
      ∧ f2.pos = rfile.meshstart.toNat
          + min (rfile.file.data.length - rfile.meshstart.toNat)
              (4 * (rfile.tmdat.nelem * rfile.tmdat.ndp % 4294967296) + 8)
      ∧ mesh_ipobo rfile
          { rfile.tmdat with
            ikle := (List.range (rfile.tmdat.nelem * rfile.tmdat.ndp % 4294967296)).map
              (fun i => be_val ((rfile.file.data.drop (rfile.meshstart.toNat + 4 + 4 * i)).take 4)) }
          f2 = some (0, h) := by
  unfold get_telemac_mesh at hacc
  simp only [] at hacc
  split at hacc
  · simp at hacc
  rename_i hst
  simp only [ne_eq, Decidable.not_not] at hst
  have hsk : 0 ≤ rfile.meshstart := by
    by_contra hneg
    simp only [fseeko, if_pos (Int.lt_of_not_ge hneg)] at hacc
    simp at hacc
  have hsk2 : fseeko rfile.file rfile.meshstart
      = (0, { data := rfile.file.data, pos := rfile.meshstart.toNat, eof := false }) := by
    simp only [fseeko, if_neg (Int.not_lt.mpr hsk)]
  simp only [hsk2, ne_eq, not_true_eq_false, if_false] at hacc
  split at hacc
  · simp at hacc
  rename_i hok
  split at hacc
  · simp at hacc
  rename_i hmax
  have hmax' : rfile.tmdat.nelem * rfile.tmdat.ndp % 4294967296 ≤ INT_MAX := Nat.le_of_not_lt hmax
  obtain ⟨hlen, hbuf⟩ := fortran_read_array_ok _ _ hmax' hok
  obtain ⟨hd, hp, -, -⟩ := fortran_read_spec
    (List.replicate (4 * (rfile.tmdat.nelem * rfile.tmdat.ndp % 4294967296)) 0) 4
    (rfile.tmdat.nelem * rfile.tmdat.ndp % 4294967296)
    { data := rfile.file.data, pos := rfile.meshstart.toNat, eof := false }
  rw [hbuf, words_be_slices _ _ _ hlen] at hacc
  refine ⟨hst, hsk, hmax', hlen, _, hd, ?_, hacc⟩
  rw [hp, Nat.mul_comm]

theorem next_offset_exact (len p q c k : Nat) (hq : q = p + min (len - p) c)
    (hk : 4 * k ≤ len - (q + 4)) (h1 : 1 ≤ k) : q = p + c := by
  omega

theorem next_offset_full (len p q c : Nat) (hq : q = p + min (len - p) c)
    (hfull : p + c ≤ len) : q = p + c := by
  omega

theorem mesh_accept_fields (rfile : resfile_t) (v : Int) (h : resfile_t)
    (hacc : get_telemac_mesh rfile v = some (0, h)) :
    rfile.tmdat.state = 1 ∧ 0 ≤ rfile.meshstart
    ∧ rfile.tmdat.nelem * rfile.tmdat.ndp % 4294967296 ≤ INT_MAX
    ∧ rfile.tmdat.npoin ≤ INT_MAX
    ∧ 4 * (rfile.tmdat.nelem * rfile.tmdat.ndp % 4294967296)
        ≤ rfile.file.data.length - (rfile.meshstart.toNat + 4)
    ∧ (1 ≤ rfile.tmdat.npoin →
        rfile.meshstart.toNat + (4 * (rfile.tmdat.nelem * rfile.tmdat.ndp % 4294967296) + 8)
          + 2 * (4 * rfile.tmdat.npoin + 8) + 4 + 4 * rfile.tmdat.npoin ≤ rfile.file.data.length)
    ∧ h.tmdat.ikle = (List.range (rfile.tmdat.nelem * rfile.tmdat.ndp % 4294967296)).map
        (fun i => be_val ((rfile.file.data.drop (rfile.meshstart.toNat + 4 + 4 * i)).take 4))
    ∧ h.tmdat.ipobo = (List.range rfile.tmdat.npoin).map
        (fun i => be_val ((rfile.file.data.drop
          (rfile.meshstart.toNat + (4 * (rfile.tmdat.nelem * rfile.tmdat.ndp % 4294967296) + 8)
            + 4 + 4 * i)).take 4))
    ∧ h.tmdat.X = (List.range rfile.tmdat.npoin).map
        (fun i => be_val ((rfile.file.data.drop
          (rfile.meshstart.toNat + (4 * (rfile.tmdat.nelem * rfile.tmdat.ndp % 4294967296) + 8)
            + (4 * rfile.tmdat.npoin + 8) + 4 + 4 * i)).take 4))
    ∧ h.tmdat.Y = (List.range rfile.tmdat.npoin).map
        (fun i => be_val ((rfile.file.data.drop
          (rfile.meshstart.toNat + (4 * (rfile.tmdat.nelem * rfile.tmdat.ndp % 4294967296) + 8)
            + 2 * (4 * rfile.tmdat.npoin + 8) + 4 + 4 * i)).take 4))
    ∧ h.tmdat.XYrange = h.tmdat.Y.foldl (range_step 2 3)
        (h.tmdat.X.foldl (range_step 0 1) [F32_INF, F32_NEG_INF, F32_INF, F32_NEG_INF])
    ∧ h.tmdat.state = 2
    ∧ h.tmdat.npoin = rfile.tmdat.npoin ∧ h.tmdat.nelem = rfile.tmdat.nelem
    ∧ h.tmdat.ndp = rfile.tmdat.ndp
    ∧ h.tmdat.nbv_1 = rfile.tmdat.nbv_1 ∧ h.tmdat.nbv_2 = rfile.tmdat.nbv_2
    ∧ h.file.data = rfile.file.data
    ∧ h.datastart = (h.file.pos : Int)
    ∧ h.datasize = datasize_expr rfile.tmdat.nbv_1 rfile.tmdat.nbv_2 rfile.tmdat.npoin
    ∧ h.datasize ≠ 0
    ∧ h.tmdat.nt = to_u32 (Int.tdiv ((rfile.file.data.length : Int) - h.datastart) h.datasize)
    ∧ (rfile.meshstart.toNat + (4 * (rfile.tmdat.nelem * rfile.tmdat.ndp % 4294967296) + 8)
          + 3 * (4 * rfile.tmdat.npoin + 8) ≤ rfile.file.data.length →
        h.file.pos = rfile.meshstart.toNat
          + (4 * (rfile.tmdat.nelem * rfile.tmdat.ndp % 4294967296) + 8)
          + 3 * (4 * rfile.tmdat.npoin + 8)) := by
  obtain ⟨hst, hms, hmaxn, hlenK, fI, hdI, hpI, haccI⟩ := mesh_ikle_accept rfile v h hacc
  obtain ⟨hmaxp, hlenI, fX, hdX, hpX, haccX⟩ := mesh_ipobo_accept _ _ _ _ haccI
  obtain ⟨-, hlenX, fY, hdY, hpY, haccY⟩ := mesh_X_accept _ _ _ _ haccX
  obtain ⟨-, hlenY, fN, hdN, hpN, haccN⟩ := mesh_Y_accept _ _ _ _ haccY
  obtain ⟨-, hds, hfile, -, hdstart, hdsize, htm⟩ := mesh_nt_accept _ _ _ _ _ haccN
  clear haccI haccX haccY haccN hacc
  have e_ikle := congrArg telemac_data_t.ikle htm
  have e_ipobo := congrArg telemac_data_t.ipobo htm
  have e_X := congrArg telemac_data_t.X htm
  have e_Y := congrArg telemac_data_t.Y htm
  have e_R := congrArg telemac_data_t.XYrange htm
  have e_state := congrArg telemac_data_t.state htm
  have e_npoin := congrArg telemac_data_t.npoin htm
  have e_nelem := congrArg telemac_data_t.nelem htm
  have e_ndp := congrArg telemac_data_t.ndp htm
  have e_nbv1 := congrArg telemac_data_t.nbv_1 htm
  have e_nbv2 := congrArg telemac_data_t.nbv_2 htm
  have e_nt := congrArg telemac_data_t.nt htm
  clear htm
  dsimp only at e_ikle e_ipobo e_X e_Y e_R e_state e_npoin e_nelem e_ndp e_nbv1 e_nbv2 e_nt
  dsimp only at hmaxp hlenI hpX hlenX hpY hlenY hpN hds hdstart hdsize
  simp only [hdI] at hlenI hpX hdX e_ipobo
  simp only [hdI, hdX] at hlenX hpY hdY e_X e_R
  simp only [hdI, hdX, hdY] at hlenY hpN hdN e_Y e_R e_nt
  simp only [hdN] at e_nt
  generalize rfile.tmdat.nelem * rfile.tmdat.ndp % 4294967296 = n at *
  generalize rfile.tmdat.npoin = np at *
  generalize rfile.meshstart.toNat = m at *
  generalize rfile.file.data.length = len at *
  have hI : 1 ≤ np → fI.pos = m + (4 * n + 8) :=
    fun h1 => next_offset_exact len m fI.pos (4 * n + 8) np hpI hlenI h1
  have hX : 1 ≤ np → fX.pos = m + (4 * n + 8) + (4 * np + 8) := fun h1 => by
    rw [← hI h1]; exact next_offset_exact len fI.pos fX.pos (4 * np + 8) np hpX hlenX h1
  have hY : 1 ≤ np → fY.pos = m + (4 * n + 8) + 2 * (4 * np + 8) := fun h1 => by
    have := next_offset_exact len fX.pos fY.pos (4 * np + 8) np hpY hlenY h1
    rw [this, hX h1]; omega
  have hYlen : 1 ≤ np → m + (4 * n + 8) + 2 * (4 * np + 8) + 4 + 4 * np ≤ len := fun h1 => by
    have := hY h1
    clear hpI hpX hpY hpN hlenI hlenX hI hX hY e_ikle e_ipobo e_X e_Y e_R
    omega
  have hfullpos : m + (4 * n + 8) + 3 * (4 * np + 8) ≤ len
      → fN.pos = m + (4 * n + 8) + 3 * (4 * np + 8) := fun hfull => by
    have h1 := next_offset_full len m fI.pos (4 * n + 8) hpI (by omega)
    have h2 := next_offset_full len fI.pos fX.pos (4 * np + 8) hpX (by omega)
    have h3 := next_offset_full len fX.pos fY.pos (4 * np + 8) hpY (by omega)
    have h4 := next_offset_full len fY.pos fN.pos (4 * np + 8) hpN (by omega)
    omega
  refine ⟨hst, hms, hmaxn, hmaxp, hlenK, hYlen, e_ikle, ?_, ?_, ?_, ?_, e_state, e_npoin,
    e_nelem, e_ndp, e_nbv1, e_nbv2, ?_, ?_, hdsize, ?_, ?_, ?_⟩
  · rw [e_ipobo]
    rcases Nat.eq_zero_or_pos np with h0 | h0
    · subst h0; rfl
    · rw [hI h0]
  · rw [e_X]
    rcases Nat.eq_zero_or_pos np with h0 | h0
    · subst h0; rfl
    · rw [hX h0]
  · rw [e_Y]
    rcases Nat.eq_zero_or_pos np with h0 | h0
    · subst h0; rfl
    · rw [hY h0]
  · rw [e_R, e_X, e_Y]
  · rw [hfile, hdN]
  · rw [hdstart, hfile]
  · rw [hdsize]; exact hds
  · rw [e_nt, hdstart, hdsize]
  · intro hfull
    rw [hfile]
    exact hfullpos hfull

/-- C9 fails where `nelem * ndp` does not fit 32 bits: on the minimal file with
`nelem = 1431655766` and `ndp = 3` (`nelem * ndp = 4294967298`) and a connectivity
record of two values, `get_telemac_header`, `get_telemac_mesh` and `open_telemac`
succeed and `ikle` holds 2 entries, so there is no entry `ikle[i]` for
`2 <= i < nelem * ndp`. -/
theorem connectivity_product_wraps :
    (layout wrapped_product_params).length = 292
    ∧ (get_telemac_header (fresh_handle (layout wrapped_product_params)) 0).map Prod.fst
        = some 0
    ∧ wrapped_product_handle.tmdat.nelem = 1431655766
    ∧ wrapped_product_handle.tmdat.ndp = 3
    ∧ (get_telemac_mesh wrapped_product_handle 0).map
        (fun r => (r.1, r.2.tmdat.state, r.2.tmdat.nelem, r.2.tmdat.ndp, r.2.tmdat.ikle))
        = some (0, 2, 1431655766, 3, [1, 2])
    ∧ (open_telemac (fresh_handle (layout wrapped_product_params)) 0).map Prod.fst = some 0
    ∧ 1431655766 * 3 = 4294967298 := by
  decide

/-- C9 (amended): after a successful `get_telemac_mesh`, `ikle` has
`nelem * ndp mod 2^32` entries (the `uint32_t` product of the code, which is
`nelem * ndp` when that is below `2^32`) and entry `i` is the unsigned big-endian value
of bytes `4i .. 4i+3` of the payload of the connectivity record, which starts 4
bytes after the mesh offset; `ipobo` has `npoin` entries and entry `i` is the
big-endian value of bytes `4i .. 4i+3` of the payload of the boundary record that
follows. Both payloads lie inside the file, and no value is renormalised. -/
theorem mesh_connectivity (rfile : resfile_t) (v : Int) (h : resfile_t)
    (hacc : get_telemac_mesh rfile v = some (0, h)) :
    h.tmdat.ikle = (List.range (h.tmdat.nelem * h.tmdat.ndp % 4294967296)).map
        (fun i => be_val ((rfile.file.data.drop (rfile.meshstart.toNat + 4 + 4 * i)).take 4))
    ∧ h.tmdat.ipobo = (List.range h.tmdat.npoin).map
        (fun i => be_val ((rfile.file.data.drop
          (rfile.meshstart.toNat + (4 * (h.tmdat.nelem * h.tmdat.ndp % 4294967296) + 8)
            + 4 + 4 * i)).take 4))
    ∧ 4 * (h.tmdat.nelem * h.tmdat.ndp % 4294967296)
        ≤ rfile.file.data.length - (rfile.meshstart.toNat + 4)
    ∧ (1 ≤ h.tmdat.npoin →
        rfile.meshstart.toNat + (4 * (h.tmdat.nelem * h.tmdat.ndp % 4294967296) + 8)
          + 4 + 4 * h.tmdat.npoin ≤ rfile.file.data.length) := by
  obtain ⟨-, -, -, -, hlenK, hlenY, hik, hip, -, -, -, -, hnp, hne, hnd, -⟩ :=
    mesh_accept_fields rfile v h hacc
  rw [hnp, hne, hnd]
  refine ⟨hik, hip, hlenK, fun h1 => ?_⟩
  have := hlenY h1
  omega

theorem mesh_connectivity_witness :
    get_telemac_mesh minimal_header_handle 0 = some (0, minimal_mesh_handle)
    ∧ minimal_mesh_handle.tmdat.ikle = [1, 2, 3]
    ∧ minimal_mesh_handle.tmdat.ipobo = [1, 2, 3]
    ∧ minimal_mesh_handle.tmdat.ikle
        = (List.range (minimal_mesh_handle.tmdat.nelem * minimal_mesh_handle.tmdat.ndp
            % 4294967296)).map
          (fun i => be_val ((minimal_header_handle.file.data.drop
            (minimal_header_handle.meshstart.toNat + 4 + 4 * i)).take 4)) :=
  ⟨by decide, by decide, by decide,
    (mesh_connectivity minimal_header_handle 0 minimal_mesh_handle (by decide)).1⟩

theorem range_step_x (a b c d v : Nat) :
    range_step 0 1 [a, b, c, d] v = [min_step a v, max_step b v, c, d] := by
  unfold range_step min_step max_step
  by_cases h1 : f32_lt v a = true <;> by_cases h2 : f32_lt b v = true <;>
    simp [h1, h2, List.getD, List.set]

theorem range_step_y (a b c d v : Nat) :
    range_step 2 3 [a, b, c, d] v = [a, b, min_step c v, max_step d v] := by
  unfold range_step min_step max_step
  by_cases h1 : f32_lt v c = true <;> by_cases h2 : f32_lt d v = true <;>
    simp [h1, h2, List.getD, List.set]

theorem foldl_range_step_x : ∀ (xs : List Nat) (a b c d : Nat),
    xs.foldl (range_step 0 1) [a, b, c, d] = [xs.foldl min_step a, xs.foldl max_step b, c, d]
  | [], _, _, _, _ => rfl
  | x :: xs, a, b, c, d => by
    rw [List.foldl_cons, range_step_x, foldl_range_step_x xs]
    rfl

theorem foldl_range_step_y : ∀ (xs : List Nat) (a b c d : Nat),
    xs.foldl (range_step 2 3) [a, b, c, d] = [a, b, xs.foldl min_step c, xs.foldl max_step d]
  | [], _, _, _, _ => rfl
  | x :: xs, a, b, c, d => by
    rw [List.foldl_cons, range_step_y, foldl_range_step_y xs]
    rfl

theorem f32_lt_iff (a b : Nat) (ha : f32_isnan a = false) (hb : f32_isnan b = false) :
    f32_lt a b = true ↔ f32_key a < f32_key b := by
  simp [f32_lt, ha, hb]

theorem foldl_min_step : ∀ (xs : List Nat) (a : Nat), f32_isnan a = false →
    (∀ x ∈ xs, f32_isnan x = false) →
    (xs.foldl min_step a = a ∨ xs.foldl min_step a ∈ xs)
    ∧ f32_key (xs.foldl min_step a) ≤ f32_key a
    ∧ ∀ x ∈ xs, f32_key (xs.foldl min_step a) ≤ f32_key x
  | [], a, _, _ => by simp
  | x :: xs, a, ha, hx => by
    have hx0 : f32_isnan x = false := hx x (List.mem_cons_self _ _)
    have hxs : ∀ y ∈ xs, f32_isnan y = false := fun y hy => hx y (List.mem_cons_of_mem _ hy)
    rw [List.foldl_cons]
    by_cases hlt : f32_lt x a = true
    · have hk := (f32_lt_iff x a hx0 ha).mp hlt
      have hstep : min_step a x = x := by simp [min_step, hlt]
      rw [hstep]
      obtain ⟨h1, h2, h3⟩ := foldl_min_step xs x hx0 hxs
      refine ⟨Or.inr ?_, by omega, ?_⟩
      · rcases h1 with h1 | h1
        · rw [h1]; exact List.mem_cons_self _ _
        · exact List.mem_cons_of_mem _ h1
      · intro y hy
        rcases List.mem_cons.mp hy with rfl | hy
        · exact h2
        · exact h3 y hy
    · have hk : ¬ f32_key x < f32_key a := fun hc => hlt ((f32_lt_iff x a hx0 ha).mpr hc)
      have hstep : min_step a x = a := by simp [min_step, hlt]
      rw [hstep]
      obtain ⟨h1, h2, h3⟩ := foldl_min_step xs a ha hxs
      refine ⟨?_, h2, ?_⟩
      · rcases h1 with h1 | h1
        · exact Or.inl h1
        · exact Or.inr (List.mem_cons_of_mem _ h1)
      · intro y hy
        rcases List.mem_cons.mp hy with rfl | hy
        · omega
        · exact h3 y hy

theorem foldl_max_step : ∀ (xs : List Nat) (b : Nat), f32_isnan b = false →
    (∀ x ∈ xs, f32_isnan x = false) →
    (xs.foldl max_step b = b ∨ xs.foldl max_step b ∈ xs)
    ∧ f32_key b ≤ f32_key (xs.foldl max_step b)
    ∧ ∀ x ∈ xs, f32_key x ≤ f32_key (xs.foldl max_step b)
  | [], b, _, _ => by simp
  | x :: xs, b, hb, hx => by
    have hx0 : f32_isnan x = false := hx x (List.mem_cons_self _ _)
    have hxs : ∀ y ∈ xs, f32_isnan y = false := fun y hy => hx y (List.mem_cons_of_mem _ hy)
    rw [List.foldl_cons]
    by_cases hlt : f32_lt b x = true
    · have hk := (f32_lt_iff b x hb hx0).mp hlt
      have hstep : max_step b x = x := by simp [max_step, hlt]
      rw [hstep]
      obtain ⟨h1, h2, h3⟩ := foldl_max_step xs x hx0 hxs
      refine ⟨Or.inr ?_, by omega, ?_⟩
      · rcases h1 with h1 | h1
        · rw [h1]; exact List.mem_cons_self _ _
        · exact List.mem_cons_of_mem _ h1
      · intro y hy
        rcases List.mem_cons.mp hy with rfl | hy
        · exact h2
        · exact h3 y hy
    · have hk : ¬ f32_key b < f32_key x := fun hc => hlt ((f32_lt_iff b x hb hx0).mpr hc)
      have hstep : max_step b x = b := by simp [max_step, hlt]
      rw [hstep]
      obtain ⟨h1, h2, h3⟩ := foldl_max_step xs b hb hxs
      refine ⟨?_, h2, ?_⟩
      · rcases h1 with h1 | h1
        · exact Or.inl h1
        · exact Or.inr (List.mem_cons_of_mem _ h1)
      · intro y hy
        rcases List.mem_cons.mp hy with rfl | hy
        · omega
        · exact h3 y hy

theorem f32_key_ge_inf (x : Nat) (hx : x < 4294967296) (hn : f32_isnan x = false)
    (hk : f32_key F32_INF ≤ f32_key x) : x = F32_INF := by
  unfold f32_isnan at hn
  unfold f32_key F32_INF at hk
  unfold F32_INF
  simp only [decide_eq_false_iff_not, not_lt] at hn
  norm_num at hk
  split at hk <;> omega

theorem f32_key_le_neg_inf (x : Nat) (hx : x < 4294967296) (hn : f32_isnan x = false)
    (hk : f32_key x ≤ f32_key F32_NEG_INF) : x = F32_NEG_INF := by
  unfold f32_isnan at hn
  unfold f32_key F32_NEG_INF at hk
  unfold F32_NEG_INF
  simp only [decide_eq_false_iff_not, not_lt] at hn
  norm_num at hk
  split at hk <;> omega

theorem le_val_lt : ∀ (l : List Byte), le_val l < 256 ^ l.length
  | [] => by simp [le_val]
  | b :: bs => by
    have hb := b.isLt
    have ih := le_val_lt bs
    simp only [le_val, List.length_cons, pow_succ]
    omega

theorem be_val_word_lt (l : List Byte) : be_val (l.take 4) < 4294967296 := by
  unfold be_val
  have h := le_val_lt (l.take 4).reverse
  have hlen : (l.take 4).reverse.length ≤ 4 := by
    rw [List.length_reverse, List.length_take]; omega
  calc le_val (l.take 4).reverse < 256 ^ (l.take 4).reverse.length := h
    _ ≤ 256 ^ 4 := Nat.pow_le_pow_right (by decide) hlen
    _ = 4294967296 := by norm_num

theorem running_min_attained (xs : List Nat) (hne : xs ≠ [])
    (hlt : ∀ x ∈ xs, x < 4294967296) (hnan : ∀ x ∈ xs, f32_isnan x = false) :
    xs.foldl min_step F32_INF ∈ xs
    ∧ ∀ x ∈ xs, f32_le (xs.foldl min_step F32_INF) x = true := by
  obtain ⟨h1, -, h3⟩ := foldl_min_step xs F32_INF (by decide) hnan
  have hmem : xs.foldl min_step F32_INF ∈ xs := by
    rcases h1 with h1 | h1
    · obtain ⟨x0, hx0⟩ := List.exists_mem_of_ne_nil xs hne
      have hk := h3 x0 hx0
      rw [h1] at hk ⊢
      rw [← f32_key_ge_inf x0 (hlt x0 hx0) (hnan x0 hx0) hk]
      exact hx0
    · exact h1
  refine ⟨hmem, fun x hx => ?_⟩
  simp [f32_le, hnan _ hmem, hnan x hx, h3 x hx]

theorem running_max_attained (xs : List Nat) (hne : xs ≠ [])
    (hlt : ∀ x ∈ xs, x < 4294967296) (hnan : ∀ x ∈ xs, f32_isnan x = false) :
    xs.foldl max_step F32_NEG_INF ∈ xs
    ∧ ∀ x ∈ xs, f32_le x (xs.foldl max_step F32_NEG_INF) = true := by
  obtain ⟨h1, -, h3⟩ := foldl_max_step xs F32_NEG_INF (by decide) hnan
  have hmem : xs.foldl max_step F32_NEG_INF ∈ xs := by
    rcases h1 with h1 | h1
    · obtain ⟨x0, hx0⟩ := List.exists_mem_of_ne_nil xs hne
      have hk := h3 x0 hx0
      rw [h1] at hk ⊢
      rw [← f32_key_le_neg_inf x0 (hlt x0 hx0) (hnan x0 hx0) hk]
      exact hx0
    · exact h1
  refine ⟨hmem, fun x hx => ?_⟩
  simp [f32_le, hnan _ hmem, hnan x hx, h3 x hx]

theorem f32_mag_value_lt (m1 m2 : Nat) (h : m1 < m2) : f32_mag_value m1 < f32_mag_value m2 := by
  unfold f32_mag_value
  have d1 := Nat.div_add_mod m1 8388608
  have d2 := Nat.div_add_mod m2 8388608
  have r1 : m1 % 8388608 < 8388608 := Nat.mod_lt _ (by decide)
  have r2 : m2 % 8388608 < 8388608 := Nat.mod_lt _ (by decide)
  generalize m1 / 8388608 = e1 at d1 ⊢
  generalize m2 / 8388608 = e2 at d2 ⊢
  generalize m1 % 8388608 = f1 at d1 r1 ⊢
  generalize m2 % 8388608 = f2 at d2 r2 ⊢
  have he : e1 ≤ e2 := by omega
  by_cases h1 : e1 = 0
  · rw [if_pos h1]
    by_cases h2 : e2 = 0
    · rw [if_pos h2]; omega
    · rw [if_neg h2]
      have hp : 1 ≤ 2 ^ (e2 - 1) := Nat.one_le_two_pow
      calc f1 < 8388608 + f2 := by omega
        _ = (8388608 + f2) * 1 := (Nat.mul_one _).symm
        _ ≤ (8388608 + f2) * 2 ^ (e2 - 1) := Nat.mul_le_mul_left _ hp
  · have h2 : e2 ≠ 0 := by omega
    rw [if_neg h1, if_neg h2]
    rcases Nat.lt_or_ge e1 e2 with hlt | hge
    · have hp : 0 < 2 ^ (e1 - 1) := Nat.pow_pos (by decide)
      have hpow : 2 ^ (e1 - 1) * 2 ≤ 2 ^ (e2 - 1) := by
        rw [← pow_succ]
        exact Nat.pow_le_pow_right (by decide) (by omega)
      calc (8388608 + f1) * 2 ^ (e1 - 1) < 16777216 * 2 ^ (e1 - 1) :=
            Nat.mul_lt_mul_of_pos_right (by omega) hp
        _ = 8388608 * (2 ^ (e1 - 1) * 2) := by ring
        _ ≤ 8388608 * 2 ^ (e2 - 1) := Nat.mul_le_mul_left _ hpow
        _ ≤ (8388608 + f2) * 2 ^ (e2 - 1) := Nat.mul_le_mul_right _ (by omega)
    · have hee : e1 = e2 := by omega
      subst hee
      have hp : 0 < 2 ^ (e1 - 1) := Nat.pow_pos (by decide)
      exact Nat.mul_lt_mul_of_pos_right (by omega) hp

theorem f32_mag_value_le (m1 m2 : Nat) (h : m1 ≤ m2) : f32_mag_value m1 ≤ f32_mag_value m2 := by
  rcases Nat.eq_or_lt_of_le h with h | h
  · rw [h]
  · exact Nat.le_of_lt (f32_mag_value_lt m1 m2 h)

theorem f32_key_le_value (a b : Nat) (h : f32_key a ≤ f32_key b) : f32_value a ≤ f32_value b := by
  unfold f32_key at h
  unfold f32_value
  have hp : (0 : ℚ) < 2 ^ 149 := by positivity
  have hz : f32_mag_value 0 = 0 := by decide
  by_cases sa : a / 2147483648 % 2 = 1 <;> by_cases sb : b / 2147483648 % 2 = 1
  · rw [if_pos sa, if_pos sb] at h ⊢
    have hm : b % 2147483648 ≤ a % 2147483648 := by omega
    have := f32_mag_value_le _ _ hm
    have hq : (f32_mag_value (b % 2147483648) : ℚ) ≤ (f32_mag_value (a % 2147483648) : ℚ) := by
      exact_mod_cast this
    have := div_le_div_of_nonneg_right hq (le_of_lt hp)
    linarith
  · rw [if_pos sa, if_neg sb]
    have h1 : (0 : ℚ) ≤ (f32_mag_value (a % 2147483648) : ℚ) / 2 ^ 149 := by positivity
    have h2 : (0 : ℚ) ≤ (f32_mag_value (b % 2147483648) : ℚ) / 2 ^ 149 := by positivity
    linarith
  · rw [if_neg sa, if_pos sb] at h
    rw [if_neg sa, if_pos sb]
    have ha : a % 2147483648 = 0 := by omega
    have hb : b % 2147483648 = 0 := by omega
    rw [ha, hb, hz]
    simp
  · rw [if_neg sa, if_neg sb] at h ⊢
    have hm : a % 2147483648 ≤ b % 2147483648 := by omega
    have := f32_mag_value_le _ _ hm
    have hq : (f32_mag_value (a % 2147483648) : ℚ) ≤ (f32_mag_value (b % 2147483648) : ℚ) := by
      exact_mod_cast this
    exact div_le_div_of_nonneg_right hq (le_of_lt hp)

theorem f32_le_value (a b : Nat) (h : f32_le a b = true) : f32_value a ≤ f32_value b := by
  unfold f32_le at h
  simp only [Bool.and_eq_true, decide_eq_true_eq] at h
  exact f32_key_le_value a b h.2

/-- C10: after a successful `get_telemac_mesh` with `npoin ≥ 1` and no NaN among
the decoded coordinates, `XYrange` is `[xmin, xmax, ymin, ymax]` where `xmin` and
`xmax` are entries of the decoded `X` array with `xmin <= x <= xmax` for every entry
`x`, both as C comparisons of floats and as values, and likewise `ymin`, `ymax` for
`Y`. -/
theorem mesh_bounding_box (rfile : resfile_t) (v : Int) (h : resfile_t)
    (hacc : get_telemac_mesh rfile v = some (0, h)) (hnp : 1 ≤ h.tmdat.npoin)
    (hX : ∀ x ∈ h.tmdat.X, f32_isnan x = false)
    (hY : ∀ y ∈ h.tmdat.Y, f32_isnan y = false) :
    h.tmdat.X.length = h.tmdat.npoin ∧ h.tmdat.Y.length = h.tmdat.npoin
    ∧ ∃ xmin xmax ymin ymax : Nat, h.tmdat.XYrange = [xmin, xmax, ymin, ymax]
      ∧ xmin ∈ h.tmdat.X ∧ xmax ∈ h.tmdat.X ∧ ymin ∈ h.tmdat.Y ∧ ymax ∈ h.tmdat.Y
      ∧ (∀ x ∈ h.tmdat.X, f32_le xmin x = true ∧ f32_le x xmax = true
          ∧ f32_value xmin ≤ f32_value x ∧ f32_value x ≤ f32_value xmax)
      ∧ (∀ y ∈ h.tmdat.Y, f32_le ymin y = true ∧ f32_le y ymax = true
          ∧ f32_value ymin ≤ f32_value y ∧ f32_value y ≤ f32_value ymax) := by
  obtain ⟨-, -, -, -, -, -, -, -, heX, heY, hR, -, hnpe, -⟩ := mesh_accept_fields rfile v h hacc
  have hlX : h.tmdat.X.length = h.tmdat.npoin := by
    rw [heX, List.length_map, List.length_range, hnpe]
  have hlY : h.tmdat.Y.length = h.tmdat.npoin := by
    rw [heY, List.length_map, List.length_range, hnpe]
  have hneX : h.tmdat.X ≠ [] := by
    intro hc; rw [hc] at hlX; simp at hlX; omega
  have hneY : h.tmdat.Y ≠ [] := by
    intro hc; rw [hc] at hlY; simp at hlY; omega
  have hltX : ∀ x ∈ h.tmdat.X, x < 4294967296 := by
    intro x hx
    rw [heX] at hx
    obtain ⟨i, -, rfl⟩ := List.mem_map.mp hx
    exact be_val_word_lt _
  have hltY : ∀ y ∈ h.tmdat.Y, y < 4294967296 := by
    intro y hy
    rw [heY] at hy
    obtain ⟨i, -, rfl⟩ := List.mem_map.mp hy
    exact be_val_word_lt _
  obtain ⟨hxmin, hxlo⟩ := running_min_attained _ hneX hltX hX
  obtain ⟨hxmax, hxhi⟩ := running_max_attained _ hneX hltX hX
  obtain ⟨hymin, hylo⟩ := running_min_attained _ hneY hltY hY
  obtain ⟨hymax, hyhi⟩ := running_max_attained _ hneY hltY hY
  refine ⟨hlX, hlY, _, _, _, _, ?_, hxmin, hxmax, hymin, hymax,
    fun x hx => ⟨hxlo x hx, hxhi x hx, f32_le_value _ _ (hxlo x hx),
      f32_le_value _ _ (hxhi x hx)⟩,
    fun y hy => ⟨hylo y hy, hyhi y hy, f32_le_value _ _ (hylo y hy),
      f32_le_value _ _ (hyhi y hy)⟩⟩
  rw [hR, foldl_range_step_x, foldl_range_step_y]

theorem mesh_bounding_box_witness :
    get_telemac_mesh bbox_header_handle 0 = some (0, bbox_mesh_handle)
    ∧ bbox_mesh_handle.tmdat.X = [3212836864, 1075838976]
    ∧ bbox_mesh_handle.tmdat.XYrange = [3212836864, 1075838976, 3221225472, 1084227584]
    ∧ bbox_mesh_handle.tmdat.X.length = bbox_mesh_handle.tmdat.npoin :=
  ⟨by decide, by decide, by decide,
    (mesh_bounding_box bbox_header_handle 0 bbox_mesh_handle (by decide) (by decide)
      (by decide) (by decide)).1⟩

theorem le_bytes_length : ∀ (n x : Nat), (le_bytes n x).length = n
  | 0, _ => rfl
  | n + 1, x => by simp [le_bytes, le_bytes_length n]

theorem be_bytes_length (x : Nat) : (be_bytes x).length = 4 := by
  simp [be_bytes, le_bytes_length]

theorem le_val_le_bytes : ∀ (n x : Nat), le_val (le_bytes n x) = x % 256 ^ n
  | 0, x => by simp [le_bytes, le_val, Nat.mod_one]
  | n + 1, x => by
    simp only [le_bytes, le_val, le_val_le_bytes n]
    have h1 : ((Fin.ofNat (x % 256) : Byte)).val = x % 256 := by
      show x % 256 % 256 = x % 256
      omega
    rw [h1, pow_succ, Nat.mul_comm (256 ^ n) 256, Nat.mod_mul]

theorem int_swap_be (x : Nat) (hx : x < 4294967296) : int_swap (le_val (be_bytes x)) = x := by
  rw [int_swap_le_val _ (be_bytes_length x)]
  unfold be_val be_bytes
  rw [List.reverse_reverse, le_val_le_bytes]
  exact Nat.mod_eq_of_lt (by norm_num; exact hx)

theorem be_words_length (ws : List Nat) : (be_words ws).length = 4 * ws.length := by
  induction ws with
  | nil => rfl
  | cons w ws ih =>
    simp only [be_words, List.flatMap_cons, List.length_append, List.length_cons] at ih ⊢
    rw [ih, be_bytes_length]
    omega

theorem record_length (P : List Byte) : (record P).length = P.length + 8 := by
  simp only [record, List.length_append, be_bytes_length]
  omega

theorem fortran_read_record (f : FILE) (buf P rest : List Byte) (csize num : Nat)
    (hc : 1 ≤ csize) (hP : P.length = csize * num) (hd : f.data.drop f.pos = record P ++ rest) :
    fortran_read buf csize num f
      = (to_int num, P ++ buf.drop (csize * num), { f with pos := f.pos + (csize * num + 8) })
    ∧ f.data.drop (f.pos + (csize * num + 8)) = rest := by
  have hd2 : f.data.drop f.pos
      = be_bytes P.length ++ (P ++ (be_bytes P.length ++ rest)) := by
    rw [hd]; simp only [record, List.append_assoc]
  have e := fortran_read_framed f buf (be_bytes P.length) P (be_bytes P.length) rest csize num
    (be_bytes_length _) (be_bytes_length _) hP hd2
  have hq : P.length / csize = num := by
    rw [hP]; exact Nat.mul_div_cancel_left num (by omega)
  constructor
  · rw [e]
    simp only [ne_eq, not_true_eq_false, if_false, hq]
    rw [hP]
  · rw [← hP, ← record_length, ← List.drop_drop, hd, List.drop_left]

theorem le_words_be_words : ∀ (ws : List Nat) (t : List Byte),
    (∀ w ∈ ws, w < 4294967296) →
    (le_words ws.length (be_words ws ++ t)).map int_swap = ws
  | [], _, _ => rfl
  | w :: ws, t, h => by
    have hw := h w (List.mem_cons_self _ _)
    have hws : ∀ x ∈ ws, x < 4294967296 := fun x hx => h x (List.mem_cons_of_mem _ hx)
    have e : be_words (w :: ws) ++ t = be_bytes w ++ (be_words ws ++ t) := by
      simp only [be_words, List.flatMap_cons, List.append_assoc]
    have e1 : (be_bytes w ++ (be_words ws ++ t)).take 4 = be_bytes w := by
      rw [← be_bytes_length w, List.take_left]
    have e2 : (be_bytes w ++ (be_words ws ++ t)).drop 4 = be_words ws ++ t := by
      rw [← be_bytes_length w, List.drop_left]
    simp only [List.length_cons, le_words, List.map_cons]
    rw [e, e1, e2, int_swap_be w hw, le_words_be_words ws t hws]

theorem be_words_slice : ∀ (ws : List Nat) (t : List Byte) (i : Nat), i < ws.length →
    ((be_words ws ++ t).drop (4 * i)).take 4 = be_bytes (ws.getD i 0)
  | [], _, _, h => by simp at h
  | w :: ws, t, 0, _ => by
    have e : be_words (w :: ws) ++ t = be_bytes w ++ (be_words ws ++ t) := by
      simp only [be_words, List.flatMap_cons, List.append_assoc]
    rw [e, Nat.mul_zero, List.drop_zero, ← be_bytes_length w, List.take_left]
    rfl
  | w :: ws, t, i + 1, h => by
    have e : be_words (w :: ws) ++ t = be_bytes w ++ (be_words ws ++ t) := by
      simp only [be_words, List.flatMap_cons, List.append_assoc]
    have h4 : 4 * (i + 1) = (be_bytes w).length + 4 * i := by rw [be_bytes_length]; omega
    rw [e, h4, List.drop_append, be_words_slice ws t i (by simpa using h)]
    rfl

theorem be_words_field (ws : List Nat) (t : List Byte) (i : Nat) (hi : i < ws.length)
    (hw : ws.getD i 0 < 4294967296) :
    int_swap (le_val (((be_words ws ++ t).drop (4 * i)).take 4)) = ws.getD i 0 := by
  rw [be_words_slice ws t i hi, int_swap_be _ hw]

theorem header_r6_forward (rfile : resfile_t) (results : telemac_data_t) (f : FILE)
    (ne np nd one : Nat) (rest : List Byte)
    (hne : ne < 4294967296) (hnp : np < 4294967296) (hnd : nd < 4294967296)
    (hd : f.data.drop f.pos = record (be_words [ne, np, nd, one]) ++ rest) :
    ∃ h : resfile_t, header_r6 rfile results f = some (0, h)
      ∧ h.file.data = f.data ∧ h.file.pos = f.pos + 24
      ∧ h.meshstart = ((f.pos + 24 : Nat) : Int)
      ∧ f.data.drop (f.pos + 24) = rest
      ∧ h.tmdat = { results with nelem := ne, npoin := np, ndp := nd, state := 1 } := by
  obtain ⟨e, hrest⟩ := fortran_read_record f (List.replicate 16 0)
    (be_words [ne, np, nd, one]) rest 16 1 (by decide) (by rw [be_words_length]; rfl) hd
  have f0 := be_words_field [ne, np, nd, one] (List.drop (16 * 1) (List.replicate 16 0)) 0
    (by simp) hne
  have f1 := be_words_field [ne, np, nd, one] (List.drop (16 * 1) (List.replicate 16 0)) 1
    (by simp) hnp
  have f2 := be_words_field [ne, np, nd, one] (List.drop (16 * 1) (List.replicate 16 0)) 2
    (by simp) hnd
  simp only [Nat.mul_zero, List.drop_zero, Nat.mul_one, List.getD_cons_zero, List.getD_cons_succ,
    Nat.reduceMul] at f0 f1 f2
  unfold header_r6
  simp only [e, to_int, ftello]
  simp only [Nat.mul_one] at hrest ⊢
  rw [f0, f1, f2]
  exact ⟨_, rfl, rfl, rfl, rfl, hrest, rfl⟩

theorem header_r4_forward (rfile : resfile_t) (results : telemac_data_t) (f : FILE)
    (ip : List Nat) (dt : datetime_t) (ne np nd one : Nat) (rest : List Byte)
    (hlen : ip.length = 10) (hip : ∀ x ∈ ip, x < 4294967296)
    (hdt : dt.year < 4294967296 ∧ dt.month < 4294967296 ∧ dt.day < 4294967296
      ∧ dt.hour < 4294967296 ∧ dt.minute < 4294967296 ∧ dt.second < 4294967296)
    (hne : ne < 4294967296) (hnp : np < 4294967296) (hnd : nd < 4294967296)
    (hd : f.data.drop f.pos
      = record (be_words ip)
        ++ ((if ip.getD 9 0 = 1 then
              record (be_words [dt.year, dt.month, dt.day, dt.hour, dt.minute, dt.second])
            else [])
          ++ (record (be_words [ne, np, nd, one]) ++ rest))) :
    ∃ h : resfile_t, header_r4 rfile results f = some (0, h)
      ∧ h.file.data = f.data
      ∧ h.meshstart = (h.file.pos : Int)
      ∧ f.data.drop h.file.pos = rest
      ∧ h.tmdat = { results with
          iparam := ip, date := if ip.getD 9 0 = 1 then dt else results.date,
          nelem := ne, npoin := np, ndp := nd, state := 1 } := by
  obtain ⟨e4, hrest4⟩ := fortran_read_record f (words_bytes results.iparam)
    (be_words ip) _ 40 1 (by decide) (by rw [be_words_length, hlen]) hd
  have hdec : (le_words 10 (be_words ip ++ List.drop (40 * 1) (words_bytes results.iparam))).map
      int_swap = ip := by
    rw [← hlen]; exact le_words_be_words ip _ hip
  unfold header_r4
  simp only [e4, to_int, hdec]
  simp only [Nat.mul_one, Nat.reduceAdd] at hrest4 ⊢
  by_cases h9 : ip.getD 9 0 = 1
  · simp only [h9, ↓reduceIte] at hrest4 ⊢
    obtain ⟨e5, hrest5⟩ := fortran_read_record { f with pos := f.pos + 48 } (List.replicate 24 0)
      (be_words [dt.year, dt.month, dt.day, dt.hour, dt.minute, dt.second]) _ 24 1 (by decide)
      (by rw [be_words_length]; rfl) hrest4
    have g0 := be_words_field [dt.year, dt.month, dt.day, dt.hour, dt.minute, dt.second]
      (List.drop (24 * 1) (List.replicate 24 0)) 0 (by simp) hdt.1
    have g1 := be_words_field [dt.year, dt.month, dt.day, dt.hour, dt.minute, dt.second]
      (List.drop (24 * 1) (List.replicate 24 0)) 1 (by simp) hdt.2.1
    have g2 := be_words_field [dt.year, dt.month, dt.day, dt.hour, dt.minute, dt.second]
      (List.drop (24 * 1) (List.replicate 24 0)) 2 (by simp) hdt.2.2.1
    have g3 := be_words_field [dt.year, dt.month, dt.day, dt.hour, dt.minute, dt.second]
      (List.drop (24 * 1) (List.replicate 24 0)) 3 (by simp) hdt.2.2.2.1
    have g4 := be_words_field [dt.year, dt.month, dt.day, dt.hour, dt.minute, dt.second]
      (List.drop (24 * 1) (List.replicate 24 0)) 4 (by simp) hdt.2.2.2.2.1
    have g5 := be_words_field [dt.year, dt.month, dt.day, dt.hour, dt.minute, dt.second]
      (List.drop (24 * 1) (List.replicate 24 0)) 5 (by simp) hdt.2.2.2.2.2
    simp only [Nat.mul_zero, List.drop_zero, Nat.mul_one, List.getD_cons_zero,
      List.getD_cons_succ, Nat.reduceMul] at g0 g1 g2 g3 g4 g5
    simp only [e5, to_int, Nat.mul_one]
    simp only [Nat.mul_one, Nat.reduceAdd] at hrest5
    rw [g0, g1, g2, g3, g4, g5]
    obtain ⟨h, hh, hfd, hfp, hms, hr6, htm⟩ := header_r6_forward rfile
      { results with iparam := ip, date := dt }
      { data := f.data, pos := f.pos + 48 + 32, eof := f.eof } ne np nd one rest hne hnp hnd hrest5
    refine ⟨h, ?_, hfd, ?_, ?_, ?_⟩
    · simpa using hh
    · rw [hms, hfp]
    · rw [hfp]; exact hr6
    · rw [htm]
  · simp only [h9, ↓reduceIte, List.nil_append] at hrest4 ⊢
    obtain ⟨h, hh, hfd, hfp, hms, hr6, htm⟩ := header_r6_forward rfile
      { results with iparam := ip }
      { data := f.data, pos := f.pos + 48, eof := f.eof } ne np nd one rest hne hnp hnd hrest4
    refine ⟨h, ?_, hfd, ?_, ?_, ?_⟩
    · simpa using hh
    · rw [hms, hfp]
    · rw [hfp]; exact hr6
    · rw [htm]

theorem names_layout_length : ∀ (names : List (List Byte)),
    (∀ nm ∈ names, nm.length = 32) → (names.flatMap record).length = 40 * names.length
  | [], _ => rfl
  | nm :: names, h => by
    have h1 := h nm (List.mem_cons_self _ _)
    have h2 := names_layout_length names (fun x hx => h x (List.mem_cons_of_mem _ hx))
    rw [List.flatMap_cons, List.length_append, record_length, h1, h2, List.length_cons]
    omega

theorem header_r2_forward (rfile : resfile_t) (results : telemac_data_t) (f : FILE)
    (names : List (List Byte)) (n2 : Nat)
    (ip : List Nat) (dt : datetime_t) (ne np nd one : Nat) (rest : List Byte)
    (hnames : ∀ nm ∈ names, nm.length = 32) (hn1 : names.length ≤ INT_MAX)
    (hn2 : n2 < 4294967296)
    (hlen : ip.length = 10) (hip : ∀ x ∈ ip, x < 4294967296)
    (hdt : dt.year < 4294967296 ∧ dt.month < 4294967296 ∧ dt.day < 4294967296
      ∧ dt.hour < 4294967296 ∧ dt.minute < 4294967296 ∧ dt.second < 4294967296)
    (hne : ne < 4294967296) (hnp : np < 4294967296) (hnd : nd < 4294967296)
    (hd : f.data.drop f.pos
      = record (be_bytes names.length ++ be_bytes n2)
        ++ (names.flatMap record
          ++ (record (be_words ip)
            ++ ((if ip.getD 9 0 = 1 then
                  record (be_words [dt.year, dt.month, dt.day, dt.hour, dt.minute, dt.second])
                else [])
              ++ (record (be_words [ne, np, nd, one]) ++ rest))))) :
    ∃ h : resfile_t, header_r2 rfile results f = some (0, h)
      ∧ h.file.data = f.data
      ∧ h.meshstart = (h.file.pos : Int)
      ∧ f.data.drop h.file.pos = rest
      ∧ ∃ vn : List (List Byte), h.tmdat = { results with
          nbv_1 := names.length, nbv_2 := n2, var_names := vn,
          iparam := ip, date := if ip.getD 9 0 = 1 then dt else results.date,
          nelem := ne, npoin := np, ndp := nd, state := 1 } := by
  have hn1' : names.length < 4294967296 := by unfold INT_MAX at hn1; omega
  have hP : be_bytes names.length ++ be_bytes n2 = be_words [names.length, n2] := by
    simp [be_words]
  rw [hP] at hd
  obtain ⟨e2, hrest2⟩ := fortran_read_record f (List.replicate 8 0)
    (be_words [names.length, n2]) _ 8 1 (by decide) (by rw [be_words_length]; rfl) hd
  have g0 := be_words_field [names.length, n2] (List.drop (8 * 1) (List.replicate 8 0)) 0
    (by simp) hn1'
  have g1 := be_words_field [names.length, n2] (List.drop (8 * 1) (List.replicate 8 0)) 1
    (by simp) hn2
  simp only [Nat.mul_zero, List.drop_zero, Nat.mul_one, List.getD_cons_zero,
    List.getD_cons_succ, Nat.reduceMul] at g0 g1
  simp only [Nat.mul_one, Nat.reduceAdd] at hrest2
  obtain ⟨hvd, hvp⟩ := read_var_names_stream names.length
    { data := f.data, pos := f.pos + 16, eof := f.eof }
  simp only [] at hvd hvp
  have hnl := names_layout_length names hnames
  have hlen2 : 40 * names.length ≤ f.data.length - (f.pos + 16) := by
    have := congrArg List.length hrest2
    rw [List.length_drop, List.length_append, hnl] at this
    omega
  rw [Nat.min_eq_right hlen2] at hvp
  have hrest3 : (read_var_names names.length
      { data := f.data, pos := f.pos + 16, eof := f.eof }).2.data.drop
        (read_var_names names.length { data := f.data, pos := f.pos + 16, eof := f.eof }).2.pos
      = record (be_words ip)
        ++ ((if ip.getD 9 0 = 1 then
              record (be_words [dt.year, dt.month, dt.day, dt.hour, dt.minute, dt.second])
            else [])
          ++ (record (be_words [ne, np, nd, one]) ++ rest)) := by
    rw [hvd, hvp, ← hnl, ← List.drop_drop, hrest2, List.drop_left]
  obtain ⟨h, hh, hfd, hms, hr, htm⟩ := header_r4_forward rfile
    { results with
      nbv_1 := names.length, nbv_2 := n2,
      var_names := (read_var_names names.length
        { data := f.data, pos := f.pos + 16, eof := f.eof }).1 }
    (read_var_names names.length { data := f.data, pos := f.pos + 16, eof := f.eof }).2
    ip dt ne np nd one rest hlen hip hdt hne hnp hnd hrest3
  rw [hvd] at hfd hr
  refine ⟨h, ?_, hfd, hms, hr, _, htm⟩
  unfold header_r2
  simp only [e2, to_int, Nat.mul_one]
  rw [g0, g1]
  simp only [Nat.not_lt.mpr hn1, ↓reduceIte]
  simpa using hh

theorem snprintf_serafin (u : List Byte) : snprintf_s 8 (SERAFIN ++ u) = SERAFIN := by
  unfold snprintf_s
  rw [cstr_take]
  have h7 : (8 - 1 : Nat) = SERAFIN.length := by decide
  rw [h7, List.take_left]
  decide

theorem header_forward (p : selafin_params) (rfile : resfile_t) (v : Int) (rest : List Byte)
    (hok : header_ok p) (hdata : rfile.file.data = layout_header p ++ rest) :
    ∃ h : resfile_t, get_telemac_header rfile v = some (0, h)
      ∧ h.file.data = rfile.file.data
      ∧ h.meshstart = (h.file.pos : Int)
      ∧ rfile.file.data.drop h.file.pos = rest
      ∧ ∃ (t fm : List Byte) (vn : List (List Byte)), h.tmdat = { rfile.tmdat with
          title := t, format := fm,
          nbv_1 := p.names.length, nbv_2 := p.nbv_2, var_names := vn,
          iparam := p.iparam, date := if p.iparam.getD 9 0 = 1 then p.date else rfile.tmdat.date,
          nelem := p.nelem, npoin := p.npoin, ndp := p.ndp, state := 1 } := by
  obtain ⟨ht, hnames, hn1, hn2, hlen, hip, hdt, hne, hnp, hnd⟩ := hok
  have hd0 : List.drop 0 rfile.file.data
      = record (p.title ++ (SERAFIN ++ [p.tag_pad]))
        ++ (record (be_bytes p.names.length ++ be_bytes p.nbv_2)
        ++ (p.names.flatMap record
          ++ (record (be_words p.iparam)
            ++ ((if p.iparam.getD 9 0 = 1 then
                  record (be_words [p.date.year, p.date.month, p.date.day, p.date.hour,
                    p.date.minute, p.date.second])
                else [])
              ++ (record (be_words [p.nelem, p.npoin, p.ndp, 1]) ++ rest))))) := by
    rw [List.drop_zero, hdata]
    simp only [layout_header, List.append_assoc]
  obtain ⟨e1, hrest1⟩ := fortran_read_record
    { data := rfile.file.data, pos := 0, eof := false } (List.replicate 80 0)
    (p.title ++ (SERAFIN ++ [p.tag_pad])) _ 80 1 (by decide)
    (by rw [List.length_append, ht]; rfl) hd0
  simp only [Nat.zero_add, Nat.mul_one, Nat.reduceAdd] at hrest1 e1
  have hfmt : List.drop 72 ((p.title ++ (SERAFIN ++ [p.tag_pad]))
      ++ List.drop 80 (List.replicate 80 0))
      = SERAFIN ++ ([p.tag_pad] ++ List.drop 80 (List.replicate 80 0)) := by
    rw [List.append_assoc, ← ht, List.drop_left, List.append_assoc]
  obtain ⟨h, hh, hfd, hms, hr, vn, htm⟩ := header_r2_forward rfile
    { rfile.tmdat with
      title := snprintf_s 72 ((p.title ++ (SERAFIN ++ [p.tag_pad]))
        ++ List.drop 80 (List.replicate 80 0)),
      format := snprintf_s 8 (SERAFIN ++ ([p.tag_pad] ++ List.drop 80 (List.replicate 80 0))) }
    { data := rfile.file.data, pos := 88, eof := false }
    p.names p.nbv_2 p.iparam p.date p.nelem p.npoin p.ndp 1 rest
    hnames hn1 hn2 hlen hip hdt hne hnp hnd hrest1
  refine ⟨h, ?_, hfd, hms, hr, _, _, vn, htm⟩
  have hsk : fseeko rfile.file 0 = (0, { data := rfile.file.data, pos := 0, eof := false }) := by
    simp [fseeko]
  unfold get_telemac_header
  simp only [hsk, ne_eq, not_true_eq_false, if_false, e1, to_int, hfmt]
  simp only [snprintf_serafin, strcmp, if_true, Nat.reduceMod, Nat.reduceLT, Nat.cast_ofNat,
    ↓reduceIte, ne_eq, not_true_eq_false]
  simp only [snprintf_serafin] at hh
  exact hh

theorem to_u32_to_int (n : Nat) (h : n ≤ INT_MAX) : to_u32 (to_int n) = n := by
  rw [to_int_of_le n h]
  exact to_u32_natCast n (by unfold INT_MAX at h; omega)

theorem mesh_nt_forward (rfile : resfile_t) (results : telemac_data_t) (f : FILE)
    (hds : datasize_expr results.nbv_1 results.nbv_2 results.npoin ≠ 0) :
    ∃ h : resfile_t, mesh_nt rfile results f = some (0, h)
      ∧ h.file = f ∧ h.datastart = (f.pos : Int)
      ∧ h.datasize = datasize_expr results.nbv_1 results.nbv_2 results.npoin
      ∧ h.tmdat.nt = to_u32 (Int.tdiv ((f.data.length : Int) - (f.pos : Int))
          (datasize_expr results.nbv_1 results.nbv_2 results.npoin))
      ∧ h.tmdat.state = 2 ∧ same_header h.tmdat results := by
  unfold mesh_nt
  simp only [hds, ↓reduceIte, ftello]
  exact ⟨_, rfl, rfl, rfl, rfl, rfl, rfl, rfl, rfl, rfl, rfl, rfl, rfl, rfl⟩

theorem mesh_Y_forward (rfile : resfile_t) (results : telemac_data_t) (f : FILE)
    (Y : List Nat) (T : List Byte)
    (hY : Y.length = results.npoin) (hnp : results.npoin ≤ INT_MAX)
    (hds : datasize_expr results.nbv_1 results.nbv_2 results.npoin ≠ 0)
    (hd : f.data.drop f.pos = record (be_words Y) ++ T) :
    ∃ h : resfile_t, mesh_Y rfile results f = some (0, h)
      ∧ h.file.data = f.data ∧ h.datastart = (h.file.pos : Int)
      ∧ h.file.pos ≤ f.data.length
      ∧ f.data.drop h.file.pos = T
      ∧ h.datasize = datasize_expr results.nbv_1 results.nbv_2 results.npoin
      ∧ h.tmdat.nt = to_u32 (Int.tdiv ((f.data.length : Int) - (h.file.pos : Int))
          (datasize_expr results.nbv_1 results.nbv_2 results.npoin))
      ∧ h.tmdat.state = 2 ∧ same_header h.tmdat results := by
  obtain ⟨e, hrest⟩ := fortran_read_record f (List.replicate (4 * results.npoin) 0)
    (be_words Y) T 4 results.npoin (by decide) (by rw [be_words_length, hY]) hd
  obtain ⟨h, hh, hfile, hdst, hdsz, hnt, hstate, hsame⟩ := mesh_nt_forward rfile
    { results with
      Y := (le_words results.npoin (be_words Y
        ++ List.drop (4 * results.npoin) (List.replicate (4 * results.npoin) 0))).map float_swap,
      XYrange := ((le_words results.npoin (be_words Y
        ++ List.drop (4 * results.npoin) (List.replicate (4 * results.npoin) 0))).map
          float_swap).foldl (range_step 2 3) results.XYrange }
    { f with pos := f.pos + (4 * results.npoin + 8) } hds
  refine ⟨h, ?_, ?_, ?_, ?_, ?_, hdsz, ?_, hstate, hsame⟩
  · unfold mesh_Y
    simp only [e, to_u32_to_int _ hnp, ne_eq, not_true_eq_false, ↓reduceIte, Nat.not_lt.mpr hnp]
    exact hh
  · rw [hfile]
  · rw [hdst, hfile]
  · rw [hfile]
    have := congrArg List.length hd
    rw [List.length_drop, List.length_append, record_length, be_words_length, hY] at this
    show f.pos + (4 * results.npoin + 8) ≤ f.data.length
    omega
  · rw [hfile]; exact hrest
  · rw [hnt, hfile]

theorem mesh_X_forward (rfile : resfile_t) (results : telemac_data_t) (f : FILE)
    (X Y : List Nat) (T : List Byte)
    (hX : X.length = results.npoin)
    (hY : Y.length = results.npoin) (hnp : results.npoin ≤ INT_MAX)
    (hds : datasize_expr results.nbv_1 results.nbv_2 results.npoin ≠ 0)
    (hd : f.data.drop f.pos = record (be_words X) ++ (record (be_words Y) ++ T)) :
    ∃ h : resfile_t, mesh_X rfile results f = some (0, h)
      ∧ h.file.data = f.data ∧ h.datastart = (h.file.pos : Int)
      ∧ h.file.pos ≤ f.data.length
      ∧ f.data.drop h.file.pos = T
      ∧ h.datasize = datasize_expr results.nbv_1 results.nbv_2 results.npoin
      ∧ h.tmdat.nt = to_u32 (Int.tdiv ((f.data.length : Int) - (h.file.pos : Int))
          (datasize_expr results.nbv_1 results.nbv_2 results.npoin))
      ∧ h.tmdat.state = 2 ∧ same_header h.tmdat results := by
  obtain ⟨e, hrest⟩ := fortran_read_record f (List.replicate (4 * results.npoin) 0)
    (be_words X) _ 4 results.npoin (by decide) (by rw [be_words_length, hX]) hd
  obtain ⟨h, hh, hfd, hdst, hle, hr, hdsz, hnt, hstate, hsame⟩ := mesh_Y_forward rfile
    { results with
      X := (le_words results.npoin (be_words X
        ++ List.drop (4 * results.npoin) (List.replicate (4 * results.npoin) 0))).map float_swap,
      XYrange := ((le_words results.npoin (be_words X
        ++ List.drop (4 * results.npoin) (List.replicate (4 * results.npoin) 0))).map
          float_swap).foldl (range_step 0 1) [F32_INF, F32_NEG_INF, F32_INF, F32_NEG_INF] }
    { f with pos := f.pos + (4 * results.npoin + 8) } Y T hY hnp hds hrest
  refine ⟨h, ?_, hfd, hdst, hle, hr, hdsz, hnt, hstate, hsame⟩
  unfold mesh_X
  simp only [e, to_u32_to_int _ hnp, ne_eq, not_true_eq_false, ↓reduceIte, Nat.not_lt.mpr hnp]
  exact hh

theorem mesh_ipobo_forward (rfile : resfile_t) (results : telemac_data_t) (f : FILE)
    (ipobo X Y : List Nat) (T : List Byte)
    (hI : ipobo.length = results.npoin) (hX : X.length = results.npoin)
    (hY : Y.length = results.npoin) (hnp : results.npoin ≤ INT_MAX)
    (hds : datasize_expr results.nbv_1 results.nbv_2 results.npoin ≠ 0)
    (hd : f.data.drop f.pos
      = record (be_words ipobo) ++ (record (be_words X) ++ (record (be_words Y) ++ T))) :
    ∃ h : resfile_t, mesh_ipobo rfile results f = some (0, h)
      ∧ h.file.data = f.data ∧ h.datastart = (h.file.pos : Int)
      ∧ h.file.pos ≤ f.data.length
      ∧ f.data.drop h.file.pos = T
      ∧ h.datasize = datasize_expr results.nbv_1 results.nbv_2 results.npoin
      ∧ h.tmdat.nt = to_u32 (Int.tdiv ((f.data.length : Int) - (h.file.pos : Int))
          (datasize_expr results.nbv_1 results.nbv_2 results.npoin))
      ∧ h.tmdat.state = 2 ∧ same_header h.tmdat results := by
  obtain ⟨e, hrest⟩ := fortran_read_record f (List.replicate (4 * results.npoin) 0)
    (be_words ipobo) _ 4 results.npoin (by decide) (by rw [be_words_length, hI]) hd
  obtain ⟨h, hh, hfd, hdst, hle, hr, hdsz, hnt, hstate, hsame⟩ := mesh_X_forward rfile
    { results with
      ipobo := (le_words results.npoin (be_words ipobo
        ++ List.drop (4 * results.npoin) (List.replicate (4 * results.npoin) 0))).map int_swap }
    { f with pos := f.pos + (4 * results.npoin + 8) } X Y T hX hY hnp hds hrest
  refine ⟨h, ?_, hfd, hdst, hle, hr, hdsz, hnt, hstate, hsame⟩
  unfold mesh_ipobo
  simp only [e, to_u32_to_int _ hnp, ne_eq, not_true_eq_false, ↓reduceIte, Nat.not_lt.mpr hnp]
  exact hh

theorem mesh_forward (rfile : resfile_t) (v : Int) (ikle ipobo X Y : List Nat) (T : List Byte)
    (hst : rfile.tmdat.state = 1) (hms : 0 ≤ rfile.meshstart)
    (hK : ikle.length = rfile.tmdat.nelem * rfile.tmdat.ndp % 4294967296)
    (hKmax : ikle.length ≤ INT_MAX)
    (hI : ipobo.length = rfile.tmdat.npoin) (hX : X.length = rfile.tmdat.npoin)
    (hY : Y.length = rfile.tmdat.npoin) (hnp : rfile.tmdat.npoin ≤ INT_MAX)
    (hds : datasize_expr rfile.tmdat.nbv_1 rfile.tmdat.nbv_2 rfile.tmdat.npoin ≠ 0)
    (hd : rfile.file.data.drop rfile.meshstart.toNat
      = record (be_words ikle)
        ++ (record (be_words ipobo) ++ (record (be_words X) ++ (record (be_words Y) ++ T)))) :
    ∃ h : resfile_t, get_telemac_mesh rfile v = some (0, h)
      ∧ h.file.data = rfile.file.data ∧ h.datastart = (h.file.pos : Int)
      ∧ h.file.pos ≤ rfile.file.data.length
      ∧ rfile.file.data.drop h.file.pos = T
      ∧ h.datasize = datasize_expr rfile.tmdat.nbv_1 rfile.tmdat.nbv_2 rfile.tmdat.npoin
      ∧ h.tmdat.nt = to_u32 (Int.tdiv ((rfile.file.data.length : Int) - (h.file.pos : Int))
          (datasize_expr rfile.tmdat.nbv_1 rfile.tmdat.nbv_2 rfile.tmdat.npoin))
      ∧ h.tmdat.state = 2 ∧ same_header h.tmdat rfile.tmdat := by
  rw [hK] at hKmax
  obtain ⟨e, hrest⟩ := fortran_read_record
    { data := rfile.file.data, pos := rfile.meshstart.toNat, eof := false }
    (List.replicate (4 * (rfile.tmdat.nelem * rfile.tmdat.ndp % 4294967296)) 0)
    (be_words ikle) _ 4 (rfile.tmdat.nelem * rfile.tmdat.ndp % 4294967296) (by decide)
    (by rw [be_words_length, hK]) hd
  obtain ⟨h, hh, hfd, hdst, hle, hr, hdsz, hnt, hstate, hsame⟩ := mesh_ipobo_forward rfile
    { rfile.tmdat with
      ikle := (le_words (rfile.tmdat.nelem * rfile.tmdat.ndp % 4294967296) (be_words ikle
        ++ List.drop (4 * (rfile.tmdat.nelem * rfile.tmdat.ndp % 4294967296))
          (List.replicate (4 * (rfile.tmdat.nelem * rfile.tmdat.ndp % 4294967296)) 0))).map
            int_swap }
    { data := rfile.file.data,
      pos := rfile.meshstart.toNat + (4 * (rfile.tmdat.nelem * rfile.tmdat.ndp % 4294967296) + 8),
      eof := false }
    ipobo X Y T hI hX hY hnp hds hrest
  refine ⟨h, ?_, hfd, hdst, hle, hr, hdsz, hnt, hstate, hsame⟩
  have hsk : fseeko rfile.file rfile.meshstart
      = (0, { data := rfile.file.data, pos := rfile.meshstart.toNat, eof := false }) := by
    simp only [fseeko, if_neg (Int.not_lt.mpr hms)]
  have h1 : (rfile.tmdat.state ≠ 1) = False := by simp [hst]
  unfold get_telemac_mesh
  simp only [h1, if_false]
  simp only [hsk, e, to_u32_to_int _ hKmax, ne_eq, not_true_eq_false, ↓reduceIte,
    Nat.not_lt.mpr hKmax]
  exact hh

theorem open_tail (rf : resfile_t) (D len : Nat)
    (hds : rf.datasize = (D : Int)) (hlen : rf.file.data.length = len)
    (hst : rf.datastart = (rf.file.pos : Int)) (hpos : rf.file.pos ≤ len)
    (hnt : D * rf.tmdat.nt ≤ len - rf.file.pos)
    (hsize : len < 9223372036854775808) :
    ∃ h : resfile_t,
      open_check rf
        = some (if D * rf.tmdat.nt < len - rf.file.pos then 3 else 0, h)
      ∧ h.tmdat = rf.tmdat := by
  have hoff : rf.datastart + rf.datasize * (rf.tmdat.nt : Int)
      = ((rf.file.pos + D * rf.tmdat.nt : Nat) : Int) := by
    rw [hst, hds]; push_cast; ring
  have hprod : rf.datasize * (rf.tmdat.nt : Int) = ((D * rf.tmdat.nt : Nat) : Int) := by
    rw [hds]; push_cast; ring
  unfold open_check
  simp only []
  rw [hoff, hprod]
  generalize hN : D * rf.tmdat.nt = N at hnt ⊢
  have hc : ¬ (((N : Nat) : Int) < -9223372036854775808
      ∨ (9223372036854775808 : Int) ≤ ((N : Nat) : Int)
      ∨ ((rf.file.pos + N : Nat) : Int) < -9223372036854775808
      ∨ (9223372036854775808 : Int) ≤ ((rf.file.pos + N : Nat) : Int)) := by omega
  rw [if_neg hc]
  have hsk : fseeko rf.file ((rf.file.pos + N : Nat) : Int)
      = (0, { data := rf.file.data, pos := rf.file.pos + N, eof := false }) := by
    unfold fseeko
    rw [if_neg (by omega), Int.toNat_ofNat]
  rw [hsk]
  simp only [ne_eq, not_true_eq_false, if_false, fread, Nat.mul_one, Nat.div_one,
    Bool.false_or, decide_eq_false_iff_not, List.length_take, List.length_drop, hlen]
  by_cases hlt : N < len - rf.file.pos
  · have h1 : min 1 (len - (rf.file.pos + N)) = 1 := by omega
    simp only [h1, hlt, if_true]
    exact ⟨_, rfl, rfl⟩
  · have h1 : min 1 (len - (rf.file.pos + N)) = 0 := by omega
    simp only [h1, hlt, if_false]
    exact ⟨_, rfl, rfl⟩

theorem open_forward (p : selafin_params) (T : List Byte) (rfile : resfile_t) (v : Int) (D : Nat)
    (hok : header_ok p) (hmesh : mesh_ok p)
    (hdata : rfile.file.data = layout_header p ++ (layout_mesh p ++ T))
    (hD : datasize_expr p.names.length p.nbv_2 p.npoin = (D : Int)) (hDpos : 0 < D)
    (hsize : rfile.file.data.length < 9223372036854775808) :
    ∃ h : resfile_t,
      open_telemac rfile v
        = some (if D * (T.length / D % 4294967296) < T.length then 3 else 0, h)
      ∧ h.tmdat.nt = T.length / D % 4294967296
      ∧ h.tmdat.nbv_1 = p.names.length ∧ h.tmdat.nbv_2 = p.nbv_2 ∧ h.tmdat.iparam = p.iparam
      ∧ (p.iparam.getD 9 0 = 1 → h.tmdat.date = p.date)
      ∧ h.tmdat.nelem = p.nelem ∧ h.tmdat.npoin = p.npoin ∧ h.tmdat.ndp = p.ndp
      ∧ h.tmdat.state = 2 := by
  obtain ⟨h1, hh1, hfd1, hms1, hr1, t, fm, vn, htm1⟩ :=
    header_forward p rfile v (layout_mesh p ++ T) hok hdata
  have e_state := congrArg telemac_data_t.state htm1
  have e_nelem := congrArg telemac_data_t.nelem htm1
  have e_npoin := congrArg telemac_data_t.npoin htm1
  have e_ndp := congrArg telemac_data_t.ndp htm1
  have e_nbv1 := congrArg telemac_data_t.nbv_1 htm1
  have e_nbv2 := congrArg telemac_data_t.nbv_2 htm1
  have e_ip := congrArg telemac_data_t.iparam htm1
  have e_date := congrArg telemac_data_t.date htm1
  clear htm1
  dsimp only at e_state e_nelem e_npoin e_ndp e_nbv1 e_nbv2 e_ip e_date
  obtain ⟨hK, hKmax, hI, hX, hY, hnp⟩ := hmesh
  have hKlt : p.nelem * p.ndp % 4294967296 = p.nelem * p.ndp := by
    apply Nat.mod_eq_of_lt
    unfold INT_MAX at hKmax
    omega
  obtain ⟨h2, hh2, hfd2, hdst2, hle2, hr2, hdsz2, hnt2, hst2, hsame⟩ :=
    mesh_forward h1 v p.ikle p.ipobo p.X p.Y T e_state
      (by rw [hms1]; exact Int.natCast_nonneg _)
      (by rw [e_nelem, e_ndp, hKlt]; exact hK)
      hKmax (by rw [e_npoin]; exact hI) (by rw [e_npoin]; exact hX)
      (by rw [e_npoin]; exact hY) (by rw [e_npoin]; exact hnp)
      (by rw [e_nbv1, e_nbv2, e_npoin, hD]; exact_mod_cast (Nat.pos_iff_ne_zero.mp hDpos))
      (by rw [hfd1, hms1, Int.toNat_ofNat, hr1]; simp only [layout_mesh, List.append_assoc])
  obtain ⟨s1, s2, s3, s4, s5, s6, s7⟩ := hsame
  rw [hfd1] at hle2 hr2 hnt2 hfd2
  rw [e_nbv1, e_nbv2, e_npoin, hD] at hdsz2 hnt2
  have hTlen : T.length = rfile.file.data.length - h2.file.pos := by
    rw [← hr2, List.length_drop]
  have hnt3 : h2.tmdat.nt = T.length / D % 4294967296 := by
    rw [hnt2]
    have : ((rfile.file.data.length : Int) - (h2.file.pos : Int)) = ((T.length : Nat) : Int) := by
      rw [hTlen]; omega
    rw [this, ← Int.ofNat_tdiv]
    unfold to_u32
    omega
  have hprod : D * h2.tmdat.nt ≤ rfile.file.data.length - h2.file.pos := by
    rw [← hTlen, hnt3]
    calc D * (T.length / D % 4294967296) ≤ D * (T.length / D) :=
          Nat.mul_le_mul_left _ (Nat.mod_le _ _)
      _ ≤ T.length := Nat.mul_div_le _ _
  obtain ⟨h3, hh3, htm3⟩ := open_tail h2 D rfile.file.data.length hdsz2 (congrArg List.length hfd2) hdst2 hle2 hprod hsize
  refine ⟨h3, ?_, ?_, ?_, ?_, ?_, ?_, ?_, ?_, ?_, ?_⟩
  · unfold open_telemac
    rw [hh1]
    simp only [lt_self_iff_false, if_false]
    rw [hh2]
    simp only [lt_self_iff_false, if_false]
    rw [hh3, ← hTlen, hnt3]
  · rw [htm3, hnt3]
  · rw [htm3, s1, e_nbv1]
  · rw [htm3, s2, e_nbv2]
  · rw [htm3, s3, e_ip]
  · intro h9
    rw [htm3, s4, e_date, if_pos h9]
  · rw [htm3, s5, e_nelem]
  · rw [htm3, s6, e_npoin]
  · rw [htm3, s7, e_ndp]
  · rw [htm3, hst2]

theorem arrays_layout_length (np : Nat) : ∀ (arrs : List (List Nat)),
    (∀ arr ∈ arrs, arr.length = np) →
    (arrs.flatMap (fun arr => record (be_words arr))).length = arrs.length * (4 * np + 8)
  | [], _ => by simp
  | a :: arrs, h => by
    have h1 := h a (List.mem_cons_self _ _)
    have h2 := arrays_layout_length np arrs (fun x hx => h x (List.mem_cons_of_mem _ hx))
    rw [List.flatMap_cons, List.length_append, record_length, be_words_length, h1, h2,
      List.length_cons]
    ring

theorem layout_step_length (st : Nat × List (List Nat)) (np : Nat)
    (h : ∀ arr ∈ st.2, arr.length = np) :
    (layout_step st).length = 12 + st.2.length * (4 * np + 8) := by
  unfold layout_step
  rw [List.length_append, record_length, be_bytes_length, arrays_layout_length np st.2 h]

theorem steps_layout_length (k np : Nat) : ∀ (steps : List (Nat × List (List Nat))),
    (∀ st ∈ steps, st.2.length = k ∧ ∀ arr ∈ st.2, arr.length = np) →
    (steps.flatMap layout_step).length = steps.length * (12 + k * (4 * np + 8))
  | [], _ => by simp
  | st :: steps, h => by
    obtain ⟨h1, h2⟩ := h st (List.mem_cons_self _ _)
    have h3 := steps_layout_length k np steps (fun x hx => h x (List.mem_cons_of_mem _ hx))
    rw [List.flatMap_cons, List.length_append, layout_step_length st np h2, h1, h3,
      List.length_cons]
    ring

theorem datasize_expr_eq_stride (a b c : Nat) (hab : a + b < 4294967296)
    (hs : spec_stride a b c < 9223372036854775808) :
    datasize_expr a b c = ((spec_stride a b c : Nat) : Int) := by
  unfold datasize_expr to_off
  unfold spec_stride at hs ⊢
  rw [Nat.mod_eq_of_lt hab]
  have h1 : (8 + 4 + (a + b) * (4 * c + 8)) % 18446744073709551616
      = 8 + 4 + (a + b) * (4 * c + 8) := Nat.mod_eq_of_lt (by omega)
  rw [h1, if_pos hs]

/-- C8 (amended): for every file laid out as the record table prescribes from
parameters whose sizes fit the C types that hold them (`header_ok`, `mesh_ok`,
`steps_ok`, `sizes_ok`: in particular `nbv_1 + nbv_2 < 2^32`), `open_telemac`
returns 0 and the decoded `nbv_1`, `nbv_2`, `iparam`, date (when `iparam[9] = 1`),
`nelem`, `npoin`, `ndp` and `nt` equal the parameters. -/
theorem open_layout_roundtrip (p : selafin_params) (rfile : resfile_t) (v : Int)
    (hok : header_ok p) (hmesh : mesh_ok p) (hsteps : steps_ok p) (hsizes : sizes_ok p)
    (hdata : rfile.file.data = layout p) :
    ∃ h : resfile_t, open_telemac rfile v = some (0, h)
      ∧ h.tmdat.nbv_1 = p.names.length ∧ h.tmdat.nbv_2 = p.nbv_2 ∧ h.tmdat.iparam = p.iparam
      ∧ (p.iparam.getD 9 0 = 1 → h.tmdat.date = p.date)
      ∧ h.tmdat.nelem = p.nelem ∧ h.tmdat.npoin = p.npoin ∧ h.tmdat.ndp = p.ndp
      ∧ h.tmdat.nt = p.steps.length := by
  obtain ⟨hsum, hnt, hstride, hsize⟩ := hsizes
  have hD := datasize_expr_eq_stride p.names.length p.nbv_2 p.npoin hsum hstride
  have hDpos : 0 < spec_stride p.names.length p.nbv_2 p.npoin := by
    unfold spec_stride; omega
  have hTlen := steps_layout_length (p.names.length + p.nbv_2) p.npoin p.steps hsteps
  have hdata2 : rfile.file.data
      = layout_header p ++ (layout_mesh p ++ p.steps.flatMap layout_step) := by
    rw [hdata, layout, List.append_assoc]
  obtain ⟨h, hh, e_nt, e1, e2, e3, e4, e5, e6, e7, -⟩ :=
    open_forward p (p.steps.flatMap layout_step) rfile v _ hok hmesh hdata2 hD hDpos
      (by rw [hdata]; exact hsize)
  have hq : (p.steps.flatMap layout_step).length / spec_stride p.names.length p.nbv_2 p.npoin
      % 4294967296 = p.steps.length := by
    rw [hTlen]
    unfold spec_stride at hDpos ⊢
    rw [Nat.mul_div_cancel _ hDpos]
    exact Nat.mod_eq_of_lt hnt
  rw [hq] at hh e_nt
  have hnot : ¬ spec_stride p.names.length p.nbv_2 p.npoin * p.steps.length
      < (p.steps.flatMap layout_step).length := by
    rw [hTlen]
    unfold spec_stride
    rw [Nat.mul_comm]
    exact Nat.lt_irrefl _
  rw [if_neg hnot] at hh
  exact ⟨h, hh, e1, e2, e3, e4, e5, e6, e7, e_nt⟩

theorem open_layout_roundtrip_witness :
    (open_telemac (fresh_handle (layout minimal_params)) 0).map
        (fun r => (r.1, r.2.tmdat.npoin, r.2.tmdat.nelem, r.2.tmdat.nt)) = some (0, 3, 1, 2) := by
  obtain ⟨h, hh, -, -, -, -, e5, e6, -, e_nt⟩ :=
    open_layout_roundtrip minimal_params (fresh_handle (layout minimal_params)) 0
      (by decide) (by decide) (by decide) (by decide) rfl
  rw [hh]
  simp only [Option.map_some', e5, e6, e_nt]
  rfl

theorem overflow_steps_ok (n : Nat) (hn : 1 ≤ n) : steps_ok (overflow_params n) := by
  intro st hst
  have hst' : st = (0, List.replicate n []) := by
    simpa [overflow_params] using hst
  subst hst'
  constructor
  · show (List.replicate n ([] : List Nat)).length = 1 + (n - 1)
    rw [List.length_replicate]; omega
  · intro arr harr
    rw [List.eq_of_mem_replicate harr]
    rfl

theorem overflow_steps_length (n : Nat) :
    ((overflow_params n).steps.flatMap layout_step).length = 12 + n * 8 := by
  have h : (overflow_params n).steps.flatMap layout_step
      = layout_step (0, List.replicate n []) ++ [] := rfl
  rw [h, List.append_nil, layout_step_length _ 0 (fun arr harr => by
    rw [List.eq_of_mem_replicate harr]; rfl)]
  show 12 + (List.replicate n ([] : List Nat)).length * (4 * 0 + 8) = 12 + n * 8
  rw [List.length_replicate]

theorem overflow_layout_length (n : Nat) :
    (layout (overflow_params n)).length = 248 + (12 + n * 8) := by
  have h : layout (overflow_params n)
      = layout_header (overflow_params n)
        ++ (layout_mesh (overflow_params n) ++ (overflow_params n).steps.flatMap layout_step) := by
    rw [layout, List.append_assoc]
  have h1 : (layout_header (overflow_params n)).length = 216 := by
    simp only [layout_header, overflow_params, List.length_append, record_length,
      be_words_length, be_bytes_length, List.flatMap_cons, List.flatMap_nil,
      List.length_replicate, List.length_cons, List.length_nil, SERAFIN]
    simp
  have h2 : (layout_mesh (overflow_params n)).length = 32 := rfl
  rw [h, List.length_append, List.length_append, h1, h2, overflow_steps_length]
  omega

/-- C8 as stated fails: the file laid out from one variable name, `nbv_2 = 2^32 - 1`
further variables, an empty mesh and one timestep of `2^32` empty arrays has well
formed header, mesh and timestep, but `open_telemac` returns 3 and decodes
`nt = 2863311531` instead of 1, because `nbv_1 + nbv_2` wraps to 0 in the
per-timestep size. -/
theorem open_layout_overflow :
    header_ok (overflow_params 4294967296) ∧ mesh_ok (overflow_params 4294967296)
    ∧ steps_ok (overflow_params 4294967296)
    ∧ (overflow_params 4294967296).steps.length = 1
    ∧ (open_telemac (fresh_handle (layout (overflow_params 4294967296))) 0).map
        (fun r => (r.1, r.2.tmdat.nt)) = some (3, 2863311531) := by
  have hok : header_ok (overflow_params 4294967296) := by decide
  have hmesh : mesh_ok (overflow_params 4294967296) := by decide
  refine ⟨hok, hmesh, overflow_steps_ok _ (by decide), rfl, ?_⟩
  have hdata : (fresh_handle (layout (overflow_params 4294967296))).file.data
      = layout_header (overflow_params 4294967296)
        ++ (layout_mesh (overflow_params 4294967296)
          ++ (overflow_params 4294967296).steps.flatMap layout_step) := by
    show layout (overflow_params 4294967296) = _
    rw [layout, List.append_assoc]
  obtain ⟨h, hh, e_nt, -⟩ := open_forward (overflow_params 4294967296)
    ((overflow_params 4294967296).steps.flatMap layout_step)
    (fresh_handle (layout (overflow_params 4294967296))) 0 12 hok hmesh hdata (by decide)
    (by decide)
    (by
      show (layout (overflow_params 4294967296)).length < 9223372036854775808
      rw [overflow_layout_length]
      decide)
  rw [overflow_steps_length] at hh e_nt
  rw [hh]
  simp only [Option.map_some', e_nt]
  decide

theorem swap_twice (x : Nat) (h : x < 4294967296) :
    le_val (le_bytes 4 (le_val (le_bytes 4 x).reverse)).reverse = x := by
  have e := le_bytes_le_val (le_bytes 4 x).reverse
  rw [List.length_reverse, le_bytes_length] at e
  rw [e, List.reverse_reverse, le_val_le_bytes]
  exact Nat.mod_eq_of_lt h

/-- C20: on every 32-bit pattern `x`, `int_swap` applied twice gives `x` back, and
so does `float_swap` applied twice to the float with bit pattern `x`. -/
theorem swap_involution (x : Nat) (h : x < 4294967296) :
    int_swap (int_swap x) = x ∧ float_swap (float_swap x) = x :=
  ⟨swap_twice x h, swap_twice x h⟩

theorem swap_involution_witness :
    (305419896 : Nat) < 4294967296
    ∧ int_swap 305419896 = 2018915346
    ∧ (int_swap (int_swap 305419896) = 305419896
      ∧ float_swap (float_swap 305419896) = 305419896) :=
  ⟨by decide, by decide, swap_involution 305419896 (by decide)⟩

/-- C18: `get_telemac_mesh` on a handle whose state is not 1 returns -1 and
`get_telemac_data` on a handle whose state is not 2 returns `NULL`; in both cases
the handle after the call, stream position and end-of-file flag included, is the
handle before it (nothing was read, no field was changed). -/
theorem stage_rejects_wrong_state (rfile : resfile_t) (t v : Int) :
    (rfile.tmdat.state ≠ 1 → get_telemac_mesh rfile v = some (-1, rfile))
    ∧ (rfile.tmdat.state ≠ 2 → get_telemac_data rfile t v = some (none, rfile)) := by
  constructor
  · intro h
    unfold get_telemac_mesh
    simp only [h, ne_eq, not_false_eq_true, if_true]
  · intro h
    unfold get_telemac_data
    simp only [h, ne_eq, not_false_eq_true, if_true]

theorem stage_rejects_wrong_state_witness :
    minimal_mesh_handle.tmdat.state ≠ 1
    ∧ get_telemac_mesh minimal_mesh_handle 0 = some (-1, minimal_mesh_handle)
    ∧ minimal_header_handle.tmdat.state ≠ 2
    ∧ get_telemac_data minimal_header_handle 0 0 = some (none, minimal_header_handle) :=
  ⟨by decide, (stage_rejects_wrong_state minimal_mesh_handle 0 0).1 (by decide),
    by decide, (stage_rejects_wrong_state minimal_header_handle 0 0).2 (by decide)⟩

/-- C11 fails where `nbv_1 + nbv_2` does not fit 32 bits: on the header with
`nbv_1 = 1`, `nbv_2 = 0xFFFFFFFF`, `npoin = 3`, `get_telemac_mesh` succeeds and
stores `datasize = 12`, while `8 + 4 + (nbv_1 + nbv_2) * (4*npoin + 8)` is
85899345932. -/
theorem stride_wraps :
    (get_telemac_header (fresh_handle wrapped_sum_file) 0).map Prod.fst = some 0
    ∧ wrapped_sum_handle.tmdat.nbv_1 = 1 ∧ wrapped_sum_handle.tmdat.nbv_2 = 4294967295
    ∧ wrapped_sum_handle.tmdat.npoin = 3
    ∧ (get_telemac_mesh wrapped_sum_handle 0).map (fun r => (r.1, r.2.datasize)) = some (0, 12)
    ∧ 8 + 4 + (1 + 4294967295) * (4 * 3 + 8) = 85899345932 := by
  decide

/-- C11 (amended): on every handle on which `get_telemac_mesh` succeeds, with
`nbv_1 + nbv_2` below `2^32` and `8 + 4 + (nbv_1 + nbv_2) * (4*npoin + 8)` below
`2^63`, the stored `datasize` is `8 + 4 + (nbv_1 + nbv_2) * (4*npoin + 8)`. -/
theorem mesh_stride (rfile : resfile_t) (v : Int) (h : resfile_t)
    (hacc : get_telemac_mesh rfile v = some (0, h))
    (hsum : rfile.tmdat.nbv_1 + rfile.tmdat.nbv_2 < 4294967296)
    (hfit : 8 + 4 + (rfile.tmdat.nbv_1 + rfile.tmdat.nbv_2) * (4 * rfile.tmdat.npoin + 8)
      < 9223372036854775808) :
    h.datasize
      = ((8 + 4 + (h.tmdat.nbv_1 + h.tmdat.nbv_2) * (4 * h.tmdat.npoin + 8) : Nat) : Int) := by
  obtain ⟨-, -, -, -, -, -, -, -, -, -, -, -, hnp, -, -, hb1, hb2, -, -, hds, -⟩ :=
    mesh_accept_fields rfile v h hacc
  rw [hds, hnp, hb1, hb2, datasize_expr_eq_stride _ _ _ hsum hfit]
  rfl

theorem mesh_stride_witness :
    ∃ h : resfile_t, get_telemac_mesh stride_example_handle 0 = some (0, h)
      ∧ h.tmdat.nbv_1 = 2 ∧ h.tmdat.nbv_2 = 0 ∧ h.tmdat.npoin = 100
      ∧ h.datasize = 828 := by
  obtain ⟨h, hacc, -, -, -, -, -, -, -, hb1, hb2, -, -, -, hnp, -⟩ :=
    mesh_forward stride_example_handle 0 [] (List.replicate 100 0) (List.replicate 100 0)
      (List.replicate 100 0) [] rfl (by decide) rfl (by decide) rfl rfl rfl (by decide)
      (by decide) rfl
  have e := mesh_stride stride_example_handle 0 h hacc (by decide) (by decide)
  rw [hb1, hb2, hnp] at e
  exact ⟨h, hacc, hb1, hb2, hnp, e⟩

theorem to_u32_floor (a b : Int) (ha : 0 ≤ a) (hb : 0 < b) :
    ((to_u32 (Int.tdiv a b) : Nat) : Int) = (a / b) % 4294967296 := by
  unfold to_u32
  rw [Int.tdiv_eq_ediv ha (Int.le_of_lt hb)]
  exact Int.toNat_of_nonneg (Int.emod_nonneg _ (by decide))

theorem datasize_expr_ge (a b c : Nat)
    (hfit : 8 + 4 + ((a + b) % 4294967296) * (4 * c + 8) < 9223372036854775808) :
    12 ≤ datasize_expr a b c := by
  unfold datasize_expr to_off
  rw [Nat.mod_eq_of_lt (by omega), if_pos hfit]
  have : 12 ≤ 8 + 4 + ((a + b) % 4294967296) * (4 * c + 8) := by omega
  exact_mod_cast this

/-- C12 fails on files that end before the end of the Y record. On the 216-byte
header with `nelem = 0` and `npoin = 0` and nothing after it, `get_telemac_mesh`
succeeds from `meshstart = 216` and stores `datastart = 216`, not
`meshstart + (8 + 4*nelem*ndp) + 3*(8 + 4*npoin) = 248`. On the minimal file
(`nelem = 1`, `ndp = 3`, `npoin = 3`) cut after the payload of a Y record whose
leading marker is 0, it succeeds and stores `datastart = 292`, the file size, not
`216 + 20 + 3*20 = 296`. -/
theorem datastart_short_file :
    (get_telemac_header (fresh_handle no_mesh_file) 0).map Prod.fst = some 0
    ∧ no_mesh_file.length = 216 ∧ no_mesh_handle.meshstart = 216
    ∧ no_mesh_handle.tmdat.nelem = 0 ∧ no_mesh_handle.tmdat.ndp = 3
    ∧ no_mesh_handle.tmdat.npoin = 0
    ∧ (get_telemac_mesh no_mesh_handle 0).map (fun r => (r.1, r.2.datastart)) = some (0, 216)
    ∧ 216 + (8 + 4 * 0 * 3) + 3 * (8 + 4 * 0) = 248
    ∧ (get_telemac_header (fresh_handle cut_marker_file) 0).map Prod.fst = some 0
    ∧ cut_marker_file.length = 292 ∧ cut_marker_handle.meshstart = 216
    ∧ cut_marker_handle.tmdat.nelem = 1 ∧ cut_marker_handle.tmdat.ndp = 3
    ∧ cut_marker_handle.tmdat.npoin = 3
    ∧ (get_telemac_mesh cut_marker_handle 0).map
        (fun r => (r.1, r.2.datastart, r.2.tmdat.Y, r.2.tmdat.nt))
        = some (0, 292, [0, 1065353216, 1073741824], 0)
    ∧ 216 + (8 + 4 * 1 * 3) + 3 * (8 + 4 * 3) = 296 := by
  decide

/-- C12 (amended): after a successful `get_telemac_mesh` on a file of size `S`
that holds the four mesh records in full, `datastart` is
`meshstart + (8 + 4*n) + 3*(8 + 4*npoin)` with `n` the 32-bit product
`nelem * ndp`; the stored `datasize` is not zero; `nt` is the quotient of
`S - datastart` by `datasize` truncated toward zero and reduced modulo `2^32`,
which for a positive `datasize` is `floor((S - datastart) / datasize) mod 2^32`;
and `datasize >= 12` when the size expression does not wrap. -/
theorem mesh_datastart_nt (rfile : resfile_t) (v : Int) (h : resfile_t)
    (hacc : get_telemac_mesh rfile v = some (0, h))
    (hfull : rfile.meshstart.toNat
        + (8 + 4 * (rfile.tmdat.nelem * rfile.tmdat.ndp % 4294967296))
        + 3 * (8 + 4 * rfile.tmdat.npoin) ≤ rfile.file.data.length) :
    h.datastart = rfile.meshstart
        + ((8 + 4 * (rfile.tmdat.nelem * rfile.tmdat.ndp % 4294967296) : Nat) : Int)
        + ((3 * (8 + 4 * rfile.tmdat.npoin) : Nat) : Int)
    ∧ h.datasize ≠ 0
    ∧ h.tmdat.nt
        = to_u32 (Int.tdiv ((rfile.file.data.length : Int) - h.datastart) h.datasize)
    ∧ (0 < h.datasize → ((h.tmdat.nt : Nat) : Int)
        = (((rfile.file.data.length : Int) - h.datastart) / h.datasize) % 4294967296)
    ∧ (8 + 4 + ((rfile.tmdat.nbv_1 + rfile.tmdat.nbv_2) % 4294967296)
          * (4 * rfile.tmdat.npoin + 8) < 9223372036854775808 → 12 ≤ h.datasize) := by
  obtain ⟨-, hms, -, -, -, -, -, -, -, -, -, -, -, -, -, -, -, -, hstart, hds, hne, hnt, hpos⟩ :=
    mesh_accept_fields rfile v h hacc
  have hp := hpos (by omega)
  have hstart2 : h.datastart = rfile.meshstart
      + ((8 + 4 * (rfile.tmdat.nelem * rfile.tmdat.ndp % 4294967296) : Nat) : Int)
      + ((3 * (8 + 4 * rfile.tmdat.npoin) : Nat) : Int) := by
    rw [hstart, hp]
    have := Int.toNat_of_nonneg hms
    omega
  refine ⟨hstart2, hne, hnt, ?_, ?_⟩
  · intro hD
    rw [hnt]
    apply to_u32_floor _ _ _ hD
    rw [hstart, hp]
    omega
  · intro hfit
    rw [hds]
    exact datasize_expr_ge _ _ _ hfit

theorem mesh_datastart_nt_witness :
    get_telemac_mesh minimal_header_handle 0 = some (0, minimal_mesh_handle)
    ∧ minimal_mesh_handle.datastart = 296 ∧ minimal_mesh_handle.tmdat.nt = 2
    ∧ (minimal_mesh_handle.datastart = minimal_header_handle.meshstart
        + ((8 + 4 * (minimal_header_handle.tmdat.nelem * minimal_header_handle.tmdat.ndp
            % 4294967296) : Nat) : Int)
        + ((3 * (8 + 4 * minimal_header_handle.tmdat.npoin) : Nat) : Int)
      ∧ minimal_mesh_handle.datasize ≠ 0
      ∧ minimal_mesh_handle.tmdat.nt
          = to_u32 (Int.tdiv ((minimal_header_handle.file.data.length : Int)
              - minimal_mesh_handle.datastart) minimal_mesh_handle.datasize)
      ∧ (0 < minimal_mesh_handle.datasize → ((minimal_mesh_handle.tmdat.nt : Nat) : Int)
          = (((minimal_header_handle.file.data.length : Int) - minimal_mesh_handle.datastart)
              / minimal_mesh_handle.datasize) % 4294967296)
      ∧ (8 + 4 + ((minimal_header_handle.tmdat.nbv_1 + minimal_header_handle.tmdat.nbv_2)
            % 4294967296) * (4 * minimal_header_handle.tmdat.npoin + 8) < 9223372036854775808
          → 12 ≤ minimal_mesh_handle.datasize)) :=
  ⟨by decide, by decide, by decide,
    mesh_datastart_nt minimal_header_handle 0 minimal_mesh_handle (by decide) (by decide)⟩

theorem mesh_ipobo_wrap (rfile : resfile_t) (results : telemac_data_t) (f : FILE)
    (L1 P L2 rest : List Byte) (h1 : L1.length = 4) (h2 : L2.length = 4)
    (hnp : results.npoin = 4294967295) (hP : P.length = 4 * results.npoin)
    (hne : le_val L1 ≠ le_val L2)
    (hd : f.data.drop f.pos = L1 ++ (P ++ (L2 ++ rest))) :
    mesh_ipobo rfile results f = none := by
  have hr := fortran_read_framed f (List.replicate (4 * results.npoin) 0) L1 P L2 rest 4
    results.npoin h1 h2 hP hd
  have e1 : (fortran_read (List.replicate (4 * results.npoin) 0) 4 results.npoin f).1 = -1 := by
    rw [hr, if_pos hne]
  have e2 : to_u32 (-1) = 4294967295 := by decide
  unfold mesh_ipobo
  simp only []
  rw [e1, e2, hnp]
  simp only [ne_eq, not_true_eq_false, if_false]
  rw [if_pos (by decide)]

theorem mesh_wrap (rfile : resfile_t) (v : Int) (L1 P L2 rest : List Byte)
    (hst : rfile.tmdat.state = 1) (hms : 0 ≤ rfile.meshstart)
    (hn : rfile.tmdat.nelem * rfile.tmdat.ndp % 4294967296 = 0)
    (hnp : rfile.tmdat.npoin = 4294967295)
    (h1 : L1.length = 4) (h2 : L2.length = 4) (hP : P.length = 4 * rfile.tmdat.npoin)
    (hne : le_val L1 ≠ le_val L2)
    (hd : rfile.file.data.drop rfile.meshstart.toNat
      = record [] ++ (L1 ++ (P ++ (L2 ++ rest)))) :
    get_telemac_mesh rfile v = none := by
  obtain ⟨e, hrest⟩ := fortran_read_record
    { data := rfile.file.data, pos := rfile.meshstart.toNat, eof := false }
    (List.replicate (4 * (rfile.tmdat.nelem * rfile.tmdat.ndp % 4294967296)) 0)
    [] _ 4 (rfile.tmdat.nelem * rfile.tmdat.ndp % 4294967296) (by decide)
    (by rw [hn]; rfl) hd
  have hsk : fseeko rfile.file rfile.meshstart
      = (0, { data := rfile.file.data, pos := rfile.meshstart.toNat, eof := false }) := by
    simp only [fseeko, if_neg (Int.not_lt.mpr hms)]
  have h1' : (rfile.tmdat.state ≠ 1) = False := by simp [hst]
  have hmax : rfile.tmdat.nelem * rfile.tmdat.ndp % 4294967296 ≤ INT_MAX := by
    rw [hn]; decide
  unfold get_telemac_mesh
  simp only [h1', if_false]
  simp only [hsk, e, to_u32_to_int _ hmax, ne_eq, not_true_eq_false, ↓reduceIte,
    Nat.not_lt.mpr hmax]
  exact mesh_ipobo_wrap rfile _ _ L1 P L2 rest h1 h2 hnp hP hne hrest

theorem open_mesh_undefined (rfile : resfile_t) (v : Int) (h : resfile_t)
    (hh : get_telemac_header rfile v = some (0, h)) (hm : get_telemac_mesh h v = none) :
    open_telemac rfile v = none := by
  unfold open_telemac
  rw [hh]
  simp only [lt_self_iff_false, if_false]
  rw [hm]

theorem mismatch_file_undefined (k : Nat) (hk : k = 4 * 4294967295) :
    ∃ h : resfile_t, get_telemac_header (fresh_handle (mismatch_file k)) 0 = some (0, h)
      ∧ h.tmdat.state = 1 ∧ h.tmdat.nelem = 0 ∧ h.tmdat.npoin = 4294967295
      ∧ h.file.data.drop h.meshstart.toNat
          = record [] ++ (be_bytes 1 ++ (List.replicate k 0 ++ (be_bytes 2 ++ [])))
      ∧ get_telemac_mesh h 0 = none
      ∧ open_telemac (fresh_handle (mismatch_file k)) 0 = none := by
  obtain ⟨h, hh, hfd, hms, hrest, t, fm, vn, htm⟩ := header_forward max_points_params
    (fresh_handle (mismatch_file k)) 0 _ (by decide) rfl
  have hst : h.tmdat.state = 1 := by
    have := congrArg telemac_data_t.state htm
    exact this
  have hne : h.tmdat.nelem = 0 := by
    have := congrArg telemac_data_t.nelem htm
    exact this
  have hnp : h.tmdat.npoin = 4294967295 := by
    have := congrArg telemac_data_t.npoin htm
    exact this
  have hd : h.file.data.drop h.meshstart.toNat
      = record [] ++ (be_bytes 1 ++ (List.replicate k 0 ++ (be_bytes 2 ++ []))) := by
    rw [hms, Int.toNat_ofNat, hfd]
    exact hrest
  have hmesh : get_telemac_mesh h 0 = none :=
    mesh_wrap h 0 (be_bytes 1) (List.replicate k 0) (be_bytes 2) [] hst
      (by rw [hms]; exact Int.ofNat_nonneg _) (by rw [hne, Nat.zero_mul]) hnp
      (be_bytes_length 1) (be_bytes_length 2)
      (by rw [List.length_replicate, hnp, hk]) (by decide) hd
  exact ⟨h, hh, hst, hne, hnp, hd, hmesh, open_mesh_undefined _ 0 h hh hmesh⟩

/-- C13 fails for `npoin = 0xFFFFFFFF`: on the file with that header, an empty
connectivity record and a boundary-point record of `4 * npoin` payload bytes
framed by the markers 1 and 2, `get_telemac_header` leaves a handle in state 1 and
`get_telemac_mesh` on it returns no negative code: the -1 of `fortran_read`,
converted to `unsigned`, equals `npoin`, the read is taken as complete and the
byte-swap loop that follows has no defined behaviour. -/
theorem mesh_mismatch_taken_as_complete :
    ∃ h : resfile_t,
      get_telemac_header (fresh_handle (mismatch_file 17179869180)) 0 = some (0, h)
      ∧ h.tmdat.state = 1 ∧ h.tmdat.nelem = 0 ∧ h.tmdat.npoin = 4294967295
      ∧ h.file.data.drop h.meshstart.toNat
          = record [] ++ (be_bytes 1 ++ (List.replicate 17179869180 0 ++ (be_bytes 2 ++ [])))
      ∧ get_telemac_mesh h 0 = none
      ∧ open_telemac (fresh_handle (mismatch_file 17179869180)) 0 = none :=
  mismatch_file_undefined 17179869180 (by decide)

theorem to_u32_neg_one_ne (n : Nat) (hn : n ≠ 4294967295) : to_u32 (-1) ≠ n := by
  have e : to_u32 (-1) = 4294967295 := by decide
  rw [e]
  exact fun h => hn h.symm

theorem mesh_ipobo_mismatch (rfile : resfile_t) (results : telemac_data_t) (f : FILE)
    (L1 P L2 rest : List Byte) (h1 : L1.length = 4) (h2 : L2.length = 4)
    (hnp : results.npoin ≠ 4294967295) (hP : P.length = 4 * results.npoin)
    (hne : le_val L1 ≠ le_val L2)
    (hd : f.data.drop f.pos = L1 ++ (P ++ (L2 ++ rest))) :
    ∃ h : resfile_t, mesh_ipobo rfile results f = some (-2, h)
      ∧ h.tmdat.state = results.state := by
  have hr := fortran_read_framed f (List.replicate (4 * results.npoin) 0) L1 P L2 rest 4
    results.npoin h1 h2 hP hd
  have e1 : (fortran_read (List.replicate (4 * results.npoin) 0) 4 results.npoin f).1 = -1 := by
    rw [hr, if_pos hne]
  unfold mesh_ipobo
  simp only []
  rw [e1, if_pos (to_u32_neg_one_ne _ hnp)]
  exact ⟨_, rfl, rfl⟩

theorem mesh_X_mismatch (rfile : resfile_t) (results : telemac_data_t) (f : FILE)
    (L1 P L2 rest : List Byte) (h1 : L1.length = 4) (h2 : L2.length = 4)
    (hnp : results.npoin ≠ 4294967295) (hP : P.length = 4 * results.npoin)
    (hne : le_val L1 ≠ le_val L2)
    (hd : f.data.drop f.pos = L1 ++ (P ++ (L2 ++ rest))) :
    ∃ h : resfile_t, mesh_X rfile results f = some (-3, h)
      ∧ h.tmdat.state = results.state := by
  have hr := fortran_read_framed f (List.replicate (4 * results.npoin) 0) L1 P L2 rest 4
    results.npoin h1 h2 hP hd
  have e1 : (fortran_read (List.replicate (4 * results.npoin) 0) 4 results.npoin f).1 = -1 := by
    rw [hr, if_pos hne]
  unfold mesh_X
  simp only []
  rw [e1, if_pos (to_u32_neg_one_ne _ hnp)]
  exact ⟨_, rfl, rfl⟩

theorem mesh_Y_mismatch (rfile : resfile_t) (results : telemac_data_t) (f : FILE)
    (L1 P L2 rest : List Byte) (h1 : L1.length = 4) (h2 : L2.length = 4)
    (hnp : results.npoin ≠ 4294967295) (hP : P.length = 4 * results.npoin)
    (hne : le_val L1 ≠ le_val L2)
    (hd : f.data.drop f.pos = L1 ++ (P ++ (L2 ++ rest))) :
    ∃ h : resfile_t, mesh_Y rfile results f = some (-4, h)
      ∧ h.tmdat.state = results.state := by
  have hr := fortran_read_framed f (List.replicate (4 * results.npoin) 0) L1 P L2 rest 4
    results.npoin h1 h2 hP hd
  have e1 : (fortran_read (List.replicate (4 * results.npoin) 0) 4 results.npoin f).1 = -1 := by
    rw [hr, if_pos hne]
  unfold mesh_Y
  simp only []
  rw [e1, if_pos (to_u32_neg_one_ne _ hnp)]
  exact ⟨_, rfl, rfl⟩

theorem mesh_ikle_mismatch (rfile : resfile_t) (v : Int) (L1 P L2 rest : List Byte)
    (hst : rfile.tmdat.state = 1) (hms : 0 ≤ rfile.meshstart)
    (hn : rfile.tmdat.nelem * rfile.tmdat.ndp % 4294967296 ≠ 4294967295)
    (h1 : L1.length = 4) (h2 : L2.length = 4)
    (hP : P.length = 4 * (rfile.tmdat.nelem * rfile.tmdat.ndp % 4294967296))
    (hne : le_val L1 ≠ le_val L2)
    (hd : rfile.file.data.drop rfile.meshstart.toNat = L1 ++ (P ++ (L2 ++ rest))) :
    ∃ h : resfile_t, get_telemac_mesh rfile v = some (-1, h) ∧ h.tmdat.state = 1 := by
  have hr := fortran_read_framed
    { data := rfile.file.data, pos := rfile.meshstart.toNat, eof := false }
    (List.replicate (4 * (rfile.tmdat.nelem * rfile.tmdat.ndp % 4294967296)) 0) L1 P L2 rest 4
    (rfile.tmdat.nelem * rfile.tmdat.ndp % 4294967296) h1 h2 hP hd
  have e1 : (fortran_read
      (List.replicate (4 * (rfile.tmdat.nelem * rfile.tmdat.ndp % 4294967296)) 0) 4
      (rfile.tmdat.nelem * rfile.tmdat.ndp % 4294967296)
      { data := rfile.file.data, pos := rfile.meshstart.toNat, eof := false }).1 = -1 := by
    rw [hr, if_pos hne]
  have hsk : fseeko rfile.file rfile.meshstart
      = (0, { data := rfile.file.data, pos := rfile.meshstart.toNat, eof := false }) := by
    simp only [fseeko, if_neg (Int.not_lt.mpr hms)]
  have h1' : (rfile.tmdat.state ≠ 1) = False := by simp [hst]
  unfold get_telemac_mesh
  simp only [h1', if_false]
  simp only [hsk, ne_eq, not_true_eq_false, if_false]
  rw [e1, if_pos (to_u32_neg_one_ne _ hn)]
  exact ⟨_, rfl, hst⟩

theorem header_accept_meshstart (rfile : resfile_t) (v : Int) (h : resfile_t)
    (hacc : get_telemac_header rfile v = some (0, h)) :
    h.file.data = rfile.file.data ∧ h.meshstart = (h.file.pos : Int)
    ∧ h.file.pos ≤ rfile.file.data.length := by
  obtain ⟨hS, f1, hd1, hp1, hacc2⟩ := header_r1_accept rfile v h hacc
  obtain ⟨-, hmax, f2, f4, hd2, hp2, hd4, hp4, hacc4⟩ := header_r2_accept _ _ _ _ hacc2
  obtain ⟨hlen4, f6, hd6, hp6, hacc6⟩ := header_r4_accept _ _ _ _ hacc4
  obtain ⟨hlen6, hfd, hpos, hms, -, -, -⟩ := header_r6_accept _ _ _ _ hacc6
  have hd : f6.data = rfile.file.data := by rw [hd6, hd4, hd1]
  rw [hd] at hfd hlen6 hpos
  refine ⟨hfd, hms, ?_⟩
  rw [hpos]
  omega

theorem mesh_accept_pos_le (rfile : resfile_t) (v : Int) (h : resfile_t)
    (hacc : get_telemac_mesh rfile v = some (0, h))
    (hle : rfile.meshstart.toNat ≤ rfile.file.data.length) :
    h.file.pos ≤ rfile.file.data.length := by
  obtain ⟨-, -, -, -, f2, hd2, hp2, hacc2⟩ := mesh_ikle_accept rfile v h hacc
  obtain ⟨-, -, f3, hd3, hp3, hacc3⟩ := mesh_ipobo_accept _ _ _ _ hacc2
  obtain ⟨-, -, f4, hd4, hp4, hacc4⟩ := mesh_X_accept _ _ _ _ hacc3
  obtain ⟨-, -, f5, hd5, hp5, hacc5⟩ := mesh_Y_accept _ _ _ _ hacc4
  obtain ⟨-, -, hf, -, -, -, -⟩ := mesh_nt_accept _ _ _ _ _ hacc5
  rw [hf, hp5, hd4, hd3, hd2]
  rw [hd3, hd2] at hp4
  rw [hd2] at hp3
  have a2 : f2.pos ≤ rfile.file.data.length := by rw [hp2]; omega
  have a3 : f3.pos ≤ rfile.file.data.length := by rw [hp3]; omega
  have a4 : f4.pos ≤ rfile.file.data.length := by rw [hp4]; omega
  omega

theorem open_check_zero_iff (rf : resfile_t) :
    (∃ h : resfile_t, open_check rf = some (0, h))
      ↔ (¬ (rf.datasize * (rf.tmdat.nt : Int) < -9223372036854775808
            ∨ 9223372036854775808 ≤ rf.datasize * (rf.tmdat.nt : Int)
            ∨ rf.datastart + rf.datasize * (rf.tmdat.nt : Int) < -9223372036854775808
            ∨ 9223372036854775808 ≤ rf.datastart + rf.datasize * (rf.tmdat.nt : Int))
          ∧ (rf.file.data.length : Int) ≤ rf.datastart + rf.datasize * (rf.tmdat.nt : Int)) := by
  unfold open_check
  simp only []
  generalize rf.datasize * (rf.tmdat.nt : Int) = prod
  generalize rf.datastart + prod = off
  by_cases hc : prod < -9223372036854775808 ∨ 9223372036854775808 ≤ prod
      ∨ off < -9223372036854775808 ∨ 9223372036854775808 ≤ off
  · rw [if_pos hc]
    simp [hc]
  rw [if_neg hc]
  by_cases hneg : off < 0
  · have hsk : fseeko rf.file off = (-1, rf.file) := by
      unfold fseeko
      rw [if_pos hneg]
    rw [hsk]
    simp only [ne_eq, Int.reduceNeg, Int.neg_eq_zero, one_ne_zero, not_false_eq_true, if_true]
    constructor
    · rintro ⟨h, hh⟩
      simp at hh
    · rintro ⟨-, hle⟩
      omega
  obtain ⟨n, rfl⟩ := Int.eq_ofNat_of_zero_le (Int.not_lt.mp hneg)
  have hsk : fseeko rf.file (n : Int)
      = (0, { data := rf.file.data, pos := n, eof := false }) := by
    unfold fseeko
    rw [if_neg hneg, Int.toNat_ofNat]
  rw [hsk]
  simp only [ne_eq, not_true_eq_false, if_false, fread, Nat.mul_one, Nat.div_one,
    Bool.false_or, decide_eq_false_iff_not, List.length_take, List.length_drop]
  by_cases hlt : n < rf.file.data.length
  · have h1 : min 1 (rf.file.data.length - n) = 1 := by omega
    simp only [h1]
    constructor
    · rintro ⟨h, hh⟩
      simp at hh
    · rintro ⟨-, hle⟩
      omega
  · have h1 : min 1 (rf.file.data.length - n) = 0 := by omega
    simp only [h1]
    constructor
    · intro _
      exact ⟨hc, by omega⟩
    · intro _
      refine ⟨{ rf with file := { data := rf.file.data, pos := n, eof := true } }, ?_⟩
      simp

theorem nt_prod_le (a D : Int) (ha : 0 ≤ a) (hD : D ≠ 0) :
    D * ((to_u32 (Int.tdiv a D) : Nat) : Int) ≤ a := by
  rcases Int.lt_or_gt_of_ne hD with hneg | hpos
  · have h0 : (0 : Int) ≤ ((to_u32 (Int.tdiv a D) : Nat) : Int) := Int.ofNat_nonneg _
    have : D * ((to_u32 (Int.tdiv a D) : Nat) : Int) ≤ 0 :=
      Int.mul_nonpos_of_nonpos_of_nonneg (Int.le_of_lt hneg) h0
    omega
  · rw [to_u32_floor a D ha hpos]
    have hq : 0 ≤ a / D := Int.ediv_nonneg ha (Int.le_of_lt hpos)
    have h1 : D * (a / D) ≤ a := Int.mul_ediv_self_le hD
    have h2 : (a / D) % 4294967296 ≤ a / D := by
      generalize a / D = q at hq
      omega
    have h3 : D * ((a / D) % 4294967296) ≤ D * (a / D) :=
      Int.mul_le_mul_of_nonneg_left h2 (Int.le_of_lt hpos)
    omega

theorem open_after_mesh (rfile : resfile_t) (v : Int) (h1 h2 : resfile_t)
    (hh : get_telemac_header rfile v = some (0, h1))
    (hm : get_telemac_mesh h1 v = some (0, h2)) :
    open_telemac rfile v = open_check h2 := by
  unfold open_telemac
  rw [hh]
  simp only [lt_self_iff_false, if_false]
  rw [hm]
  simp only [lt_self_iff_false, if_false]

theorem open_check_defined (rf : resfile_t)
    (hc : ¬ (rf.datasize * (rf.tmdat.nt : Int) < -9223372036854775808
        ∨ 9223372036854775808 ≤ rf.datasize * (rf.tmdat.nt : Int)
        ∨ rf.datastart + rf.datasize * (rf.tmdat.nt : Int) < -9223372036854775808
        ∨ 9223372036854775808 ≤ rf.datastart + rf.datasize * (rf.tmdat.nt : Int))) :
    ∃ (r : Int) (h : resfile_t), open_check rf = some (r, h) := by
  unfold open_check
  simp only []
  rw [if_neg hc]
  split
  · exact ⟨_, _, rfl⟩
  split
  · exact ⟨_, _, rfl⟩
  · exact ⟨_, _, rfl⟩

theorem stamps_steps_length (n : Nat) :
    ((stamps_params n).steps.flatMap layout_step).length = n * 12 := by
  have h := steps_layout_length 0 0 (List.replicate n ((0 : Nat), ([] : List (List Nat))))
    (fun st hst => by
      rw [List.eq_of_mem_replicate hst]
      exact ⟨rfl, fun arr harr => absurd harr (List.not_mem_nil _)⟩)
  rw [List.length_replicate] at h
  exact h

theorem stamps_open (n : Nat) (hn : n = 4294967297) :
    ∃ h1 h2 h3 : resfile_t,
      get_telemac_header (fresh_handle (layout (stamps_params n))) 0 = some (0, h1)
      ∧ get_telemac_mesh h1 0 = some (0, h2)
      ∧ h2.datasize = 12
      ∧ ((layout (stamps_params n)).length : Int) - h2.datastart = 12 * 4294967297
      ∧ h2.tmdat.nt = 1
      ∧ open_telemac (fresh_handle (layout (stamps_params n))) 0 = some (3, h3) := by
  have hok0 : header_ok (stamps_params 0) := by decide
  have hok : header_ok (stamps_params n) := hok0
  have hdata : (fresh_handle (layout (stamps_params n))).file.data
      = layout_header (stamps_params n)
        ++ (layout_mesh (stamps_params n) ++ (stamps_params n).steps.flatMap layout_step) := by
    show layout (stamps_params n) = _
    rw [layout, List.append_assoc]
  have hT := stamps_steps_length n
  generalize (stamps_params n).steps.flatMap layout_step = T at hdata hT
  have hlen : (layout (stamps_params n)).length = 256 + n * 12 := by
    have e : layout (stamps_params n) = (fresh_handle (layout (stamps_params n))).file.data := rfl
    have h1 : (layout_header (stamps_params n)).length = 176 := rfl
    have h2 : (layout_mesh (stamps_params n)).length = 80 := rfl
    rw [e, hdata, List.length_append, List.length_append, h1, h2, hT]
    omega
  obtain ⟨h1, hh1, hfd1, hms1, hrest1, t, fm, vn, htm⟩ := header_forward (stamps_params n)
    (fresh_handle (layout (stamps_params n))) 0 _ hok hdata
  have e_state : h1.tmdat.state = 1 := congrArg telemac_data_t.state htm
  have e_nelem : h1.tmdat.nelem = 1 := congrArg telemac_data_t.nelem htm
  have e_ndp : h1.tmdat.ndp = 3 := congrArg telemac_data_t.ndp htm
  have e_npoin : h1.tmdat.npoin = 3 := congrArg telemac_data_t.npoin htm
  have e_nbv1 : h1.tmdat.nbv_1 = 0 := congrArg telemac_data_t.nbv_1 htm
  have e_nbv2 : h1.tmdat.nbv_2 = 0 := congrArg telemac_data_t.nbv_2 htm
  have hds : datasize_expr h1.tmdat.nbv_1 h1.tmdat.nbv_2 h1.tmdat.npoin = 12 := by
    rw [e_nbv1, e_nbv2, e_npoin]
    decide
  obtain ⟨h2, hh2, hfd2, hdst2, hle2, hrest2, hdsz2, hnt2, hst2, -⟩ := mesh_forward h1 0
    [1, 2, 3] [1, 2, 3] [3212836864, 1075838976, 0] [0, 1065353216, 1073741824] T
    e_state (by rw [hms1]; exact Int.ofNat_nonneg _)
    (by rw [e_nelem, e_ndp]; rfl) (by decide) (by rw [e_npoin]; rfl) (by rw [e_npoin]; rfl)
    (by rw [e_npoin]; rfl) (by rw [e_npoin]; decide) (by rw [hds]; decide)
    (by rw [hms1, Int.toNat_ofNat, hfd1]; exact hrest1)
  rw [hfd1] at hfd2 hle2 hrest2 hnt2
  have hflen : (fresh_handle (layout (stamps_params n))).file.data.length = 256 + n * 12 := hlen
  have hTlen : (fresh_handle (layout (stamps_params n))).file.data.length - h2.file.pos
      = n * 12 := by
    rw [← hT, ← hrest2, List.length_drop]
  rw [hds] at hdsz2 hnt2
  have hnt : h2.tmdat.nt = 1 := by
    rw [hnt2]
    have e : ((fresh_handle (layout (stamps_params n))).file.data.length : Int)
        - (h2.file.pos : Int) = ((n * 12 : Nat) : Int) := by
      omega
    rw [e, hn]
    decide
  obtain ⟨h3, hh3, -⟩ := open_tail h2 12 _ hdsz2 (congrArg List.length hfd2) hdst2 hle2
    (by rw [hnt]; omega) (by rw [hflen, hn]; decide)
  refine ⟨h1, h2, h3, hh1, hh2, hdsz2, ?_, hnt, ?_⟩
  · rw [hdst2]
    have e : ((layout (stamps_params n)).length : Int) - (h2.file.pos : Int)
        = ((n * 12 : Nat) : Int) := by
      have : (layout (stamps_params n)).length
          = (fresh_handle (layout (stamps_params n))).file.data.length := rfl
      omega
    rw [e, hn]
    decide
  · rw [open_after_mesh _ 0 h1 h2 hh1 hh2, hh3, hnt, if_pos (by omega)]

theorem open_check_seek_fails (rf : resfile_t)
    (hc : ¬ (rf.datasize * (rf.tmdat.nt : Int) < -9223372036854775808
        ∨ 9223372036854775808 ≤ rf.datasize * (rf.tmdat.nt : Int)
        ∨ rf.datastart + rf.datasize * (rf.tmdat.nt : Int) < -9223372036854775808
        ∨ 9223372036854775808 ≤ rf.datastart + rf.datasize * (rf.tmdat.nt : Int)))
    (hneg : rf.datastart + rf.datasize * (rf.tmdat.nt : Int) < 0) :
    ∃ h : resfile_t, open_check rf = some (-1, h) := by
  unfold open_check
  simp only []
  rw [if_neg hc]
  simp only [fseeko, if_pos hneg]
  rw [if_pos (by decide)]
  exact ⟨_, rfl⟩

theorem neg_stride_file_length (n : Nat) :
    (neg_stride_file n).length = 176 + (20 + 3 * (4 * n + 8)) + 4 := by
  have h1 : (layout_header (neg_stride_params n)).length = 176 := by
    simp only [layout_header, neg_stride_params, minimal_params, List.length_append,
      record_length, be_words_length, be_bytes_length, List.flatMap_nil,
      List.length_replicate, List.length_cons, List.length_nil, SERAFIN]
    simp
  have h2 : (layout_mesh (neg_stride_params n)).length = 20 + 3 * (4 * n + 8) := by
    simp only [layout_mesh, neg_stride_params, minimal_params, List.length_append,
      record_length, be_words_length, List.length_replicate, List.length_cons,
      List.length_nil]
    omega
  unfold neg_stride_file
  rw [List.length_append, List.length_append, h1, h2]
  rfl

theorem neg_stride_open (n : Nat) (hn : n = 1073741823) :
    ∃ h1 h2 h3 : resfile_t,
      get_telemac_header (fresh_handle (neg_stride_file n)) 0 = some (0, h1)
      ∧ get_telemac_mesh h1 0 = some (0, h2)
      ∧ h2.datasize = -4
      ∧ ((neg_stride_file n).length : Int) - h2.datastart = 4
      ∧ h2.tmdat.nt = 4294967295
      ∧ open_telemac (fresh_handle (neg_stride_file n)) 0 = some (-1, h3) := by
  have hok : header_ok (neg_stride_params n) := by
    subst hn
    decide
  have hdata : (fresh_handle (neg_stride_file n)).file.data
      = layout_header (neg_stride_params n)
        ++ (layout_mesh (neg_stride_params n) ++ [0, 0, 0, 0]) := rfl
  have hlen := neg_stride_file_length n
  obtain ⟨h1, hh1, hfd1, hms1, hrest1, t, fm, vn, htm⟩ := header_forward (neg_stride_params n)
    (fresh_handle (neg_stride_file n)) 0 _ hok hdata
  have e_state : h1.tmdat.state = 1 := congrArg telemac_data_t.state htm
  have e_nelem : h1.tmdat.nelem = 1 := congrArg telemac_data_t.nelem htm
  have e_ndp : h1.tmdat.ndp = 3 := congrArg telemac_data_t.ndp htm
  have e_npoin : h1.tmdat.npoin = n := congrArg telemac_data_t.npoin htm
  have e_nbv1 : h1.tmdat.nbv_1 = 0 := congrArg telemac_data_t.nbv_1 htm
  have e_nbv2 : h1.tmdat.nbv_2 = 4294967292 := congrArg telemac_data_t.nbv_2 htm
  have hds : datasize_expr h1.tmdat.nbv_1 h1.tmdat.nbv_2 h1.tmdat.npoin = -4 := by
    rw [e_nbv1, e_nbv2, e_npoin, hn]
    decide
  have hmesh : layout_mesh (neg_stride_params n) ++ [0, 0, 0, 0]
      = record (be_words [1, 2, 3]) ++ (record (be_words (List.replicate n 0))
        ++ (record (be_words (List.replicate n 0))
        ++ (record (be_words (List.replicate n 0)) ++ [0, 0, 0, 0]))) := by
    simp only [layout_mesh, List.append_assoc]
    rfl
  obtain ⟨h2, hh2, hfd2, hdst2, hle2, hrest2, hdsz2, hnt2, hst2, -⟩ := mesh_forward h1 0
    [1, 2, 3] (List.replicate n 0) (List.replicate n 0) (List.replicate n 0) [0, 0, 0, 0]
    e_state (by rw [hms1]; exact Int.ofNat_nonneg _)
    (by rw [e_nelem, e_ndp]; rfl) (by decide)
    (by rw [e_npoin, List.length_replicate]) (by rw [e_npoin, List.length_replicate])
    (by rw [e_npoin, List.length_replicate]) (by rw [e_npoin, hn]; decide)
    (by rw [hds]; decide)
    (by rw [hms1, Int.toNat_ofNat, hfd1, hrest1, hmesh])
  rw [hfd1] at hfd2 hle2 hrest2 hnt2
  have hflen : (fresh_handle (neg_stride_file n)).file.data.length
      = 176 + (20 + 3 * (4 * n + 8)) + 4 := hlen
  have hTlen : (fresh_handle (neg_stride_file n)).file.data.length - h2.file.pos = 4 := by
    have := congrArg List.length hrest2
    rw [List.length_drop] at this
    exact this
  rw [hds] at hdsz2 hnt2
  have hdiff : ((fresh_handle (neg_stride_file n)).file.data.length : Int)
      - (h2.file.pos : Int) = 4 := by omega
  have hnt : h2.tmdat.nt = 4294967295 := by
    rw [hnt2, hdiff]
    decide
  have hc : ¬ (h2.datasize * (h2.tmdat.nt : Int) < -9223372036854775808
      ∨ 9223372036854775808 ≤ h2.datasize * (h2.tmdat.nt : Int)
      ∨ h2.datastart + h2.datasize * (h2.tmdat.nt : Int) < -9223372036854775808
      ∨ 9223372036854775808 ≤ h2.datastart + h2.datasize * (h2.tmdat.nt : Int)) := by
    rw [hdsz2, hnt, hdst2]
    omega
  have hneg : h2.datastart + h2.datasize * (h2.tmdat.nt : Int) < 0 := by
    rw [hdsz2, hnt, hdst2]
    omega
  obtain ⟨h3, hh3⟩ := open_check_seek_fails h2 hc hneg
  refine ⟨h1, h2, h3, hh1, hh2, hdsz2, ?_, hnt, ?_⟩
  · rw [hdst2]
    exact hdiff
  · rw [open_after_mesh _ 0 h1 h2 hh1 hh2, hh3]

/-- C14 fails in its reading "a multiple of stride". On the file with the mesh of
the minimal file, no variable and `2^32 + 1` timesteps of 12 bytes, header and mesh
decoding succeed with `datasize = 12`, the file size minus `datastart` is
`12 * (2^32 + 1)`, a multiple of the stride, yet `nt` wraps to 1 and `open_telemac`
returns 3. On the file with `nbv_2 = 4294967292`, `npoin = 1073741823` and four
bytes after the mesh, the stored `datasize` is -4, the file size minus `datastart`
is 4, a multiple of it, `nt` is `0xFFFFFFFF`, the seek offset is negative and
`open_telemac` returns -1. -/
theorem open_multiple_of_stride_rejected :
    (∃ h1 h2 h3 : resfile_t,
      get_telemac_header (fresh_handle (layout (stamps_params 4294967297))) 0 = some (0, h1)
      ∧ get_telemac_mesh h1 0 = some (0, h2)
      ∧ h2.datasize = 12
      ∧ ((layout (stamps_params 4294967297)).length : Int) - h2.datastart = 12 * 4294967297
      ∧ h2.tmdat.nt = 1
      ∧ open_telemac (fresh_handle (layout (stamps_params 4294967297))) 0 = some (3, h3))
    ∧ (∃ h1 h2 h3 : resfile_t,
      get_telemac_header (fresh_handle (neg_stride_file 1073741823)) 0 = some (0, h1)
      ∧ get_telemac_mesh h1 0 = some (0, h2)
      ∧ h2.datasize = -4
      ∧ ((neg_stride_file 1073741823).length : Int) - h2.datastart = 4
      ∧ h2.tmdat.nt = 4294967295
      ∧ open_telemac (fresh_handle (neg_stride_file 1073741823)) 0 = some (-1, h3)) :=
  ⟨stamps_open 4294967297 rfl, neg_stride_open 1073741823 rfl⟩

/-- C14 (amended): for every file (of a size that fits `off_t`) on which
`get_telemac_header` and then `get_telemac_mesh` succeed, `open_telemac` returns 0
if and only if the file size equals `datastart + datasize * nt` (with the stored
`datasize` and `nt`); with a positive `datasize`, when bytes remain beyond that
offset it returns the non-zero value 3; when moreover the quotient of
`size - datastart` by `datasize` fits the 32-bit `nt`, returning 0 is equivalent to
`size - datastart` being a multiple of `datasize`; and whatever the sign of
`datasize`, when bytes remain beyond that offset and the offset is computed without
`off_t` overflow, it returns a non-zero value. -/
theorem open_exact_size (rfile : resfile_t) (v : Int) (h1 h2 : resfile_t)
    (hh : get_telemac_header rfile v = some (0, h1))
    (hm : get_telemac_mesh h1 v = some (0, h2))
    (hsize : rfile.file.data.length < 9223372036854775808) :
    ((∃ h3 : resfile_t, open_telemac rfile v = some (0, h3))
        ↔ (rfile.file.data.length : Int) = h2.datastart + h2.datasize * (h2.tmdat.nt : Int))
    ∧ (0 < h2.datasize
        → h2.datastart + h2.datasize * (h2.tmdat.nt : Int) < (rfile.file.data.length : Int)
        → ∃ h3 : resfile_t, open_telemac rfile v = some (3, h3))
    ∧ (0 < h2.datasize
        → ((rfile.file.data.length : Int) - h2.datastart) / h2.datasize < 4294967296
        → ((∃ h3 : resfile_t, open_telemac rfile v = some (0, h3))
            ↔ h2.datasize ∣ (rfile.file.data.length : Int) - h2.datastart))
    ∧ (¬ (h2.datasize * (h2.tmdat.nt : Int) < -9223372036854775808
          ∨ 9223372036854775808 ≤ h2.datasize * (h2.tmdat.nt : Int)
          ∨ h2.datastart + h2.datasize * (h2.tmdat.nt : Int) < -9223372036854775808
          ∨ 9223372036854775808 ≤ h2.datastart + h2.datasize * (h2.tmdat.nt : Int))
        → h2.datastart + h2.datasize * (h2.tmdat.nt : Int) < (rfile.file.data.length : Int)
        → ∃ (r : Int) (h3 : resfile_t), open_telemac rfile v = some (r, h3) ∧ r ≠ 0) := by
  obtain ⟨hd1, hms1, hle1⟩ := header_accept_meshstart rfile v h1 hh
  obtain ⟨-, -, -, -, -, -, -, -, -, -, -, -, -, -, -, -, -, hd2, hstart, -, hne, hnt, -⟩ :=
    mesh_accept_fields h1 v h2 hm
  have hle2 : h2.file.pos ≤ h1.file.data.length :=
    mesh_accept_pos_le h1 v h2 hm (by rw [hms1, Int.toNat_ofNat, hd1]; exact hle1)
  rw [hd1] at hnt hle2 hd2
  have hA := nt_prod_le ((rfile.file.data.length : Int) - h2.datastart) h2.datasize
    (by rw [hstart]; omega) hne
  rw [← hnt] at hA
  have hiff : (∃ h3 : resfile_t, open_telemac rfile v = some (0, h3))
      ↔ (rfile.file.data.length : Int) = h2.datastart + h2.datasize * (h2.tmdat.nt : Int) := by
    rw [open_after_mesh rfile v h1 h2 hh hm, open_check_zero_iff, hd2]
    generalize h2.datasize * (h2.tmdat.nt : Int) = prod at hA ⊢
    rw [hstart] at hA ⊢
    constructor
    · rintro ⟨-, hle⟩
      omega
    · intro he
      constructor
      · omega
      · omega
  refine ⟨hiff, ?_, ?_, ?_⟩
  · intro hD hlt
    obtain ⟨D, hDe⟩ := Int.eq_ofNat_of_zero_le (Int.le_of_lt hD)
    have hprod : D * h2.tmdat.nt ≤ rfile.file.data.length - h2.file.pos := by
      rw [hDe, hstart] at hA
      have : ((D * h2.tmdat.nt : Nat) : Int) ≤ (rfile.file.data.length : Int) - (h2.file.pos : Int) := by
        push_cast
        exact hA
      omega
    obtain ⟨h3, hh3, -⟩ := open_tail h2 D rfile.file.data.length hDe (congrArg List.length hd2) hstart hle2 hprod hsize
    refine ⟨h3, ?_⟩
    rw [open_after_mesh rfile v h1 h2 hh hm, hh3, if_pos]
    rw [hDe, hstart] at hlt
    have : ((h2.file.pos + D * h2.tmdat.nt : Nat) : Int) < (rfile.file.data.length : Int) := by
      push_cast
      exact hlt
    omega
  · intro hD hq
    rw [hiff]
    have ha : 0 ≤ (rfile.file.data.length : Int) - h2.datastart := by rw [hstart]; omega
    have hN : ((h2.tmdat.nt : Nat) : Int)
        = ((rfile.file.data.length : Int) - h2.datastart) / h2.datasize := by
      rw [hnt, to_u32_floor _ _ ha hD]
      have hq0 := Int.ediv_nonneg ha (Int.le_of_lt hD)
      generalize ((rfile.file.data.length : Int) - h2.datastart) / h2.datasize = q at hq hq0
      omega
    rw [hN]
    constructor
    · intro he
      exact ⟨((rfile.file.data.length : Int) - h2.datastart) / h2.datasize, by omega⟩
    · intro hdvd
      have := Int.mul_ediv_cancel' hdvd
      omega
  · intro hc hlt
    obtain ⟨r, h3, hr⟩ := open_check_defined h2 hc
    refine ⟨r, h3, by rw [open_after_mesh rfile v h1 h2 hh hm, hr], ?_⟩
    intro h0
    rw [h0] at hr
    have hz := ((open_check_zero_iff h2).mp ⟨h3, hr⟩).2
    rw [hd2] at hz
    omega

theorem open_exact_size_witness :
    get_telemac_header (fresh_handle (layout minimal_params)) 0 = some (0, minimal_header_handle)
    ∧ get_telemac_mesh minimal_header_handle 0 = some (0, minimal_mesh_handle)
    ∧ (open_telemac (fresh_handle (layout minimal_params)) 0).map Prod.fst = some 0
    ∧ (open_telemac (fresh_handle (layout minimal_params ++ [0])) 0).map Prod.fst = some 3
    ∧ (((∃ h3 : resfile_t, open_telemac (fresh_handle (layout minimal_params)) 0 = some (0, h3))
        ↔ ((fresh_handle (layout minimal_params)).file.data.length : Int)
            = minimal_mesh_handle.datastart
              + minimal_mesh_handle.datasize * (minimal_mesh_handle.tmdat.nt : Int))
      ∧ (0 < minimal_mesh_handle.datasize
        → minimal_mesh_handle.datastart
            + minimal_mesh_handle.datasize * (minimal_mesh_handle.tmdat.nt : Int)
            < ((fresh_handle (layout minimal_params)).file.data.length : Int)
        → ∃ h3 : resfile_t, open_telemac (fresh_handle (layout minimal_params)) 0 = some (3, h3))
      ∧ (0 < minimal_mesh_handle.datasize
        → (((fresh_handle (layout minimal_params)).file.data.length : Int)
            - minimal_mesh_handle.datastart) / minimal_mesh_handle.datasize < 4294967296
        → ((∃ h3 : resfile_t, open_telemac (fresh_handle (layout minimal_params)) 0 = some (0, h3))
            ↔ minimal_mesh_handle.datasize
                ∣ ((fresh_handle (layout minimal_params)).file.data.length : Int)
                  - minimal_mesh_handle.datastart))
      ∧ (¬ (minimal_mesh_handle.datasize * (minimal_mesh_handle.tmdat.nt : Int)
              < -9223372036854775808
            ∨ 9223372036854775808
              ≤ minimal_mesh_handle.datasize * (minimal_mesh_handle.tmdat.nt : Int)
            ∨ minimal_mesh_handle.datastart
                + minimal_mesh_handle.datasize * (minimal_mesh_handle.tmdat.nt : Int)
              < -9223372036854775808
            ∨ 9223372036854775808
              ≤ minimal_mesh_handle.datastart
                + minimal_mesh_handle.datasize * (minimal_mesh_handle.tmdat.nt : Int))
        → minimal_mesh_handle.datastart
            + minimal_mesh_handle.datasize * (minimal_mesh_handle.tmdat.nt : Int)
            < ((fresh_handle (layout minimal_params)).file.data.length : Int)
        → ∃ (r : Int) (h3 : resfile_t),
            open_telemac (fresh_handle (layout minimal_params)) 0 = some (r, h3) ∧ r ≠ 0)) :=
  ⟨by decide, by decide, by decide, by decide,
    open_exact_size (fresh_handle (layout minimal_params)) 0 minimal_header_handle
      minimal_mesh_handle (by decide) (by decide) (by decide)⟩

theorem header_r6_state (rfile : resfile_t) (results : telemac_data_t) (f : FILE) (r : Int)
    (h : resfile_t) (hacc : header_r6 rfile results f = some (r, h)) :
    h.tmdat.state = results.state ∨ (r = 0 ∧ h.tmdat.state = 1) := by
  unfold header_r6 at hacc
  simp only [] at hacc
  split at hacc
  · simp only [Option.some.injEq, Prod.mk.injEq] at hacc
    obtain ⟨-, hh⟩ := hacc
    subst hh
    exact Or.inl rfl
  · simp only [Option.some.injEq, Prod.mk.injEq] at hacc
    obtain ⟨hr, hh⟩ := hacc
    subst hh
    exact Or.inr ⟨hr.symm, rfl⟩

theorem header_r4_state (rfile : resfile_t) (results : telemac_data_t) (f : FILE) (r : Int)
    (h : resfile_t) (hacc : header_r4 rfile results f = some (r, h)) :
    h.tmdat.state = results.state ∨ (r = 0 ∧ h.tmdat.state = 1) := by
  unfold header_r4 at hacc
  simp only [] at hacc
  split at hacc
  · simp only [Option.some.injEq, Prod.mk.injEq] at hacc
    obtain ⟨-, hh⟩ := hacc
    subst hh
    exact Or.inl rfl
  split at hacc
  · split at hacc
    · simp only [Option.some.injEq, Prod.mk.injEq] at hacc
      obtain ⟨-, hh⟩ := hacc
      subst hh
      exact Or.inl rfl
    · have hs := header_r6_state _ _ _ _ _ hacc
      dsimp only at hs
      exact hs
  · have hs := header_r6_state _ _ _ _ _ hacc
    dsimp only at hs
    exact hs

theorem header_r2_state (rfile : resfile_t) (results : telemac_data_t) (f : FILE) (r : Int)
    (h : resfile_t) (hacc : header_r2 rfile results f = some (r, h)) :
    h.tmdat.state = results.state ∨ (r = 0 ∧ h.tmdat.state = 1) := by
  unfold header_r2 at hacc
  simp only [] at hacc
  split at hacc
  · simp only [Option.some.injEq, Prod.mk.injEq] at hacc
    obtain ⟨-, hh⟩ := hacc
    subst hh
    exact Or.inl rfl
  split at hacc
  · simp at hacc
  · have hs := header_r4_state _ _ _ _ _ hacc
    dsimp only at hs
    exact hs

theorem header_state (rfile : resfile_t) (v r : Int) (h : resfile_t)
    (hacc : get_telemac_header rfile v = some (r, h)) :
    h.tmdat.state = rfile.tmdat.state ∨ (r = 0 ∧ h.tmdat.state = 1) := by
  unfold get_telemac_header at hacc
  simp only [] at hacc
  split at hacc
  · simp only [Option.some.injEq, Prod.mk.injEq] at hacc
    obtain ⟨-, hh⟩ := hacc
    subst hh
    exact Or.inl rfl
  split at hacc
  · simp only [Option.some.injEq, Prod.mk.injEq] at hacc
    obtain ⟨-, hh⟩ := hacc
    subst hh
    exact Or.inl rfl
  split at hacc
  · simp only [Option.some.injEq, Prod.mk.injEq] at hacc
    obtain ⟨-, hh⟩ := hacc
    subst hh
    exact Or.inl rfl
  · have hs := header_r2_state _ _ _ _ _ hacc
    dsimp only at hs
    exact hs

theorem mesh_nt_state (rfile : resfile_t) (results : telemac_data_t) (f : FILE) (r : Int)
    (h : resfile_t) (hacc : mesh_nt rfile results f = some (r, h)) :
    (r < 0 ∧ h.tmdat.state = results.state) ∨ (r = 0 ∧ h.tmdat.state = 2) := by
  obtain ⟨hr, -, -, -, -, -, htm⟩ := mesh_nt_accept rfile results f r h hacc
  exact Or.inr ⟨hr, congrArg telemac_data_t.state htm⟩

theorem mesh_Y_state (rfile : resfile_t) (results : telemac_data_t) (f : FILE) (r : Int)
    (h : resfile_t) (hacc : mesh_Y rfile results f = some (r, h)) :
    (r < 0 ∧ h.tmdat.state = results.state) ∨ (r = 0 ∧ h.tmdat.state = 2) := by
  unfold mesh_Y at hacc
  simp only [] at hacc
  split at hacc
  · simp only [Option.some.injEq, Prod.mk.injEq] at hacc
    obtain ⟨hr, hh⟩ := hacc
    subst hh
    exact Or.inl ⟨by omega, rfl⟩
  split at hacc
  · simp at hacc
  · have hs := mesh_nt_state _ _ _ _ _ hacc
    dsimp only at hs
    exact hs

theorem mesh_X_state (rfile : resfile_t) (results : telemac_data_t) (f : FILE) (r : Int)
    (h : resfile_t) (hacc : mesh_X rfile results f = some (r, h)) :
    (r < 0 ∧ h.tmdat.state = results.state) ∨ (r = 0 ∧ h.tmdat.state = 2) := by
  unfold mesh_X at hacc
  simp only [] at hacc
  split at hacc
  · simp only [Option.some.injEq, Prod.mk.injEq] at hacc
    obtain ⟨hr, hh⟩ := hacc
    subst hh
    exact Or.inl ⟨by omega, rfl⟩
  split at hacc
  · simp at hacc
  · have hs := mesh_Y_state _ _ _ _ _ hacc
    dsimp only at hs
    exact hs

theorem mesh_ipobo_state (rfile : resfile_t) (results : telemac_data_t) (f : FILE) (r : Int)
    (h : resfile_t) (hacc : mesh_ipobo rfile results f = some (r, h)) :
    (r < 0 ∧ h.tmdat.state = results.state) ∨ (r = 0 ∧ h.tmdat.state = 2) := by
  unfold mesh_ipobo at hacc
  simp only [] at hacc
  split at hacc
  · simp only [Option.some.injEq, Prod.mk.injEq] at hacc
    obtain ⟨hr, hh⟩ := hacc
    subst hh
    exact Or.inl ⟨by omega, rfl⟩
  split at hacc
  · simp at hacc
  · have hs := mesh_X_state _ _ _ _ _ hacc
    dsimp only at hs
    exact hs

theorem mesh_state (rfile : resfile_t) (v r : Int) (h : resfile_t)
    (hacc : get_telemac_mesh rfile v = some (r, h)) :
    (r < 0 ∧ h.tmdat.state = rfile.tmdat.state)
    ∨ (r = 0 ∧ rfile.tmdat.state = 1 ∧ h.tmdat.state = 2) := by
  unfold get_telemac_mesh at hacc
  simp only [] at hacc
  split at hacc
  · simp only [Option.some.injEq, Prod.mk.injEq] at hacc
    obtain ⟨hr, hh⟩ := hacc
    subst hh
    exact Or.inl ⟨by omega, rfl⟩
  rename_i hst
  simp only [ne_eq, Decidable.not_not] at hst
  split at hacc
  · simp only [Option.some.injEq, Prod.mk.injEq] at hacc
    obtain ⟨hr, hh⟩ := hacc
    subst hh
    exact Or.inl ⟨by omega, rfl⟩
  split at hacc
  · simp only [Option.some.injEq, Prod.mk.injEq] at hacc
    obtain ⟨hr, hh⟩ := hacc
    subst hh
    exact Or.inl ⟨by omega, rfl⟩
  split at hacc
  · simp at hacc
  · have hs := mesh_ipobo_state _ _ _ _ _ hacc
    dsimp only at hs
    rcases hs with ⟨h1, h2⟩ | ⟨h1, h2⟩
    · exact Or.inl ⟨h1, h2⟩
    · exact Or.inr ⟨h1, hst, h2⟩

theorem open_check_tmdat (rf : resfile_t) (r : Int) (h : resfile_t)
    (hacc : open_check rf = some (r, h)) : h.tmdat = rf.tmdat := by
  unfold open_check at hacc
  simp only [] at hacc
  split at hacc
  · simp at hacc
  split at hacc
  · simp only [Option.some.injEq, Prod.mk.injEq] at hacc
    obtain ⟨-, hh⟩ := hacc
    subst hh
    rfl
  split at hacc
  · simp only [Option.some.injEq, Prod.mk.injEq] at hacc
    obtain ⟨-, hh⟩ := hacc
    subst hh
    rfl
  · simp only [Option.some.injEq, Prod.mk.injEq] at hacc
    obtain ⟨-, hh⟩ := hacc
    subst hh
    rfl

theorem read_fields_stream (np : Nat) : ∀ (k : Nat) (f : FILE),
    (read_fields np k f).2.data = f.data ∧ (read_fields np k f).1.length = k
  | 0, f => ⟨rfl, rfl⟩
  | k + 1, f => by
    obtain ⟨hd, -, -, -⟩ := fortran_read_spec (List.replicate (4 * np) 0) 4 np f
    obtain ⟨ihd, ihl⟩ := read_fields_stream np k
      (fortran_read (List.replicate (4 * np) 0) 4 np f).2.2
    simp only [read_fields, List.length_cons]
    exact ⟨by rw [ihd, hd], by rw [ihl]⟩

theorem data_frame (rfile : resfile_t) (t v : Int) (d : Option (List (List Nat)))
    (h : resfile_t) (hacc : get_telemac_data rfile t v = some (d, h)) :
    h.file.data = rfile.file.data ∧ h.meshstart = rfile.meshstart
    ∧ h.datastart = rfile.datastart ∧ h.datasize = rfile.datasize
    ∧ h.tmdat = { rfile.tmdat with timestamp := h.tmdat.timestamp }
    ∧ h.tmdat.timestamp.length = rfile.tmdat.timestamp.length := by
  unfold get_telemac_data at hacc
  simp only [] at hacc
  split at hacc
  · simp only [Option.some.injEq, Prod.mk.injEq] at hacc
    obtain ⟨-, hh⟩ := hacc
    subst hh
    exact ⟨rfl, rfl, rfl, rfl, rfl, rfl⟩
  split at hacc
  · simp at hacc
  split at hacc
  · simp only [Option.some.injEq, Prod.mk.injEq] at hacc
    obtain ⟨-, hh⟩ := hacc
    subst hh
    exact ⟨rfl, rfl, rfl, rfl, rfl, rfl⟩
  rename_i hsk
  split at hacc
  · simp at hacc
  split at hacc
  · simp at hacc
  split at hacc
  · simp at hacc
  simp only [Option.some.injEq, Prod.mk.injEq] at hacc
  obtain ⟨-, hh⟩ := hacc
  subst hh
  refine ⟨?_, rfl, rfl, rfl, rfl, ?_⟩
  · rw [(read_fields_stream _ _ _).1, (fortran_read_spec _ _ _ _).1]
    unfold fseeko
    split <;> rfl
  · simp only [List.length_set]

/-- C19 fails for `get_telemac_header` on a handle in state 2: on the handle of
the minimal file after header and mesh decoding, a further `get_telemac_header`
succeeds and leaves the handle in state 1. -/
theorem header_resets_state :
    minimal_mesh_handle.tmdat.state = 2
    ∧ (get_telemac_header minimal_mesh_handle 0).map (fun r => (r.1, r.2.tmdat.state))
        = some (0, 1) := by
  decide

/-- C19 (amended): `get_telemac_mesh` never lowers the state of a handle and
`get_telemac_data` never changes it; `get_telemac_header` leaves the state as it
was or, when it succeeds, sets it to 1, and `open_telemac` ends in the state it
started from, in 1 or in 2; so on every handle whose state is at most 1 the state
after each of the four operations is at least the state before. -/
theorem state_moves_forward (rfile h : resfile_t) (t v : Int) :
    (∀ r : Int, get_telemac_mesh rfile v = some (r, h) →
        rfile.tmdat.state ≤ h.tmdat.state)
    ∧ (∀ d : Option (List (List Nat)), get_telemac_data rfile t v = some (d, h) →
        h.tmdat.state = rfile.tmdat.state)
    ∧ (∀ r : Int, get_telemac_header rfile v = some (r, h) →
        (h.tmdat.state = rfile.tmdat.state ∨ (r = 0 ∧ h.tmdat.state = 1))
        ∧ (rfile.tmdat.state ≤ 1 → rfile.tmdat.state ≤ h.tmdat.state))
    ∧ (∀ r : Int, open_telemac rfile v = some (r, h) →
        (h.tmdat.state = rfile.tmdat.state ∨ h.tmdat.state = 1 ∨ h.tmdat.state = 2)
        ∧ (rfile.tmdat.state ≤ 1 → rfile.tmdat.state ≤ h.tmdat.state)) := by
  refine ⟨?_, ?_, ?_, ?_⟩
  · intro r hacc
    rcases mesh_state rfile v r h hacc with ⟨-, h2⟩ | ⟨-, h1, h2⟩
    · rw [h2]
    · rw [h1, h2]; decide
  · intro d hacc
    obtain ⟨-, -, -, -, htm, -⟩ := data_frame rfile t v d h hacc
    have hs := congrArg telemac_data_t.state htm
    exact hs
  · intro r hacc
    have hs := header_state rfile v r h hacc
    refine ⟨hs, ?_⟩
    intro hle
    rcases hs with h1 | ⟨-, h1⟩
    · rw [h1]
    · rw [h1]; exact hle
  · intro r hacc
    unfold open_telemac at hacc
    split at hacc
    · simp at hacc
    rename_i rh h1 hh
    have hs1 := header_state rfile v rh h1 hh
    split at hacc
    · simp only [Option.some.injEq, Prod.mk.injEq] at hacc
      obtain ⟨-, he⟩ := hacc
      subst he
      rename_i hneg
      rcases hs1 with e1 | ⟨e0, e1⟩
      · exact ⟨Or.inl e1, fun _ => by rw [e1]⟩
      · omega
    split at hacc
    · simp at hacc
    rename_i rm h2 hm
    have hs2 := mesh_state h1 v rm h2 hm
    have key : (h2.tmdat.state = rfile.tmdat.state ∨ h2.tmdat.state = 1 ∨ h2.tmdat.state = 2)
        ∧ (rfile.tmdat.state ≤ 1 → rfile.tmdat.state ≤ h2.tmdat.state) := by
      constructor
      · rcases hs2 with ⟨-, e2⟩ | ⟨-, -, e2⟩
        · rcases hs1 with e1 | ⟨-, e1⟩
          · exact Or.inl (by rw [e2, e1])
          · exact Or.inr (Or.inl (by rw [e2, e1]))
        · exact Or.inr (Or.inr e2)
      · intro hle
        rcases hs2 with ⟨-, e2⟩ | ⟨-, -, e2⟩
        · rcases hs1 with e1 | ⟨-, e1⟩
          · rw [e2, e1]
          · rw [e2, e1]; exact hle
        · rw [e2]; omega
    split at hacc
    · simp only [Option.some.injEq, Prod.mk.injEq] at hacc
      obtain ⟨-, he⟩ := hacc
      subst he
      exact key
    · rw [open_check_tmdat h2 r h hacc]
      exact key

theorem state_moves_forward_witness :
    minimal_header_handle.tmdat.state ≤ minimal_mesh_handle.tmdat.state
    ∧ minimal_step1_handle.tmdat.state = minimal_mesh_handle.tmdat.state
    ∧ (fresh_handle (layout minimal_params)).tmdat.state ≤ minimal_header_handle.tmdat.state
    ∧ (fresh_handle (layout minimal_params)).tmdat.state = 0
    ∧ minimal_header_handle.tmdat.state = 1 ∧ minimal_mesh_handle.tmdat.state = 2 :=
  ⟨(state_moves_forward minimal_header_handle minimal_mesh_handle 0 0).1 0 (by decide),
    (state_moves_forward minimal_mesh_handle minimal_step1_handle 1 0).2.1
      (some [[1082130432, 1084227584, 1086324736]]) (by decide),
    ((state_moves_forward (fresh_handle (layout minimal_params)) minimal_header_handle 0 0).2.2.1
      0 (by decide)).2 (by decide),
    by decide, by decide, by decide⟩

theorem fortran_read_floats (np : Nat) (f : FILE)
    (hlen : f.pos + (4 * np + 8) ≤ f.data.length) :
    (le_words np (fortran_read (List.replicate (4 * np) 0) 4 np f).2.1).map float_swap
      = (List.range np).map (fun i => be_at f.data (f.pos + 4 + 4 * i))
    ∧ (fortran_read (List.replicate (4 * np) 0) 4 np f).2.2.data = f.data
    ∧ (fortran_read (List.replicate (4 * np) 0) 4 np f).2.2.pos = f.pos + (4 * np + 8) := by
  obtain ⟨hd, hp, hb, -⟩ := fortran_read_spec (List.replicate (4 * np) 0) 4 np f
  refine ⟨?_, hd, ?_⟩
  · have hl : ((f.data.drop (f.pos + 4)).take (4 * np)).length = 4 * np := by
      rw [List.length_take, List.length_drop]
      omega
    have hz : List.drop (4 * np) (List.replicate (4 * np) (0 : Byte)) = [] :=
      List.drop_of_length_le (by rw [List.length_replicate])
    rw [hb, hl, hz, List.append_nil, floats_be_slices np (f.pos + 4) f.data (by omega)]
    rfl
  · rw [hp]
    omega

theorem read_fields_values (np : Nat) : ∀ (k : Nat) (f : FILE),
    f.pos + k * (4 * np + 8) ≤ f.data.length →
    (read_fields np k f).1
      = (List.range k).map (fun j => (List.range np).map
          (fun i => be_at f.data (f.pos + j * (4 * np + 8) + 4 + 4 * i)))
  | 0, f, _ => rfl
  | k + 1, f, hlen => by
    have hlen1 : f.pos + (4 * np + 8) ≤ f.data.length := by
      have : (k + 1) * (4 * np + 8) = k * (4 * np + 8) + (4 * np + 8) := Nat.succ_mul _ _
      omega
    obtain ⟨hv, hd, hp⟩ := fortran_read_floats np f hlen1
    have ih := read_fields_values np k (fortran_read (List.replicate (4 * np) 0) 4 np f).2.2
      (by
        rw [hd, hp]
        have : (k + 1) * (4 * np + 8) = k * (4 * np + 8) + (4 * np + 8) := Nat.succ_mul _ _
        omega)
    simp only [read_fields]
    rw [ih, hv, hd, hp, List.range_succ_eq_map, List.map_cons, List.map_map]
    congr 1
    · simp only [Nat.zero_mul, Nat.add_zero]
    · apply List.map_congr_left
      intro j _
      apply List.map_congr_left
      intro i _
      simp only [Function.comp_apply, Nat.succ_eq_add_one]
      congr 1
      have : (j + 1) * (4 * np + 8) = j * (4 * np + 8) + (4 * np + 8) := Nat.succ_mul _ _
      omega
theorem fortran_read_stamp (buf : List Byte) (f : FILE) (hbuf : buf.length = 4)
    (hlen : f.pos + 12 ≤ f.data.length) :
    float_swap (le_val (fortran_read buf 4 1 f).2.1) = be_at f.data (f.pos + 4)
    ∧ (fortran_read buf 4 1 f).2.2.data = f.data
    ∧ (fortran_read buf 4 1 f).2.2.pos = f.pos + 12 := by
  obtain ⟨hd, hp, hb, -⟩ := fortran_read_spec buf 4 1 f
  refine ⟨?_, hd, ?_⟩
  · have hl : ((f.data.drop (f.pos + 4)).take (4 * 1)).length = 4 := by
      rw [List.length_take, List.length_drop]
      omega
    have hz : List.drop 4 buf = [] := List.drop_of_length_le (by rw [hbuf])
    rw [hb, hl, hz, List.append_nil, float_swap_le_val _ hl]
    rfl
  · rw [hp]
    omega

theorem data_forward (rfile : resfile_t) (t : Nat) (v : Int) (P R : Nat)
    (hst : rfile.tmdat.state = 2) (hP : rfile.datastart = (P : Int))
    (hR : rfile.datasize = (R : Int))
    (ht : t < rfile.tmdat.timestamp.length)
    (hcnt : (rfile.tmdat.nbv_1 + rfile.tmdat.nbv_2) % 4294967296 ≤ INT_MAX)
    (hnp : rfile.tmdat.npoin ≤ INT_MAX)
    (hfile : P + t * R
      + (12 + (rfile.tmdat.nbv_1 + rfile.tmdat.nbv_2) % 4294967296
          * (4 * rfile.tmdat.npoin + 8)) ≤ rfile.file.data.length)
    (hsize : rfile.file.data.length < 9223372036854775808) :
    ∃ h : resfile_t,
      get_telemac_data rfile (t : Int) v
        = some (some ((List.range ((rfile.tmdat.nbv_1 + rfile.tmdat.nbv_2) % 4294967296)).map
            (fun j => (List.range rfile.tmdat.npoin).map (fun i =>
              be_at rfile.file.data
                (P + t * R + 12 + j * (4 * rfile.tmdat.npoin + 8) + 4 + 4 * i)))), h)
      ∧ h.tmdat.timestamp
          = rfile.tmdat.timestamp.set t (be_at rfile.file.data (P + t * R + 4)) := by
  have hoff : rfile.datastart + (t : Int) * rfile.datasize = ((P + t * R : Nat) : Int) := by
    rw [hP, hR]; push_cast; ring
  have hprod : (t : Int) * rfile.datasize = ((t * R : Nat) : Int) := by
    rw [hR]; push_cast; ring
  have h1 : (rfile.tmdat.state ≠ 2) = False := by simp [hst]
  unfold get_telemac_data
  simp only [h1, if_false]
  rw [hoff, hprod]
  generalize hN : t * R = N at hfile ⊢
  generalize hC : (rfile.tmdat.nbv_1 + rfile.tmdat.nbv_2) % 4294967296 = C at hfile hcnt ⊢
  have hc : ¬ (((N : Nat) : Int) < -9223372036854775808
      ∨ (9223372036854775808 : Int) ≤ ((N : Nat) : Int)
      ∨ ((P + N : Nat) : Int) < -9223372036854775808
      ∨ (9223372036854775808 : Int) ≤ ((P + N : Nat) : Int)) := by omega
  rw [if_neg hc]
  have hsk : fseeko rfile.file ((P + N : Nat) : Int)
      = (0, { data := rfile.file.data, pos := P + N, eof := false }) := by
    unfold fseeko
    rw [if_neg (by omega), Int.toNat_ofNat]
  rw [hsk]
  have hoob : ¬ ((t : Int) < 0 ∨ (rfile.tmdat.timestamp.length : Int) ≤ (t : Int)) := by omega
  simp only [ne_eq, not_true_eq_false, if_false, hoob, Int.toNat_ofNat]
  rw [if_neg (Nat.not_lt.mpr hcnt), if_neg (fun hh => Nat.not_lt.mpr hnp hh.2)]
  obtain ⟨hv, hd, hp⟩ := fortran_read_stamp
    (le_bytes 4 (rfile.tmdat.timestamp.getD t 0))
    { data := rfile.file.data, pos := P + N, eof := false } (le_bytes_length 4 _) (by
      show P + N + 12 ≤ rfile.file.data.length
      omega)
  have hvals := read_fields_values rfile.tmdat.npoin C
    (fortran_read (le_bytes 4 (rfile.tmdat.timestamp.getD t 0)) 4 1
      { data := rfile.file.data, pos := P + N, eof := false }).2.2 (by
      rw [hd, hp]
      show P + N + 12 + _ ≤ rfile.file.data.length
      omega)
  rw [hd, hp] at hvals
  dsimp only at hv hvals
  rw [hvals, hv]
  exact ⟨_, rfl, rfl⟩

theorem getD_set_self (l : List Nat) (t a : Nat) (ht : t < l.length) :
    (l.set t a).getD t 0 = a := by
  simp [List.getD_eq_getElem?_getD, ht]

theorem data_forward_values (rfile : resfile_t) (t : Nat) (v : Int)
    (hok : step_in_file rfile t) :
    ∃ h : resfile_t,
      get_telemac_data rfile (t : Int) v
        = some (some ((List.range ((rfile.tmdat.nbv_1 + rfile.tmdat.nbv_2) % 4294967296)).map
            (fun j => (List.range rfile.tmdat.npoin).map (fun i =>
              be_at rfile.file.data
                (rfile.datastart.toNat + t * rfile.datasize.toNat + 12
                  + j * (4 * rfile.tmdat.npoin + 8) + 4 + 4 * i)))), h)
      ∧ h.tmdat.timestamp.getD t 0
          = be_at rfile.file.data (rfile.datastart.toNat + t * rfile.datasize.toNat + 4)
      ∧ h.tmdat.timestamp
          = rfile.tmdat.timestamp.set t
              (be_at rfile.file.data (rfile.datastart.toNat + t * rfile.datasize.toNat + 4)) := by
  obtain ⟨hst, hds0, hD0, hts, ht, hcnt, hnp, hfile, hsize⟩ := hok
  have hP : rfile.datastart = ((rfile.datastart.toNat : Nat) : Int) :=
    (Int.toNat_of_nonneg hds0).symm
  have hR : rfile.datasize = ((rfile.datasize.toNat : Nat) : Int) :=
    (Int.toNat_of_nonneg hD0).symm
  obtain ⟨h, hh, htime⟩ := data_forward rfile t v rfile.datastart.toNat
    rfile.datasize.toNat hst hP hR (by omega) hcnt hnp hfile hsize
  refine ⟨h, hh, ?_, htime⟩
  rw [htime]
  exact getD_set_self _ _ _ (by omega)

/-- C15 fails where `nbv_1 + nbv_2` does not fit 32 bits: on the minimal file with
`nbv_2 = 0xFFFFFFFF` (`nbv_1 = 1`, `npoin = 3`) followed by one timestamp record,
`open_telemac` returns 0 and leaves a handle in state 2 with `nt = 1` and
`datasize = 12`, the file holds the 12 bytes of timestep 0, and
`get_telemac_data(0)` returns 0 arrays, not `nbv_1 + nbv_2 = 4294967296`. -/
theorem data_count_wraps :
    (layout wrapped_count_params).length = 308
    ∧ (open_telemac (fresh_handle (layout wrapped_count_params)) 0).map Prod.fst = some 0
    ∧ wrapped_count_handle.tmdat.state = 2 ∧ wrapped_count_handle.tmdat.nt = 1
    ∧ wrapped_count_handle.tmdat.nbv_1 = 1 ∧ wrapped_count_handle.tmdat.nbv_2 = 4294967295
    ∧ wrapped_count_handle.tmdat.npoin = 3
    ∧ wrapped_count_handle.datastart = 296 ∧ wrapped_count_handle.datasize = 12
    ∧ step_in_file wrapped_count_handle 0
    ∧ (get_telemac_data wrapped_count_handle 0 0).map
        (fun r => (r.1, r.2.tmdat.timestamp)) = some (some [], [0])
    ∧ 1 + 4294967295 = 4294967296 := by
  decide

/-- C15 (amended): for every handle in state 2 over a well-framed file and every
`t < nt` (`step_in_file`: the file holds the records of timestep `t` in full, the
counts are within the range of the `int` loop indices), `get_telemac_data(t)`
returns `(nbv_1 + nbv_2) mod 2^32` arrays (the `uint32_t` sum of the code, which is
`nbv_1 + nbv_2` when that is below `2^32`) of `npoin` values in declared order,
value `i` of array `j` being the float whose big-endian bytes lie at offset
`datastart + t*datasize + 12 + j*(4*npoin + 8) + 4 + 4*i`, and stores in
`timestamp[t]` the float whose big-endian bytes lie at offset
`datastart + t*datasize + 4`. -/
theorem data_read_values (rfile : resfile_t) (t : Nat) (v : Int)
    (hok : step_in_file rfile t) :
    ∃ h : resfile_t,
      get_telemac_data rfile (t : Int) v
        = some (some ((List.range ((rfile.tmdat.nbv_1 + rfile.tmdat.nbv_2) % 4294967296)).map
            (fun j => (List.range rfile.tmdat.npoin).map (fun i =>
              be_at rfile.file.data
                (rfile.datastart.toNat + t * rfile.datasize.toNat + 12
                  + j * (4 * rfile.tmdat.npoin + 8) + 4 + 4 * i)))), h)
      ∧ h.tmdat.timestamp.getD t 0
          = be_at rfile.file.data (rfile.datastart.toNat + t * rfile.datasize.toNat + 4)
      ∧ h.tmdat.timestamp
          = rfile.tmdat.timestamp.set t
              (be_at rfile.file.data (rfile.datastart.toNat + t * rfile.datasize.toNat + 4)) :=
  data_forward_values rfile t v hok

theorem mesh_step_in_file (rfile : resfile_t) (v : Int) (h : resfile_t) (t : Nat)
    (hacc : get_telemac_mesh rfile v = some (0, h))
    (hle : rfile.meshstart.toNat ≤ rfile.file.data.length)
    (hcnt : rfile.tmdat.nbv_1 + rfile.tmdat.nbv_2 ≤ INT_MAX)
    (hfit : spec_stride rfile.tmdat.nbv_1 rfile.tmdat.nbv_2 rfile.tmdat.npoin
      < 9223372036854775808)
    (hsize : rfile.file.data.length < 9223372036854775808)
    (ht : t < h.tmdat.nt) :
    step_in_file h t
    ∧ h.datasize = ((8 + 4 + (h.tmdat.nbv_1 + h.tmdat.nbv_2) * (4 * h.tmdat.npoin + 8) : Nat)
        : Int) := by
  obtain ⟨-, -, -, hnpmax, -, -, -, -, -, -, -, hst, hnp, -, -, hb1, hb2, hd, hstart, hds, hne,
    hnt, -⟩ := mesh_accept_fields rfile v h hacc
  have hpos := mesh_accept_pos_le rfile v h hacc hle
  obtain ⟨-, -, -, -, f2, -, -, hacc2⟩ := mesh_ikle_accept rfile v h hacc
  obtain ⟨-, -, f3, -, -, hacc3⟩ := mesh_ipobo_accept _ _ _ _ hacc2
  obtain ⟨-, -, f4, -, -, hacc4⟩ := mesh_X_accept _ _ _ _ hacc3
  obtain ⟨-, -, f5, -, -, hacc5⟩ := mesh_Y_accept _ _ _ _ hacc4
  obtain ⟨-, -, -, -, -, -, htm⟩ := mesh_nt_accept _ _ _ _ _ hacc5
  have hlen : h.tmdat.timestamp.length = h.tmdat.nt := by
    have e1 := congrArg telemac_data_t.timestamp htm
    have e2 := congrArg telemac_data_t.nt htm
    dsimp only at e1 e2
    rw [e1, e2, List.length_replicate]
  have hsum : rfile.tmdat.nbv_1 + rfile.tmdat.nbv_2 < 4294967296 := by
    unfold INT_MAX at hcnt
    omega
  have hD : h.datasize
      = ((spec_stride rfile.tmdat.nbv_1 rfile.tmdat.nbv_2 rfile.tmdat.npoin : Nat) : Int) := by
    rw [hds, datasize_expr_eq_stride _ _ _ hsum hfit]
  have hA := nt_prod_le ((rfile.file.data.length : Int) - h.datastart) h.datasize
    (by rw [hstart]; omega) hne
  rw [← hnt, hD, hstart] at hA
  have hmul : (t + 1) * spec_stride rfile.tmdat.nbv_1 rfile.tmdat.nbv_2 rfile.tmdat.npoin
      ≤ h.tmdat.nt * spec_stride rfile.tmdat.nbv_1 rfile.tmdat.nbv_2 rfile.tmdat.npoin :=
    Nat.mul_le_mul_right _ ht
  have hsucc : (t + 1) * spec_stride rfile.tmdat.nbv_1 rfile.tmdat.nbv_2 rfile.tmdat.npoin
      = t * spec_stride rfile.tmdat.nbv_1 rfile.tmdat.nbv_2 rfile.tmdat.npoin
        + spec_stride rfile.tmdat.nbv_1 rfile.tmdat.nbv_2 rfile.tmdat.npoin := Nat.succ_mul _ _
  have hA2 : h.file.pos
      + h.tmdat.nt * spec_stride rfile.tmdat.nbv_1 rfile.tmdat.nbv_2 rfile.tmdat.npoin
      ≤ rfile.file.data.length := by
    have : ((spec_stride rfile.tmdat.nbv_1 rfile.tmdat.nbv_2 rfile.tmdat.npoin
        * h.tmdat.nt : Nat) : Int) ≤ (rfile.file.data.length : Int) - (h.file.pos : Int) := by
      push_cast
      exact hA
    have hcomm := Nat.mul_comm h.tmdat.nt
      (spec_stride rfile.tmdat.nbv_1 rfile.tmdat.nbv_2 rfile.tmdat.npoin)
    omega
  have hstr : spec_stride rfile.tmdat.nbv_1 rfile.tmdat.nbv_2 rfile.tmdat.npoin
      = 12 + (rfile.tmdat.nbv_1 + rfile.tmdat.nbv_2) % 4294967296
          * (4 * rfile.tmdat.npoin + 8) := by
    rw [Nat.mod_eq_of_lt hsum]
    rfl
  constructor
  · unfold step_in_file
    rw [hb1, hb2, hnp, hd, hstart, hD, Int.toNat_ofNat, Int.toNat_ofNat]
    refine ⟨hst, Int.ofNat_nonneg _, Int.ofNat_nonneg _, hlen, ht, ?_, hnpmax, ?_, hsize⟩
    · rw [Nat.mod_eq_of_lt hsum]
      exact hcnt
    · rw [← hstr]
      omega
  · rw [hD, hb1, hb2, hnp]
    rfl

theorem data_read_values_witness :
    step_in_file minimal_mesh_handle 1
    ∧ (get_telemac_data minimal_mesh_handle 1 0).map (fun r => (r.1, r.2.tmdat.timestamp))
        = some (some [[1082130432, 1084227584, 1086324736]], [0, 1065353216])
    ∧ ∃ h : resfile_t,
      get_telemac_data minimal_mesh_handle ((1 : Nat) : Int) 0
        = some (some ((List.range ((minimal_mesh_handle.tmdat.nbv_1
            + minimal_mesh_handle.tmdat.nbv_2) % 4294967296)).map (fun j =>
            (List.range minimal_mesh_handle.tmdat.npoin).map (fun i =>
              be_at minimal_mesh_handle.file.data
                (minimal_mesh_handle.datastart.toNat + 1 * minimal_mesh_handle.datasize.toNat + 12
                  + j * (4 * minimal_mesh_handle.tmdat.npoin + 8) + 4 + 4 * i)))), h)
      ∧ h.tmdat.timestamp.getD 1 0
          = be_at minimal_mesh_handle.file.data
              (minimal_mesh_handle.datastart.toNat + 1 * minimal_mesh_handle.datasize.toNat + 4)
      ∧ h.tmdat.timestamp
          = minimal_mesh_handle.tmdat.timestamp.set 1
              (be_at minimal_mesh_handle.file.data
                (minimal_mesh_handle.datastart.toNat
                  + 1 * minimal_mesh_handle.datasize.toNat + 4)) :=
  ⟨by decide, by decide, data_read_values minimal_mesh_handle 1 0 (by decide)⟩

/-- C16 fails: on the handle (state 2, `nt = 2`) of the minimal file whose field
record of timestep 0 is framed by the markers 12 and 13, `get_telemac_data(0)`
returns the array of that record, not `NULL`; and for `t = 2 = nt`, where the
offset is at the end of the file, the call stores to `timestamp[2]` outside the
array (no defined result) instead of returning `NULL`. -/
theorem data_ignores_framing :
    bad_field_handle.tmdat.state = 2 ∧ bad_field_handle.tmdat.nt = 2
    ∧ bad_field_handle.datastart = 296 ∧ bad_field_handle.datasize = 32
    ∧ (bad_field_handle.file.data.drop 308).take 20
        = be_bytes 12 ++ be_words [1065353216, 1073741824, 1077936128] ++ be_bytes 13
    ∧ (get_telemac_data bad_field_handle 0 0).map Prod.fst
        = some (some [[1065353216, 1073741824, 1077936128]])
    ∧ bad_field_handle.file.data.length = 360
    ∧ get_telemac_data bad_field_handle 2 0 = none := by
  decide

theorem data_timestamp (rfile : resfile_t) (t v : Int) (d : Option (List (List Nat)))
    (h : resfile_t) (hacc : get_telemac_data rfile t v = some (d, h)) :
    h.tmdat.timestamp = rfile.tmdat.timestamp
    ∨ ∃ x : Nat, h.tmdat.timestamp = rfile.tmdat.timestamp.set t.toNat x := by
  unfold get_telemac_data at hacc
  simp only [] at hacc
  split at hacc
  · simp only [Option.some.injEq, Prod.mk.injEq] at hacc
    obtain ⟨-, hh⟩ := hacc
    subst hh
    exact Or.inl rfl
  split at hacc
  · simp at hacc
  split at hacc
  · simp only [Option.some.injEq, Prod.mk.injEq] at hacc
    obtain ⟨-, hh⟩ := hacc
    subst hh
    exact Or.inl rfl
  split at hacc
  · simp at hacc
  split at hacc
  · simp at hacc
  split at hacc
  · simp at hacc
  simp only [Option.some.injEq, Prod.mk.injEq] at hacc
  obtain ⟨-, hh⟩ := hacc
  subst hh
  exact Or.inr ⟨_, rfl⟩

theorem data_defined (rfile : resfile_t) (t : Nat) (v : Int)
    (ht : t < rfile.tmdat.timestamp.length)
    (hcnt : (rfile.tmdat.nbv_1 + rfile.tmdat.nbv_2) % 4294967296 ≤ INT_MAX)
    (hnp : rfile.tmdat.npoin ≤ INT_MAX)
    (hoff : -9223372036854775808 ≤ (t : Int) * rfile.datasize
      ∧ (t : Int) * rfile.datasize < 9223372036854775808
      ∧ -9223372036854775808 ≤ rfile.datastart + (t : Int) * rfile.datasize
      ∧ rfile.datastart + (t : Int) * rfile.datasize < 9223372036854775808) :
    get_telemac_data rfile (t : Int) v ≠ none := by
  intro hn
  unfold get_telemac_data at hn
  simp only [] at hn
  split at hn
  · simp at hn
  split at hn
  · rename_i hov
    generalize (t : Int) * rfile.datasize = prod at hov hoff
    omega
  split at hn
  · simp at hn
  split at hn
  · rename_i hoob
    omega
  split at hn
  · rename_i hc
    exact Nat.not_lt.mpr hcnt hc
  split at hn
  · rename_i hc
    exact Nat.not_lt.mpr hnp hc.2
  simp at hn

theorem getD_set_other (l : List Nat) (t s a : Nat) (hs : s ≠ t) :
    (l.set t a).getD s 0 = l.getD s 0 := by
  simp [List.getD_eq_getElem?_getD, List.getElem?_set_ne (Ne.symm hs)]

/-- C22: for every handle in state 2 and every `t < nt` (the timestamp array
having its `nt` entries, the counts within the range of the `int` loop indices and
the seek offset within `off_t`), `get_telemac_data(t)` returns and leaves every
field of the decoded data except `timestamp` as it was (title, format, variable
counts and names, `iparam`, date, `nelem`, `npoin`, `ndp`, `ikle`, `ipobo`, `X`,
`Y`, `XYrange`, `nt`, state), leaves `meshstart`, `datastart`, `datasize` and the
bytes of the file as they were, and leaves every `timestamp[s]` with `s != t` as it
was. -/
theorem data_frame_effect (rfile : resfile_t) (t : Nat) (v : Int)
    (hst : rfile.tmdat.state = 2) (ht : t < rfile.tmdat.nt)
    (hlen : rfile.tmdat.timestamp.length = rfile.tmdat.nt)
    (hcnt : (rfile.tmdat.nbv_1 + rfile.tmdat.nbv_2) % 4294967296 ≤ INT_MAX)
    (hnp : rfile.tmdat.npoin ≤ INT_MAX)
    (hoff : -9223372036854775808 ≤ (t : Int) * rfile.datasize
      ∧ (t : Int) * rfile.datasize < 9223372036854775808
      ∧ -9223372036854775808 ≤ rfile.datastart + (t : Int) * rfile.datasize
      ∧ rfile.datastart + (t : Int) * rfile.datasize < 9223372036854775808) :
    ∃ (d : Option (List (List Nat))) (h : resfile_t),
      get_telemac_data rfile (t : Int) v = some (d, h)
      ∧ h.tmdat = { rfile.tmdat with timestamp := h.tmdat.timestamp }
      ∧ h.meshstart = rfile.meshstart ∧ h.datastart = rfile.datastart
      ∧ h.datasize = rfile.datasize ∧ h.file.data = rfile.file.data
      ∧ h.tmdat.timestamp.length = rfile.tmdat.timestamp.length
      ∧ ∀ s : Nat, s ≠ t →
          h.tmdat.timestamp.getD s 0 = rfile.tmdat.timestamp.getD s 0 := by
  have hdef := data_defined rfile t v (by omega) hcnt hnp hoff
  cases hres : get_telemac_data rfile (t : Int) v with
  | none => exact absurd hres hdef
  | some p =>
    obtain ⟨d, h⟩ := p
    obtain ⟨hd, hm, hs, hz, htm, hl⟩ := data_frame rfile t v d h hres
    refine ⟨d, h, rfl, htm, hm, hs, hz, hd, hl, ?_⟩
    intro s hs
    rcases data_timestamp rfile t v d h hres with e | ⟨x, e⟩
    · rw [e]
    · rw [e, Int.toNat_ofNat]
      exact getD_set_other _ _ _ _ hs

theorem data_frame_effect_witness :
    (get_telemac_data minimal_mesh_handle 1 0).map (fun r => r.2.tmdat.timestamp)
      = some [0, 1065353216]
    ∧ minimal_mesh_handle.tmdat.timestamp = [0, 0]
    ∧ ∃ (d : Option (List (List Nat))) (h : resfile_t),
      get_telemac_data minimal_mesh_handle ((1 : Nat) : Int) 0 = some (d, h)
      ∧ h.tmdat = { minimal_mesh_handle.tmdat with timestamp := h.tmdat.timestamp }
      ∧ h.meshstart = minimal_mesh_handle.meshstart
      ∧ h.datastart = minimal_mesh_handle.datastart
      ∧ h.datasize = minimal_mesh_handle.datasize
      ∧ h.file.data = minimal_mesh_handle.file.data
      ∧ h.tmdat.timestamp.length = minimal_mesh_handle.tmdat.timestamp.length
      ∧ ∀ s : Nat, s ≠ 1 →
          h.tmdat.timestamp.getD s 0 = minimal_mesh_handle.tmdat.timestamp.getD s 0 :=
  ⟨by decide, by decide,
    data_frame_effect minimal_mesh_handle 1 0 (by decide) (by decide) (by decide) (by decide)
      (by decide) (by decide)⟩

theorem info_aborts_on_negative (data : List Byte) (verbose : Nat) (rval : Int)
    (h : resfile_t)
    (hopen : open_telemac (fresh_handle data) (if 1 < verbose then 1 else 0) = some (rval, h))
    (hneg : rval < 0) :
    info_main data verbose false
      = some { code := rval,
               out := (if verbose ≠ 0 then [info_line.opening, info_line.returned rval]
                       else [info_line.opening]) ++ [info_line.errors_abort],
               reads := [] } := by
  unfold info_main
  rw [hopen]
  simp only [hneg, and_self, if_true]
  by_cases hv : verbose = 0
  · simp [hv]
  · simp [hv]

/-- C23 fails for trailing data: on the minimal file followed by one extra byte,
`open_telemac` returns 3 and `telemac-info` run without `-f` does not abort: it
prints the summary, reads timesteps 0 and 1 and returns 0 (`EXIT_SUCCESS`). A
negative result of `open_telemac` (here -2, for the same file cut inside the mesh
records) does make it abort before the summary. -/
theorem info_continues_on_trailing_data :
    (open_telemac (fresh_handle (layout minimal_params ++ [0])) 0).map Prod.fst = some 3
    ∧ info_main (layout minimal_params ++ [0]) 0 false
      = some { code := 0,
               out := [info_line.opening,
                 info_line.title ([84, 69, 83, 84] ++ List.replicate 67 32) SERAFIN,
                 info_line.variables [[72] ++ List.replicate 30 32],
                 info_line.range [3212836864, 1075838976, 0, 1073741824],
                 info_line.sizes 3 1 3, info_line.times,
                 info_line.steps 2 0 1065353216, info_line.done],
               reads := [0, 1] }
    ∧ (open_telemac (fresh_handle ((layout minimal_params).take 250)) 0).map Prod.fst
        = some (-2)
    ∧ info_main ((layout minimal_params).take 250) 0 false
      = some { code := -2, out := [info_line.opening, info_line.errors_abort], reads := [] } := by
  decide

theorem split_record (l : List Byte) (c : Nat) :
    l = l.take 4 ++ ((l.drop 4).take c ++ (((l.drop (4 + c)).take 4) ++ l.drop (4 + c + 4))) := by
  have e1 : l.drop (4 + c) = (l.drop 4).drop c := by rw [List.drop_drop]
  have e2 : l.drop (4 + c + 4) = ((l.drop 4).drop c).drop 4 := by
    rw [List.drop_drop, List.drop_drop, Nat.add_assoc]
  rw [e2, e1, List.take_append_drop, List.take_append_drop, List.take_append_drop]

theorem fortran_read_inside (A X buf : List Byte) (csize num p : Nat) (e : Bool)
    (hin : p + (csize * num + 8) ≤ A.length) :
    fortran_read buf csize num { data := A ++ X, pos := p, eof := e }
      = (if le_val ((A.drop p).take 4) ≠ le_val ((A.drop (p + (4 + csize * num))).take 4)
           then -1 else to_int (csize * num / csize),
         (A.drop (p + 4)).take (csize * num) ++ buf.drop (csize * num),
         { data := A ++ X, pos := p + (csize * num + 8), eof := e }) := by
  have hP : ((A.drop (p + 4)).take (csize * num)).length = csize * num := by
    rw [List.length_take, List.length_drop]; omega
  have h := fortran_read_framed { data := A ++ X, pos := p, eof := e } buf
    ((A.drop p).take 4) ((A.drop (p + 4)).take (csize * num))
    ((A.drop (p + (4 + csize * num))).take 4) (A.drop (p + (4 + csize * num + 4)) ++ X)
    csize num
    (by rw [List.length_take, List.length_drop]; omega) (by
      rw [List.length_take, List.length_drop]; omega) hP (by
      show (A ++ X).drop p = _
      rw [List.drop_append_of_le_length (by omega)]
      have hs := split_record (A.drop p) (csize * num)
      rw [List.drop_drop, List.drop_drop, List.drop_drop] at hs
      conv_lhs => rw [hs]
      simp only [List.append_assoc])
  rw [h, hP]

theorem fortran_read_open_end (f : FILE) (buf L1 P T : List Byte) (csize num : Nat)
    (h1 : L1.length = 4) (hP : P.length = csize * num)
    (hd : f.data.drop f.pos = L1 ++ (P ++ T)) :
    fortran_read buf csize num f
      = (if le_val L1 ≠ le_val (T.take 4 ++ (le_bytes 4 0).drop (T.take 4).length) then -1
           else to_int (P.length / csize),
         P ++ buf.drop P.length,
         { data := f.data, pos := f.pos + 4 + P.length + (T.take 4).length,
           eof := f.eof || decide ((T.take 4).length < 4) }) := by
  have e1 := fread_full f (le_bytes 4 0) L1 (P ++ T) 4 1 (by simpa using h1) hd
  have d1 := drop_after f L1 _ hd
  have e2 := fread_full { f with pos := f.pos + L1.length } buf P T csize num hP d1
  have d2 := drop_after { f with pos := f.pos + L1.length } P _ d1
  have z : List.drop 4 (le_bytes 4 0) = [] := rfl
  simp only [h1, z, List.append_nil] at e1 e2 d2
  have e3 : fread (le_bytes 4 0) 4 1 { data := f.data, pos := f.pos + 4 + P.length, eof := f.eof }
      = ((T.take 4).length / 4, T.take 4 ++ (le_bytes 4 0).drop (T.take 4).length,
          { data := f.data, pos := f.pos + 4 + P.length + (T.take 4).length,
            eof := f.eof || decide ((T.take 4).length < 4) }) := by
    simp only [fread, d2, Nat.mul_one]
  simp only [fortran_read, e1, e2, e3]
  by_cases hne : le_val L1 ≠ le_val (T.take 4 ++ (le_bytes 4 0).drop (T.take 4).length)
  · rw [if_pos hne, if_pos hne]
  · rw [if_neg hne, if_neg hne]

theorem header_r6_sentinel (rfile1 rfile2 : resfile_t) (results : telemac_data_t)
    (A s1 s2 B : List Byte) (p : Nat) (e : Bool)
    (hm : rfile1.meshstart = rfile2.meshstart) (hs : rfile1.datastart = rfile2.datastart)
    (hz : rfile1.datasize = rfile2.datasize)
    (h1 : s1.length = 4) (h2 : s2.length = 4) (hA : A.length = p + 16) :
    call_view (header_r6 rfile1 results { data := A ++ (s1 ++ B), pos := p, eof := e })
      = call_view (header_r6 rfile2 results { data := A ++ (s2 ++ B), pos := p, eof := e }) := by
  have hw : (A.drop (p + 4)).length = 12 := by rw [List.length_drop]; omega
  have hsplit : A.drop p = (A.drop p).take 4 ++ A.drop (p + 4) := by
    rw [← List.drop_drop, List.take_append_drop]
  have key : ∀ s : List Byte, s.length = 4 →
      fortran_read (List.replicate 16 0) 16 1 { data := A ++ (s ++ B), pos := p, eof := e }
        = (if le_val ((A.drop p).take 4) ≠ le_val (B.take 4 ++ (le_bytes 4 0).drop (B.take 4).length)
             then -1 else 1,
           A.drop (p + 4) ++ s,
           { data := A ++ (s ++ B), pos := p + 4 + 16 + (B.take 4).length,
             eof := e || decide ((B.take 4).length < 4) }) := by
    intro s hs4
    have hlen : (A.drop (p + 4) ++ s).length = 16 * 1 := by
      rw [List.length_append, hw, hs4]
    have h := fortran_read_open_end { data := A ++ (s ++ B), pos := p, eof := e }
      (List.replicate 16 0) ((A.drop p).take 4) (A.drop (p + 4) ++ s) B 16 1
      (by rw [List.length_take, List.length_drop]; omega) hlen (by
        show (A ++ (s ++ B)).drop p = _
        rw [List.drop_append_of_le_length (by omega)]
        conv_lhs => rw [hsplit]
        simp only [List.append_assoc])
    rw [h, hlen]
    have hz16 : List.drop (16 * 1) (List.replicate 16 (0 : Byte)) = [] := by decide
    rw [hz16, List.append_nil]
    rfl
  unfold header_r6
  simp only []
  rw [key s1 h1, key s2 h2]
  by_cases hc : le_val ((A.drop p).take 4)
      = le_val (B.take 4 ++ (le_bytes 4 0).drop (B.take 4).length)
  · have t1 : ∀ s : List Byte, (A.drop (p + 4) ++ s).take 4 = (A.drop (p + 4)).take 4 :=
      fun s => List.take_append_of_le_length (by omega)
    have t2 : ∀ s : List Byte, ((A.drop (p + 4) ++ s).drop 4).take 4
        = ((A.drop (p + 4)).drop 4).take 4 := fun s => by
      rw [List.drop_append_of_le_length (by omega),
        List.take_append_of_le_length (by rw [List.length_drop]; omega)]
    have t3 : ∀ s : List Byte, ((A.drop (p + 4) ++ s).drop 8).take 4
        = ((A.drop (p + 4)).drop 8).take 4 := fun s => by
      rw [List.drop_append_of_le_length (by omega),
        List.take_append_of_le_length (by rw [List.length_drop]; omega)]
    simp only [hc, ne_eq, not_true_eq_false, if_false, t1, t2, t3, call_view, Option.map_some',
      ftello, hm, hs, hz]
  · simp only [hc, ne_eq, not_false_eq_true, if_true, call_view, Option.map_some', hm, hs, hz]
    simp

theorem iparam9_at (A junk : List Byte) (p : Nat) (h : p + 44 ≤ A.length) :
    (List.map int_swap (le_words 10 (List.take (40 * 1) (List.drop (p + 4) A) ++ junk))).getD 9 0
      = be_at A (p + 40) := by
  have hl : (List.take (40 * 1) (List.drop (p + 4) A)).length = 40 := by
    rw [List.length_take, List.length_drop]; omega
  rw [le_words_append 10 _ _ (by rw [hl])]
  have hw := words_be_slices 10 (p + 4) A (by omega)
  have e40 : 4 * 10 = 40 * 1 := by decide
  rw [e40] at hw
  rw [hw]
  have e9 : p + 4 + 4 * 9 = p + 40 := by omega
  show be_val ((A.drop (p + 4 + 4 * 9)).take 4) = _
  rw [e9]
  rfl

theorem header_r4_sentinel (rfile1 rfile2 : resfile_t) (results : telemac_data_t)
    (A s1 s2 B : List Byte) (p : Nat) (e : Bool)
    (hm : rfile1.meshstart = rfile2.meshstart) (hs : rfile1.datastart = rfile2.datastart)
    (hz : rfile1.datasize = rfile2.datasize)
    (h1 : s1.length = 4) (h2 : s2.length = 4)
    (hA : A.length = p + 48 + (if be_at A (p + 40) = 1 then 32 else 0) + 16) :
    call_view (header_r4 rfile1 results { data := A ++ (s1 ++ B), pos := p, eof := e })
      = call_view (header_r4 rfile2 results { data := A ++ (s2 ++ B), pos := p, eof := e }) := by
  have hin : p + (40 * 1 + 8) ≤ A.length := by rw [hA]; omega
  have hI9 := iparam9_at A (List.drop (40 * 1) (words_bytes results.iparam)) p (by omega)
  unfold header_r4
  simp only []
  rw [fortran_read_inside A (s1 ++ B) _ 40 1 p e hin,
    fortran_read_inside A (s2 ++ B) _ 40 1 p e hin]
  simp only []
  generalize (if le_val (List.take 4 (List.drop p A))
      ≠ le_val (List.take 4 (List.drop (p + (4 + 40 * 1)) A)) then (-1 : Int)
    else to_int (40 * 1 / 40)) = c
  generalize le_words 10 (List.take (40 * 1) (List.drop (p + 4) A)
    ++ List.drop (40 * 1) (words_bytes results.iparam)) = W at hI9 ⊢
  by_cases hc : c ≠ 1
  · rw [if_pos hc, if_pos hc]
    simp only [call_view, Option.map_some', hm, hs, hz]
  rw [if_neg hc, if_neg hc]
  by_cases h9 : (List.map int_swap W).getD 9 0 = 1
  · have hA2 : A.length = p + (40 * 1 + 8) + (24 * 1 + 8) + 16 := by
      rw [hA, if_pos (hI9 ▸ h9)]
    have hin5 : p + (40 * 1 + 8) + (24 * 1 + 8) ≤ A.length := by omega
    rw [if_pos h9, if_pos h9]
    rw [fortran_read_inside A (s1 ++ B) _ 24 1 (p + (40 * 1 + 8)) e hin5,
      fortran_read_inside A (s2 ++ B) _ 24 1 (p + (40 * 1 + 8)) e hin5]
    simp only []
    generalize (if le_val (List.take 4 (List.drop (p + (40 * 1 + 8)) A))
        ≠ le_val (List.take 4 (List.drop (p + (40 * 1 + 8) + (4 + 24 * 1)) A)) then (-1 : Int)
      else to_int (24 * 1 / 24)) = c5
    by_cases hc5 : c5 ≠ 1
    · rw [if_pos hc5, if_pos hc5]
      simp only [call_view, Option.map_some', hm, hs, hz]
    rw [if_neg hc5, if_neg hc5]
    exact header_r6_sentinel rfile1 rfile2 _ A s1 s2 B _ e hm hs hz h1 h2 hA2
  · have hA2 : A.length = p + (40 * 1 + 8) + 16 := by
      rw [hA, if_neg (hI9 ▸ h9)]
    rw [if_neg h9, if_neg h9]
    exact header_r6_sentinel rfile1 rfile2 _ A s1 s2 B _ e hm hs hz h1 h2 hA2

theorem read_var_names_inside (A : List Byte) (e : Bool) : ∀ (n p : Nat) (X : List Byte),
    p + 40 * n ≤ A.length →
    read_var_names n { data := A ++ X, pos := p, eof := e }
      = ((read_var_names n { data := A ++ [], pos := p, eof := e }).1,
         { data := A ++ X, pos := p + 40 * n, eof := e })
  | 0, p, X, _ => rfl
  | n + 1, p, X, h => by
    have hin : p + (32 * 1 + 8) ≤ A.length := by omega
    have ih := read_var_names_inside A e n (p + (32 * 1 + 8)) X (by omega)
    have ih0 := read_var_names_inside A e n (p + (32 * 1 + 8)) [] (by omega)
    simp only [read_var_names]
    rw [fortran_read_inside A X _ 32 1 p e hin, fortran_read_inside A [] _ 32 1 p e hin]
    simp only []
    rw [ih, ih0]
    simp only [Prod.mk.injEq, true_and, FILE.mk.injEq, and_true]
    omega

theorem nbv_1_at (A junk : List Byte) (p : Nat) (h : p + 12 ≤ A.length) :
    int_swap (le_val (List.take 4 (List.take (8 * 1) (List.drop (p + 4) A) ++ junk)))
      = be_at A (p + 4) := by
  have hl : (List.take (8 * 1) (List.drop (p + 4) A)).length = 8 := by
    rw [List.length_take, List.length_drop]; omega
  rw [List.take_append_of_le_length (by rw [hl]; decide), List.take_take,
    int_swap_le_val _ (by rw [List.length_take, List.length_drop]; omega)]
  rfl

theorem header_r2_sentinel (rfile1 rfile2 : resfile_t) (results : telemac_data_t)
    (A s1 s2 B : List Byte) (p : Nat) (e : Bool)
    (hm : rfile1.meshstart = rfile2.meshstart) (hs : rfile1.datastart = rfile2.datastart)
    (hz : rfile1.datasize = rfile2.datasize)
    (h1 : s1.length = 4) (h2 : s2.length = 4)
    (hA : A.length = p + 16 + 40 * be_at A (p + 4) + 48
      + (if be_at A (p + 16 + 40 * be_at A (p + 4) + 40) = 1 then 32 else 0) + 16) :
    call_view (header_r2 rfile1 results { data := A ++ (s1 ++ B), pos := p, eof := e })
      = call_view (header_r2 rfile2 results { data := A ++ (s2 ++ B), pos := p, eof := e }) := by
  have hin : p + (8 * 1 + 8) ≤ A.length := by rw [hA]; omega
  have hn := nbv_1_at A (List.drop (8 * 1) (List.replicate 8 0)) p (by omega)
  have hnames : p + (8 * 1 + 8) + 40 * be_at A (p + 4) ≤ A.length := by rw [hA]; omega
  unfold header_r2
  simp only []
  rw [fortran_read_inside A (s1 ++ B) _ 8 1 p e hin,
    fortran_read_inside A (s2 ++ B) _ 8 1 p e hin]
  simp only []
  rw [hn]
  generalize (if le_val (List.take 4 (List.drop p A))
      ≠ le_val (List.take 4 (List.drop (p + (4 + 8 * 1)) A)) then (-1 : Int)
    else to_int (8 * 1 / 8)) = c
  by_cases hc : c ≠ 1
  · rw [if_pos hc, if_pos hc]
    simp only [call_view, Option.map_some', hm, hs, hz]
  rw [if_neg hc, if_neg hc]
  by_cases hmax : INT_MAX < be_at A (p + 4)
  · rw [if_pos hmax, if_pos hmax]
  rw [if_neg hmax, if_neg hmax]
  rw [read_var_names_inside A e _ _ (s1 ++ B) hnames,
    read_var_names_inside A e _ _ (s2 ++ B) hnames]
  simp only []
  apply header_r4_sentinel rfile1 rfile2 _ A s1 s2 B _ e hm hs hz h1 h2
  have e1 : p + (8 * 1 + 8) + 40 * be_at A (p + 4) = p + 16 + 40 * be_at A (p + 4) := by omega
  rw [e1]
  exact hA

theorem header_sentinel (rfile : resfile_t) (v : Int) (A s1 s2 B : List Byte)
    (h1 : s1.length = 4) (h2 : s2.length = 4) (hA : A.length = sentinel_offset A) :
    call_view (get_telemac_header
        { rfile with file := { rfile.file with data := A ++ (s1 ++ B) } } v)
      = call_view (get_telemac_header
        { rfile with file := { rfile.file with data := A ++ (s2 ++ B) } } v) := by
  unfold sentinel_offset at hA
  have hin : 0 + (80 * 1 + 8) ≤ A.length := by rw [hA]; omega
  have hsk : ∀ X : List Byte, fseeko { rfile.file with data := A ++ X } 0
      = (0, { data := A ++ X, pos := 0, eof := false }) := by
    intro X
    simp [fseeko]
  unfold get_telemac_header
  simp only [hsk, ne_eq, not_true_eq_false, if_false]
  rw [fortran_read_inside A (s1 ++ B) _ 80 1 0 false hin,
    fortran_read_inside A (s2 ++ B) _ 80 1 0 false hin]
  simp only []
  generalize (if le_val (List.take 4 (List.drop 0 A))
      ≠ le_val (List.take 4 (List.drop (0 + (4 + 80 * 1)) A)) then (-1 : Int)
    else to_int (80 * 1 / 80)) = c
  by_cases hc : c = 1
  · simp only [hc, not_true_eq_false, if_false]
    generalize List.take (80 * 1) (List.drop (0 + 4) A)
      ++ List.drop (80 * 1) (List.replicate 80 0) = buf
    by_cases hf : strcmp (snprintf_s 8 (List.drop 72 buf)) SERAFIN = 0
    · simp only [hf, not_true_eq_false, if_false]
      exact header_r2_sentinel _ _ _ A s1 s2 B _ false rfl rfl rfl h1 h2 hA
    · simp only [hf, not_false_eq_true, if_true, call_view, Option.map_some']
  · simp only [hc, not_false_eq_true, if_true, call_view, Option.map_some']

/-- C21: for any two files that differ only in the fourth field of the
`nelem`/`npoin`/`ndp` record (the four bytes at `sentinel_offset`, `s1` in one file
and `s2` in the other), `get_telemac_header` on the same handle returns the same
code and leaves the same decoded data (state included), the same `meshstart`,
`datastart`, `datasize` and the same stream cursor; in particular whenever it
succeeds on one of the files it succeeds on the other. -/
theorem sentinel_not_fatal (rfile : resfile_t) (v : Int) (A s1 s2 B : List Byte)
    (h1 : s1.length = 4) (h2 : s2.length = 4) (hA : A.length = sentinel_offset A) :
    call_view (get_telemac_header
        { rfile with file := { rfile.file with data := A ++ (s1 ++ B) } } v)
      = call_view (get_telemac_header
        { rfile with file := { rfile.file with data := A ++ (s2 ++ B) } } v)
    ∧ ((∃ h : resfile_t, get_telemac_header
          { rfile with file := { rfile.file with data := A ++ (s1 ++ B) } } v = some (0, h))
        → ∃ h : resfile_t, get_telemac_header
          { rfile with file := { rfile.file with data := A ++ (s2 ++ B) } } v = some (0, h)) := by
  have hv := header_sentinel rfile v A s1 s2 B h1 h2 hA
  refine ⟨hv, ?_⟩
  rintro ⟨h, hh⟩
  rw [hh] at hv
  cases hres : get_telemac_header
      { rfile with file := { rfile.file with data := A ++ (s2 ++ B) } } v with
  | none =>
    rw [hres] at hv
    simp [call_view] at hv
  | some p =>
    obtain ⟨r, h'⟩ := p
    rw [hres] at hv
    simp only [call_view, Option.map_some', Option.some.injEq, Prod.mk.injEq] at hv
    exact ⟨h', by rw [← hv.1]⟩

theorem sentinel_not_fatal_witness :
    sentinel_file 1 = layout minimal_params
    ∧ ((layout minimal_params).take 208).length
        = sentinel_offset ((layout minimal_params).take 208)
    ∧ (get_telemac_header (fresh_handle (sentinel_file 7)) 0).map
        (fun r => (r.1, r.2.meshstart, r.2.tmdat.state, r.2.tmdat.nelem, r.2.tmdat.npoin,
          r.2.tmdat.ndp)) = some (0, 216, 1, 1, 3, 3)
    ∧ (call_view (get_telemac_header
          { fresh_handle [] with file := { (fresh_handle []).file with
              data := (layout minimal_params).take 208
                ++ (be_bytes 1 ++ (layout minimal_params).drop 212) } } 0)
        = call_view (get_telemac_header
          { fresh_handle [] with file := { (fresh_handle []).file with
              data := (layout minimal_params).take 208
                ++ (be_bytes 7 ++ (layout minimal_params).drop 212) } } 0)
      ∧ ((∃ h : resfile_t, get_telemac_header
            { fresh_handle [] with file := { (fresh_handle []).file with
                data := (layout minimal_params).take 208
                  ++ (be_bytes 1 ++ (layout minimal_params).drop 212) } } 0 = some (0, h))
          → ∃ h : resfile_t, get_telemac_header
            { fresh_handle [] with file := { (fresh_handle []).file with
                data := (layout minimal_params).take 208
                  ++ (be_bytes 7 ++ (layout minimal_params).drop 212) } } 0 = some (0, h))) :=
  ⟨by decide, by decide, by decide,
    sentinel_not_fatal (fresh_handle []) 0 ((layout minimal_params).take 208) (be_bytes 1)
      (be_bytes 7) ((layout minimal_params).drop 212) (by decide) (by decide) (by decide)⟩

end Telemac
